import Mathlib

/-!
Shallow embedding of the chess rules core of the repository (ChessBoard.cpp,
Piece.cpp and the six piece subclasses, GameState.cpp, GameController.cpp),
together with proofs about the claims on the specification.

Conventions of the embedding:
* C++ `int` is modelled as `Int`.
* The 8x8 grid of `std::unique_ptr<Piece>` is a list of lists of `Option Piece`.
* Unchecked `std::vector::operator[]` access (undefined behaviour when the
  index is out of range) is modelled by `Except RtError`: an out-of-range
  access yields `.error .outOfBounds` instead of continuing.  Board accesses
  that the source performs only after an `isPositionOnBoard` guard are
  modelled with the total accessor `cellGet`, which agrees with the raw
  access on in-range positions.
* `throw std::runtime_error`/`std::out_of_range` are modelled as
  `.error .missingKing` / `.error .malformedState`.
* The per-piece cached valid-move vector is the `validMoves` field of
  `Piece`; cache regeneration is an explicit state transformation, performed
  in the same row-major order as the C++ loops.
* The engine is modelled with `testMode` as an explicit parameter of the
  `GameController` operations (the claims concern `testMode = false`).
-/

namespace Chess

/-- Colour enum (Utilities.h). -/
inductive Colour where
  | WHITE
  | BLACK
deriving DecidableEq, Repr

/-- PieceType enum (Utilities.h). -/
inductive PieceType where
  | PAWN
  | ROOK
  | KNIGHT
  | BISHOP
  | QUEEN
  | KING
  | NONE
deriving DecidableEq, Repr

/-- GameStatus enum (Utilities.h). -/
inductive GameStatus where
  | ONGOING
  | CHECK
  | CHECKMATE
  | STALEMATE
  | PROMPTDRAW
  | DRAW
  | RESIGN
  | TIMEOUT
deriving DecidableEq, Repr

/-- Position struct (Utilities.h): a pair of C++ ints. -/
structure Position where
  row : Int
  col : Int
deriving DecidableEq, Repr

/-- oppositeColour (Utilities.h / ConversionUtil). -/
def oppositeColour : Colour → Colour
  | .WHITE => .BLACK
  | .BLACK => .WHITE

/-- Piece base-class state (Piece.h), with the Pawn subclass fields
(`moveCounter`, `enPassant`) flattened in; they are `0`/`false` on
non-pawns, matching the C++ object layout where only `Pawn` carries them. -/
structure Piece where
  colour : Colour
  position : Position
  pieceType : PieceType
  hasMoved : Bool
  validMoves : List Position
  moveCounter : Int
  enPassant : Bool
deriving DecidableEq, Repr

/-- Piece::getColourModifier. -/
def Piece.colourModifier (pc : Piece) : Int :=
  if pc.colour = .WHITE then -1 else 1

/-- Piece::isValidMove: membership in the cached valid-move vector (the
`start` parameter is ignored by the C++ implementation as well). -/
def Piece.isValidMoveP (pc : Piece) (_start target : Position) : Bool :=
  decide (target ∈ pc.validMoves)

/-- PieceFactory::createPiece: `NONE` (or any unexpected type) yields a null
pointer, every other type a fresh piece with empty cache and cleared flags. -/
def createPiece (colour : Colour) (position : Position) (type : PieceType) : Option Piece :=
  match type with
  | .NONE => none
  | t => some { colour := colour, position := position, pieceType := t,
                hasMoved := false, validMoves := [], moveCounter := 0, enPassant := false }

/-- Runtime-error events of the C++ code: undefined behaviour on an
out-of-range vector index, a null-pointer dereference, the `runtime_error`
thrown by getKingPosition, and the `out_of_range` thrown by
initializeBoardFromString. -/
inductive RtError where
  | outOfBounds
  | nullDeref
  | missingKing
  | malformedState
deriving DecidableEq, Repr

/-- The board grid: 8 rows of 8 optional pieces (ChessBoard.h). -/
structure ChessBoard where
  board : List (List (Option Piece))
deriving DecidableEq, Repr

/-- ChessBoard::isPositionOnBoard. -/
def isPositionOnBoard (p : Position) : Bool :=
  decide (0 ≤ p.row) && decide (p.row < 8) && decide (0 ≤ p.col) && decide (p.col < 8)

/-- Raw `std::vector::operator[]` read: undefined behaviour out of range,
modelled as an `outOfBounds` error. -/
def vecIdx {α : Type} (xs : List α) (i : Int) : Except RtError α :=
  if h : 0 ≤ i ∧ i.toNat < xs.length then .ok (xs.get ⟨i.toNat, h.2⟩) else .error .outOfBounds

/-- ChessBoard::getPieceAtPosition — the unguarded double index
`board[position.row][position.col].get()`. -/
def getPieceAtPositionE (b : ChessBoard) (p : Position) : Except RtError (Option Piece) := do
  let row ← vecIdx b.board p.row
  vecIdx row p.col

/-- ChessBoard::isSpaceEmpty — unguarded access. -/
def isSpaceEmptyE (b : ChessBoard) (p : Position) : Except RtError Bool := do
  let c ← getPieceAtPositionE b p
  return c.isNone

/-- ChessBoard::isSpaceFriendly — unguarded access. -/
def isSpaceFriendlyE (b : ChessBoard) (p : Position) (colour : Colour) : Except RtError Bool := do
  let c ← getPieceAtPositionE b p
  return match c with
  | none => false
  | some pc => pc.colour = colour

/-- ChessBoard::isSpaceEnemy — unguarded access. -/
def isSpaceEnemyE (b : ChessBoard) (p : Position) (colour : Colour) : Except RtError Bool := do
  let c ← getPieceAtPositionE b p
  return match c with
  | none => false
  | some pc => pc.colour ≠ colour

/-- Total grid read, used to model accesses the source performs under an
`isPositionOnBoard` guard (it agrees with `getPieceAtPositionE` whenever the
position is on the board and the grid is 8x8). -/
def cellGet (b : ChessBoard) (p : Position) : Option Piece :=
  if isPositionOnBoard p then ((b.board.getD p.row.toNat []).getD p.col.toNat none) else none

/-- Total occupancy tests used in guarded contexts. -/
def isSpaceEmptyT (b : ChessBoard) (p : Position) : Bool :=
  (cellGet b p).isNone

def isSpaceFriendlyT (b : ChessBoard) (p : Position) (colour : Colour) : Bool :=
  match cellGet b p with
  | none => false
  | some pc => pc.colour = colour

def isSpaceEnemyT (b : ChessBoard) (p : Position) (colour : Colour) : Bool :=
  match cellGet b p with
  | none => false
  | some pc => pc.colour ≠ colour

/-- Grid write at an (assumed in-range) position. -/
def setCell (b : ChessBoard) (p : Position) (v : Option Piece) : ChessBoard :=
  ⟨b.board.set p.row.toNat ((b.board.getD p.row.toNat []).set p.col.toNat v)⟩

/-- Raw grid write `board[p.row][p.col] = v`: undefined behaviour out of
range, modelled as an error. -/
def setCellE (b : ChessBoard) (p : Position) (v : Option Piece) : Except RtError ChessBoard :=
  if isPositionOnBoard p then .ok (setCell b p v) else .error .outOfBounds

/-- ChessBoard::getPiecesOfColour: row-major scan. -/
def getPiecesOfColour (b : ChessBoard) (colour : Colour) : List Piece :=
  (b.board.flatten.filterMap id).filter (fun pc => pc.colour = colour)

/-- ChessBoard::getKingPosition: first matching piece in row-major order;
a missing king is the thrown `runtime_error`. -/
def getKingPositionE (b : ChessBoard) (colour : Colour) : Except RtError Position :=
  match (b.board.flatten.filterMap id).find?
      (fun pc => pc.colour = colour ∧ pc.pieceType = PieceType.KING) with
  | some pc => .ok pc.position
  | none => .error .missingKing

/-- ChessBoard::isSquareSafe: no opposing piece's cached move set attacks
`pos`; a pawn attacks only when the column differs. -/
def isSquareSafe (b : ChessBoard) (pos : Position) (colour : Colour) : Bool :=
  (getPiecesOfColour b (oppositeColour colour)).all (fun pc =>
    !((pc.pieceType ≠ PieceType.PAWN && pc.isValidMoveP pc.position pos)
      || (pc.pieceType = PieceType.PAWN && pos.col ≠ pc.position.col
            && pc.isValidMoveP pc.position pos)))

/-- ChessBoard::isPawnEligibleForEnPassant. -/
def isPawnEligibleForEnPassant (b : ChessBoard) (position : Position) (colour : Colour) : Bool :=
  if (colour = .WHITE && position.row ≠ 4) || (colour = .BLACK && position.row ≠ 3) then false
  else if position.col < 0 || position.col > 7 then false
  else match cellGet b position with
    | none => false
    | some pc =>
      if pc.pieceType ≠ PieceType.PAWN then false
      else pc.enPassant

/-- ChessBoard::isDeadPosition. -/
def isDeadPosition (b : ChessBoard) : Bool :=
  let pieces := b.board.flatten.filterMap id
  let whites := pieces.filter (fun pc => pc.colour = Colour.WHITE)
  let blacks := pieces.filter (fun pc => pc.colour = Colour.BLACK)
  let whiteCount := whites.length
  let blackCount := blacks.length
  let whiteBishop := whites.any (fun pc => pc.pieceType = PieceType.BISHOP)
  let blackBishop := blacks.any (fun pc => pc.pieceType = PieceType.BISHOP)
  let whiteKnight := whites.any (fun pc => pc.pieceType = PieceType.KNIGHT)
  let blackKnight := blacks.any (fun pc => pc.pieceType = PieceType.KNIGHT)
  if whiteCount = 1 && blackCount = 1 then true
  else if (whiteCount = 1 && blackCount = 2 && blackBishop)
       || (blackCount = 1 && whiteCount = 2 && whiteBishop) then true
  else if (whiteCount = 1 && blackCount = 2 && blackKnight)
       || (blackCount = 1 && whiteCount = 2 && whiteKnight) then true
  else false

/-! ### Move generation (the six `updateValidMoves` overrides) -/

/-- Pawn::updateValidMoves, lines 104-115: the en-passant clause.  (The row
conditions are the ones literally written in the source: `colour_modifier ==
1` is a black pawn, required to stand on row 3, and a white pawn is required
to stand on row 4.) -/
def pawnEnPassantMoves (b : ChessBoard) (pc : Piece) : List Position :=
  let r := pc.position.row
  let c := pc.position.col
  let m := pc.colourModifier
  if (m = 1 && r = 3) || (m = -1 && r = 4) then
    [c - 1, c + 1].filterMap (fun ac =>
      if isPositionOnBoard ⟨r, ac⟩
          && isPawnEligibleForEnPassant b ⟨r, ac⟩ (oppositeColour pc.colour) then
        some ⟨r + m, ac⟩
      else none)
  else []

/-- Pawn::updateValidMoves: forward, double forward, the two diagonal
captures and the en-passant clause, in source push-back order. -/
def pawnMoves (b : ChessBoard) (pc : Piece) : List Position :=
  let r := pc.position.row
  let c := pc.position.col
  let m := pc.colourModifier
  let fr := r + m
  let forwardPart :=
    if isPositionOnBoard ⟨fr, c⟩ && isSpaceEmptyT b ⟨fr, c⟩ then
      ⟨fr, c⟩ ::
        (if ((m = 1 && r = 1) || (m = -1 && r = 6)) && isSpaceEmptyT b ⟨r + 2 * m, c⟩ then
          [(⟨r + 2 * m, c⟩ : Position)]
        else [])
    else []
  let diagPart := [c - 1, c + 1].filterMap (fun dc =>
    if isPositionOnBoard ⟨fr, dc⟩ && isSpaceEnemyT b ⟨fr, dc⟩ pc.colour then
      some ⟨fr, dc⟩
    else none)
  forwardPart ++ diagPart ++ pawnEnPassantMoves b pc

/-- Knight::updateValidMoves: the eight offsets, each multiplied by the
colour modifier as in the source. -/
def knightMoves (b : ChessBoard) (pc : Piece) : List Position :=
  let r := pc.position.row
  let c := pc.position.col
  let m := pc.colourModifier
  ([(-2, -1), (-2, 1), (-1, -2), (-1, 2), (1, -2), (1, 2), (2, -1), (2, 1)] :
      List (Int × Int)).filterMap (fun mv =>
    let p : Position := ⟨r + mv.1 * m, c + mv.2 * m⟩
    if !isPositionOnBoard p then none
    else if isSpaceFriendlyT b p pc.colour then none
    else some p)

/-- One sliding ray (the `while (true)` loops of Bishop/Rook/Queen): walk
from `(r, c)` in direction `(dr, dc)`, stopping off-board, at a friendly
piece, or just after an enemy piece.  The fuel bounds the loop; 9 steps
always suffice because at most 8 consecutive squares fit on the board in any
direction. -/
def ray (b : ChessBoard) (colour : Colour) (dr dc : Int) :
    Int → Int → Nat → List Position
  | _, _, 0 => []
  | r, c, fuel + 1 =>
    let p : Position := ⟨r + dr, c + dc⟩
    if !isPositionOnBoard p then []
    else if isSpaceFriendlyT b p colour then []
    else if isSpaceEnemyT b p colour then [p]
    else p :: ray b colour dr dc p.row p.col fuel

/-- Rook::updateValidMoves: the four orthogonal rays in source order. -/
def rookMoves (b : ChessBoard) (pc : Piece) : List Position :=
  ([(1, 0), (-1, 0), (0, 1), (0, -1)] : List (Int × Int)).flatMap (fun d =>
    ray b pc.colour d.1 d.2 pc.position.row pc.position.col 9)

/-- Bishop::updateValidMoves: the four diagonal rays in source order. -/
def bishopMoves (b : ChessBoard) (pc : Piece) : List Position :=
  ([(1, 1), (1, -1), (-1, 1), (-1, -1)] : List (Int × Int)).flatMap (fun d =>
    ray b pc.colour d.1 d.2 pc.position.row pc.position.col 9)

/-- Queen::updateValidMoves: orthogonal rays first, then diagonal rays. -/
def queenMoves (b : ChessBoard) (pc : Piece) : List Position :=
  rookMoves b pc ++ bishopMoves b pc

/-- King::getCastlingPosition. -/
def getCastlingPosition (kingPos rookPos : Position) : Position :=
  ⟨kingPos.row, kingPos.col + 2 * (if rookPos.col > kingPos.col then 1 else -1)⟩

/-- The empty-squares walk of King::canCastleWith
(`for (col = position.col + direction; col != rookPos.col; col += direction)`).
An off-board square reads as non-empty under the total accessor, terminating
the walk with `false`; the fuel (never exhausted on in-range walks, which
take at most 9 steps) bounds the recursion. -/
def walkEmpty (b : ChessBoard) (row : Int) (target d : Int) : Int → Nat → Bool
  | _, 0 => false
  | c, fuel + 1 =>
    if c = target then true
    else if !isSpaceEmptyT b ⟨row, c⟩ then false
    else walkEmpty b row target d (c + d) fuel

/-- King::canCastleWith. -/
def canCastleWith (b : ChessBoard) (pc : Piece) (rookPos : Position) : Bool :=
  let d : Int := if rookPos.col > pc.position.col then 1 else -1
  (match cellGet b rookPos with
   | none => false
   | some rook => rook.pieceType = PieceType.ROOK && !rook.hasMoved)
  && walkEmpty b pc.position.row rookPos.col d (pc.position.col + d) 16
  && isSquareSafe b ⟨pc.position.row, pc.position.col + d⟩ pc.colour
  && isSquareSafe b ⟨pc.position.row, pc.position.col + 2 * d⟩ pc.colour

/-- King::checkAndAddCastlingMove: nothing once the king has moved;
otherwise the colour-dependent "left"/"right" corner squares are probed in
source order. -/
def castlingMoves (b : ChessBoard) (pc : Piece) : List Position :=
  if pc.hasMoved then []
  else
    let r := pc.position.row
    let leftRookPos : Position := if pc.colour = .WHITE then ⟨r, 0⟩ else ⟨r, 7⟩
    let rightRookPos : Position := if pc.colour = .WHITE then ⟨r, 7⟩ else ⟨r, 0⟩
    (if canCastleWith b pc leftRookPos then [getCastlingPosition pc.position leftRookPos] else [])
      ++ (if canCastleWith b pc rightRookPos then [getCastlingPosition pc.position rightRookPos]
          else [])

/-- King::updateValidMoves: the eight adjacent squares filtered by bounds,
friendly occupancy and `isSquareSafe`, then the castling moves. -/
def kingMoves (b : ChessBoard) (pc : Piece) : List Position :=
  let r := pc.position.row
  let c := pc.position.col
  (([(1, 0), (-1, 0), (0, 1), (0, -1), (1, 1), (1, -1), (-1, 1), (-1, -1)] :
      List (Int × Int)).filterMap (fun d =>
    let p : Position := ⟨r + d.1, c + d.2⟩
    if !isPositionOnBoard p then none
    else if isSpaceFriendlyT b p pc.colour then none
    else if !isSquareSafe b p pc.colour then none
    else some p))
  ++ castlingMoves b pc

/-- Virtual dispatch of `updateValidMoves`: the newly generated move list of
a piece against a given board.  (`NONE` is the abstract base class, which
cannot be instantiated; its line keeps the cache unchanged.) -/
def genMoves (b : ChessBoard) (pc : Piece) : List Position :=
  match pc.pieceType with
  | .PAWN => pawnMoves b pc
  | .ROOK => rookMoves b pc
  | .KNIGHT => knightMoves b pc
  | .BISHOP => bishopMoves b pc
  | .QUEEN => queenMoves b pc
  | .KING => kingMoves b pc
  | .NONE => pc.validMoves

/-- `piece->updateValidMoves(board)`: replace the cache. -/
def updatePiece (b : ChessBoard) (pc : Piece) : Piece :=
  { pc with validMoves := genMoves b pc }

/-- One step of the board-wide cache regeneration loop. -/
def regenStep (b : ChessBoard) (r c : Nat) : ChessBoard :=
  match cellGet b ⟨(r : Int), (c : Int)⟩ with
  | none => b
  | some pc => setCell b ⟨(r : Int), (c : Int)⟩ (some (updatePiece b pc))

/-- The row-major `for` loops regenerating every piece's cache after a board
mutation; each piece is updated against the intermediate board, exactly as
the sequential C++ loop does. -/
def regenAll (b : ChessBoard) : ChessBoard :=
  (List.range 8).foldl (fun b r => (List.range 8).foldl (fun b c => regenStep b r c) b) b

/-! ### Board mutation, serialization, initialization (ChessBoard.cpp) -/

/-- The single C++ statement
`board[end.row][end.col] = std::move(board[start.row][start.col])`.
For distinct slots the destination receives the moved piece and the source
becomes null; moving a `unique_ptr` onto itself leaves the slot unchanged. -/
def moveCellE (b : ChessBoard) (start stop : Position) : Except RtError ChessBoard :=
  if !isPositionOnBoard start || !isPositionOnBoard stop then .error .outOfBounds
  else if start = stop then .ok b
  else .ok (setCell (setCell b stop (cellGet b start)) start none)

/-- The rewrite of the moved piece inside ChessBoard::movePiece: new
position, pawn counter and en-passant flag (Pawn::setHasMoved /
setEnPassant), and `hasMoved`. -/
def movedPiece (pc : Piece) (stop : Position) : Piece :=
  let piece := { pc with position := stop }
  let piece :=
    if piece.pieceType = PieceType.PAWN then
      let piece := { piece with moveCounter := piece.moveCounter + 1 }
      { piece with enPassant :=
          (piece.colour = .WHITE && piece.position.row = 4 && piece.moveCounter = 1)
          || (piece.colour = .BLACK && piece.position.row = 3 && piece.moveCounter = 1) }
    else piece
  { piece with hasMoved := true }

/-- ChessBoard::movePiece: validate against the cached move set (unless
overridden), relocate ownership, update the moved piece's position, pawn
counters and `hasMoved`, then regenerate every cache. -/
def movePiece (b : ChessBoard) (start stop : Position) (override : Bool) :
    Except RtError (Bool × ChessBoard) := do
  let piece? ← getPieceAtPositionE b start
  match piece? with
  | none => return (false, b)
  | some piece =>
    if override || piece.isValidMoveP start stop then do
      let b ← moveCellE b start stop
      let b := setCell b stop (some (movedPiece piece stop))
      return (true, regenAll b)
    else
      return (false, b)

/-- ChessBoard::isValidMove (the free query, not the per-piece one). -/
def isValidMoveB (b : ChessBoard) (start stop : Position) : Except RtError Bool := do
  let piece? ← getPieceAtPositionE b start
  match piece? with
  | none => return false
  | some piece => return piece.isValidMoveP start stop

/-- ChessBoard::placePiece: guarded write plus global cache regeneration. -/
def placePiece (b : ChessBoard) (pos : Position) (piece : Option Piece) :
    Bool × ChessBoard :=
  if isPositionOnBoard pos then (true, regenAll (setCell b pos piece))
  else (false, b)

/-- The serialization letter of a piece (getBoardStateAsString): uppercase
for white, lowercase for black, `?` for the impossible `NONE`. -/
def pieceChar (t : PieceType) (c : Colour) : Char :=
  match c, t with
  | .WHITE, .PAWN => 'P'
  | .WHITE, .ROOK => 'R'
  | .WHITE, .KNIGHT => 'N'
  | .WHITE, .BISHOP => 'B'
  | .WHITE, .QUEEN => 'Q'
  | .WHITE, .KING => 'K'
  | .WHITE, .NONE => '?'
  | .BLACK, .PAWN => 'p'
  | .BLACK, .ROOK => 'r'
  | .BLACK, .KNIGHT => 'n'
  | .BLACK, .BISHOP => 'b'
  | .BLACK, .QUEEN => 'q'
  | .BLACK, .KING => 'k'
  | .BLACK, .NONE => '?'

/-- Serialization token of one square: letter plus `-` separator when
occupied, `.` filler when empty. -/
def tokenChars (cell : Option Piece) : List Char :=
  match cell with
  | none => ['.']
  | some pc => [pieceChar pc.pieceType pc.colour, '-']

/-- One serialized row: the eight tokens followed by a newline. -/
def rowChars (row : List (Option Piece)) : List Char :=
  (row.map tokenChars).flatten ++ ['\n']

/-- ChessBoard::getBoardStateAsString. -/
def getBoardStateAsString (b : ChessBoard) : String :=
  ⟨(b.board.map rowChars).flatten⟩

/-- The letter cases of initializeBoardFromString. -/
def charPiece (c : Char) : Option (PieceType × Colour) :=
  if c = 'P' then some (.PAWN, .WHITE)
  else if c = 'R' then some (.ROOK, .WHITE)
  else if c = 'N' then some (.KNIGHT, .WHITE)
  else if c = 'B' then some (.BISHOP, .WHITE)
  else if c = 'Q' then some (.QUEEN, .WHITE)
  else if c = 'K' then some (.KING, .WHITE)
  else if c = 'p' then some (.PAWN, .BLACK)
  else if c = 'r' then some (.ROOK, .BLACK)
  else if c = 'n' then some (.KNIGHT, .BLACK)
  else if c = 'b' then some (.BISHOP, .BLACK)
  else if c = 'q' then some (.QUEEN, .BLACK)
  else if c = 'k' then some (.KING, .BLACK)
  else none

/-- ChessBoard::clearBoard: an 8x8 grid of nulls. -/
def emptyBoard : ChessBoard :=
  ⟨List.replicate 8 (List.replicate 8 none)⟩

/-- The character loop of initializeBoardFromString: `-`/`.` advance the
column, a newline advances the row, a piece letter writes the factory piece
at the current cell without advancing, any other character writes null.
After each character the source checks `row > 8 || col > 8` and throws
`std::out_of_range`. -/
def deserializeChars : List Char → Int → Int → ChessBoard → Except RtError ChessBoard
  | [], _, _, b => .ok b
  | ch :: rest, row, col, b => do
    let (row', col', b') ←
      if ch = '-' || ch = '.' then pure (row, col + 1, b)
      else if ch = '\n' then pure (row + 1, (0 : Int), b)
      else
        match charPiece ch with
        | some (t, c) => do
          let b' ← setCellE b ⟨row, col⟩ (createPiece c ⟨row, col⟩ t)
          pure (row, col, b')
        | none => do
          let b' ← setCellE b ⟨row, col⟩ none
          pure (row, col, b')
    if row' > 8 || col' > 8 then .error .malformedState
    else deserializeChars rest row' col' b'

/-- ChessBoard::initializeBoardFromString: clear, replay the characters,
then regenerate every cache. -/
def initializeBoardFromString (s : String) : Except RtError ChessBoard := do
  let b ← deserializeChars s.data 0 0 emptyBoard
  return regenAll b

/-- The back-rank piece types in file order. -/
def backRankTypes : List PieceType :=
  [.ROOK, .KNIGHT, .BISHOP, .QUEEN, .KING, .BISHOP, .KNIGHT, .ROOK]

/-- A full back rank of factory pieces for one colour on row `r`. -/
def backRank (c : Colour) (r : Int) : List (Option Piece) :=
  (List.range 8).map (fun i => createPiece c ⟨r, Int.ofNat i⟩ (backRankTypes.getD i .NONE))

/-- A full pawn rank for one colour on row `r`. -/
def pawnRank (c : Colour) (r : Int) : List (Option Piece) :=
  (List.range 8).map (fun i => createPiece c ⟨r, (i : Int)⟩ .PAWN)

/-- An empty rank. -/
def emptyRank : List (Option Piece) :=
  List.replicate 8 none

/-- A kings-only rank (`initializeBoard` in test mode). -/
def kingsOnlyRank (c : Colour) (r : Int) : List (Option Piece) :=
  (List.range 8).map (fun i => if i = 4 then createPiece c ⟨r, (i : Int)⟩ .KING else none)

/-- ChessBoard::initializeBoard: the standard 32-piece layout (or kings only
in test mode), followed by a global cache regeneration. -/
def initializeBoard (testMode : Bool) : ChessBoard :=
  if testMode then
    regenAll ⟨[kingsOnlyRank .BLACK 0, emptyRank, emptyRank, emptyRank,
               emptyRank, emptyRank, emptyRank, kingsOnlyRank .WHITE 7]⟩
  else
    regenAll ⟨[backRank .BLACK 0, pawnRank .BLACK 1, emptyRank, emptyRank,
               emptyRank, emptyRank, pawnRank .WHITE 6, backRank .WHITE 7]⟩

/-! ### Game state (GameState.cpp, Utilities.h records) -/

/-- Move record (Utilities.h). -/
structure Move where
  start : Position
  endPos : Position
  pieceMoved : PieceType
  pieceCaptured : PieceType
  playerColour : Colour
  promotionPiece : PieceType
deriving DecidableEq, Repr

/-- The Move constructor with its C++ default arguments. -/
def mkMove (s e : Position) (pMoved : PieceType) (pl : Colour)
    (pCaptured : PieceType := .NONE) (promotion : PieceType := .NONE) : Move :=
  ⟨s, e, pMoved, pCaptured, pl, promotion⟩

/-- Player state relevant to the rules core (user identity and clocks are
external collaborators and are not modelled). -/
structure Player where
  colour : Colour
  isResigning : Bool
  isInCheck : Bool
deriving DecidableEq, Repr

/-- BoardMetadata (Utilities.h): the snapshot fields the rules core reads
(the PGN string and timestamp are produced for the export collaborator and
are not modelled). -/
structure BoardMetadata where
  boardState : String
  turnNumber : Int
  gameStatus : GameStatus
  moveMade : Move
deriving DecidableEq, Repr

/-- GameState (GameState.h): board, players, histories, repetition index,
counters and status.  `boardStateIndices` models the
`unordered_map<string, vector<int>>` as an association list. -/
structure GameState where
  board : ChessBoard
  lastMove : Move
  currentTurnNumber : Int
  noCaptureOrPawnMoveCounter : Int
  currentPlayer : Player
  opponentPlayer : Player
  gameStatus : GameStatus
  chronologicalData : List BoardMetadata
  boardStateIndices : List (String × List Int)
  gameHistory : List Move
deriving DecidableEq, Repr

/-- `unordered_map` lookup with the default-constructed empty vector. -/
def indicesLookup (m : List (String × List Int)) (k : String) : List Int :=
  match m.find? (fun e => e.1 = k) with
  | some e => e.2
  | none => []

/-- `map[k].emplace_back(v)`. -/
def indicesAppend (m : List (String × List Int)) (k : String) (v : Int) :
    List (String × List Int) :=
  match m.find? (fun e => e.1 = k) with
  | some _ => m.map (fun e => if e.1 = k then (e.1, e.2 ++ [v]) else e)
  | none => m ++ [(k, [v])]

/-- GameState::updateBoardStatesMetadata: snapshot the serialized placement,
append it chronologically and record its index in the repetition map. -/
def updateBoardStatesMetadata (s : GameState) : GameState :=
  let currentState := getBoardStateAsString s.board
  let metadata : BoardMetadata :=
    { boardState := currentState, turnNumber := s.currentTurnNumber,
      gameStatus := s.gameStatus, moveMade := s.lastMove }
  let chron := s.chronologicalData ++ [metadata]
  { s with
    chronologicalData := chron,
    boardStateIndices := indicesAppend s.boardStateIndices currentState ((chron.length : Int) - 1) }

/-- GameState::setGameStatus: store the status and adjust the players'
check/resign flags for the statuses the C++ switch handles. -/
def setGameStatus (s : GameState) (st : GameStatus) : GameState :=
  let s := { s with gameStatus := st }
  match st with
  | .CHECKMATE =>
    { s with currentPlayer := { s.currentPlayer with isInCheck := true },
             opponentPlayer := { s.opponentPlayer with isInCheck := false } }
  | .STALEMATE =>
    { s with currentPlayer := { s.currentPlayer with isInCheck := false },
             opponentPlayer := { s.opponentPlayer with isInCheck := false } }
  | .ONGOING =>
    { s with currentPlayer := { s.currentPlayer with isInCheck := false },
             opponentPlayer := { s.opponentPlayer with isInCheck := false } }
  | .RESIGN =>
    { s with currentPlayer := { s.currentPlayer with isResigning := true, isInCheck := true },
             opponentPlayer := { s.opponentPlayer with isInCheck := false } }
  | .DRAW =>
    { s with currentPlayer := { s.currentPlayer with isInCheck := false },
             opponentPlayer := { s.opponentPlayer with isInCheck := false } }
  | .CHECK =>
    { s with currentPlayer := { s.currentPlayer with isInCheck := true },
             opponentPlayer := { s.opponentPlayer with isInCheck := false } }
  | _ => s

/-- GameState::switchTurns: the turn number increments after the black
player's ply, then the players swap. -/
def switchTurns (s : GameState) : GameState :=
  let s :=
    if s.currentPlayer.colour = Colour.BLACK then
      { s with currentTurnNumber := s.currentTurnNumber + 1 }
    else s
  { s with currentPlayer := s.opponentPlayer, opponentPlayer := s.currentPlayer }

/-- GameState::setLastMove. -/
def setLastMove (s : GameState) (m : Move) : GameState :=
  { s with lastMove := m }

/-- GameState::addToGameHistory (the PGN-oriented history string is not
modelled). -/
def addToGameHistory (s : GameState) (m : Move) : GameState :=
  { s with gameHistory := s.gameHistory ++ [m] }

/-! ### GameController (GameController.cpp) -/

/-- GameController::isKingInCheck reads only the board and the current
player's colour; this is that computation. -/
def isKingInCheckB (b : ChessBoard) (colour : Colour) : Except RtError Bool := do
  let kp ← getKingPositionE b colour
  return (getPiecesOfColour b (oppositeColour colour)).any
    (fun pc => pc.isValidMoveP pc.position kp)

/-- GameController::isKingInCheck: some opposing piece's cached move set
contains the current player's king square. -/
def isKingInCheckC (s : GameState) : Except RtError Bool :=
  isKingInCheckB s.board s.currentPlayer.colour

/-- The verification loop at the end of GameController::tryMove: regenerate
each opposing piece of the clone in turn and fail as soon as one attacks the
king square.  Returns the verdict together with the mutated clone. -/
def tryMoveLoop (kp : Position) : ChessBoard → List Position → Bool × ChessBoard
  | b, [] => (true, b)
  | b, p :: rest =>
    match cellGet b p with
    | none => tryMoveLoop kp b rest
    | some pc =>
      let pc' := updatePiece b pc
      let b' := setCell b p (some pc')
      if pc'.isValidMoveP pc'.position kp then (false, b')
      else tryMoveLoop kp b' rest

/-- The body of GameController::tryMove, which reads only the authoritative
board and the current player's colour. -/
def tryMoveB (b : ChessBoard) (colour : Colour) (start stop : Position) :
    Except RtError Bool := do
  let boardCopy ← initializeBoardFromString (getBoardStateAsString b)
  let chk ← isKingInCheckB b colour
  let earlyReject ←
    if chk then do
      let pc? ← getPieceAtPositionE boardCopy start
      match pc? with
      | none => Except.error RtError.nullDeref
      | some pc =>
        pure (pc.pieceType = PieceType.KING && (start.col - stop.col).natAbs = 2)
    else pure false
  if earlyReject then return false
  else do
    let (moved, boardCopy) ← movePiece boardCopy start stop false
    if !moved then return false
    else do
      let kp ← getKingPositionE boardCopy colour
      let pieces := (getPiecesOfColour boardCopy (oppositeColour colour)).map
        (fun pc => pc.position)
      return (tryMoveLoop kp boardCopy pieces).1

/-- GameController::tryMove, with the authoritative `GameState` threaded
through and returned: every mutation of the function targets the clone
built from the serialized placement, never the authoritative state. -/
def tryMoveFrame (s : GameState) (start stop : Position) :
    Except RtError Bool × GameState :=
  (tryMoveB s.board s.currentPlayer.colour start stop, s)

/-- The boolean verdict of GameController::tryMove. -/
def tryMoveC (s : GameState) (start stop : Position) : Except RtError Bool :=
  (tryMoveFrame s start stop).1

/-- The `testMode || tryMove(position, move)` filter loop of
GameController::getPossibleMoves. -/
def filterLegalB (tm : Bool) (b : ChessBoard) (colour : Colour) (pos : Position) :
    List Position → Except RtError (List Position)
  | [] => .ok []
  | m :: rest => do
    let keep ← if tm then pure true else tryMoveB b colour pos m
    let others ← filterLegalB tm b colour pos rest
    return if keep then m :: others else others

/-- GameController::getPossibleMoves: refresh the cached move set of the
piece at `pos` (a mutation of the authoritative board), then filter it
through `tryMove`.  (The C++ `if (isKingInCheck())` and `else if
(!isKingInCheck())` branches execute identical loops; the call itself can
still throw on a missing king.) -/
def getPossibleMovesC (tm : Bool) (s : GameState) (pos : Position) :
    Except RtError (List Position × GameState) := do
  let pc? ← getPieceAtPositionE s.board pos
  match pc? with
  | none => return ([], s)
  | some pc =>
    let pc' := updatePiece s.board pc
    let s' := { s with board := setCell s.board pos (some pc') }
    let _chk ← isKingInCheckC s'
    let mvs ← filterLegalB tm s'.board s'.currentPlayer.colour pos pc'.validMoves
    return (mvs, s')

/-- GameController::validateMove = ChessBoard::isValidMove. -/
def validateMoveC (s : GameState) (start stop : Position) : Except RtError Bool :=
  isValidMoveB s.board start stop

/-- The `for` loops of isStalemate / isKingInCheckmate: does any piece of
the list have a cached move approved by `tryMove`? -/
def anyLegalInner (b : ChessBoard) (colour : Colour) (pos : Position) :
    List Position → Except RtError Bool
  | [] => .ok false
  | m :: rest => do
    let approved ← tryMoveB b colour pos m
    if approved then return true else anyLegalInner b colour pos rest

def anyLegalMove (b : ChessBoard) (colour : Colour) : List Piece → Except RtError Bool
  | [] => .ok false
  | pc :: rest => do
    let found ← anyLegalInner b colour pc.position pc.validMoves
    if found then return true else anyLegalMove b colour rest

/-- The body of GameController::isStalemate over board and colour. -/
def isStalemateB (b : ChessBoard) (colour : Colour) : Except RtError Bool := do
  let chk ← isKingInCheckB b colour
  if chk then return false
  else do
    let found ← anyLegalMove b colour (getPiecesOfColour b colour)
    return !found

/-- GameController::isStalemate. -/
def isStalemateC (s : GameState) : Except RtError Bool :=
  isStalemateB s.board s.currentPlayer.colour

/-- The body of GameController::isKingInCheckmate over board and colour. -/
def isKingInCheckmateB (b : ChessBoard) (colour : Colour) : Except RtError Bool := do
  let chk ← isKingInCheckB b colour
  if !chk then return false
  else do
    let found ← anyLegalMove b colour (getPiecesOfColour b colour)
    return !found

/-- GameController::isKingInCheckmate. -/
def isKingInCheckmateC (s : GameState) : Except RtError Bool :=
  isKingInCheckmateB s.board s.currentPlayer.colour

/-- GameController::isPlayerResigning. -/
def isPlayerResigning (s : GameState) : Bool :=
  s.currentPlayer.isResigning

/-- The draw layers of GameController::updateGameStatus (everything after
the checkmate/stalemate/check/resign chain): fivefold/threefold repetition
on the current placement string, the 75/50 no-capture-or-pawn-move counter,
and the dead-position check, with the source's early returns. -/
def statusDrawChecks (s : GameState) : GameState :=
  let currentState := getBoardStateAsString s.board
  let cnt := (indicesLookup s.boardStateIndices currentState).length
  if cnt ≥ 5 then setGameStatus s .DRAW
  else
    let s := if cnt ≥ 3 then setGameStatus s .PROMPTDRAW else s
    if s.lastMove.pieceCaptured = PieceType.NONE && s.lastMove.pieceMoved ≠ PieceType.PAWN then
      let counter := s.noCaptureOrPawnMoveCounter + 1
      let s := { s with noCaptureOrPawnMoveCounter := counter }
      if counter ≥ 75 then setGameStatus s .DRAW
      else
        let s := if counter ≥ 50 then setGameStatus s .PROMPTDRAW else s
        if isDeadPosition s.board then setGameStatus s .DRAW else s
    else
      let s := { s with noCaptureOrPawnMoveCounter := 0 }
      if isDeadPosition s.board then setGameStatus s .DRAW else s

/-- GameController::updateGameStatus: the priority chain.  Checkmate,
stalemate and resignation return immediately; Check and Ongoing fall
through into the draw layers. -/
def updateGameStatusC (s : GameState) : Except RtError GameState := do
  let mate ← isKingInCheckmateC s
  if mate then return setGameStatus s .CHECKMATE
  else do
    let stale ← isStalemateC s
    if stale then return setGameStatus s .STALEMATE
    else do
      let chk ← isKingInCheckC s
      if chk then return statusDrawChecks (setGameStatus s .CHECK)
      else if isPlayerResigning s then return setGameStatus s .RESIGN
      else return statusDrawChecks (setGameStatus s .ONGOING)

/-- GameController::updateBoardStatesMetadata: re-apply the current status
(for its player-flag side effects), then append the snapshot. -/
def updateBoardStatesMetadataC (s : GameState) : GameState :=
  updateBoardStatesMetadata (setGameStatus s s.gameStatus)

/-- The castling rook relocation performed inside GameController::makeMove once
the moved piece is a king displaced by two columns. -/
def castleStage (s : GameState) (stop : Position) : Except RtError GameState := do
  let rookCol : Int := if stop.col = 2 then 0 else 7
  let rookEndCol : Int := if stop.col = 2 then 3 else 5
  let rookStartPos : Position := ⟨stop.row, rookCol⟩
  let rookEndPos : Position := ⟨stop.row, rookEndCol⟩
  let bd ← moveCellE s.board rookStartPos rookEndPos
  let rook? ← getPieceAtPositionE bd rookEndPos
  match rook? with
  | none => Except.error RtError.nullDeref
  | some rook =>
    let rook := { rook with position := rookEndPos, hasMoved := true }
    let bd := setCell bd rookEndPos (some rook)
    let rook2 := updatePiece bd rook
    let bd := setCell bd rookEndPos (some rook2)
    pure { s with board := bd }

/-- The en-passant capture removal performed inside GameController::makeMove:
a pawn that changed column without landing on a piece removes the pawn it
passed. -/
def enPassantStage (s : GameState) (start stop : Position) (movingPiece : Piece)
    (capturedPiece? : Option Piece) : GameState :=
  if movingPiece.pieceType = PieceType.PAWN
      && capturedPiece?.isNone && start.col ≠ stop.col then
    let capturedPieceRow : Int :=
      if movingPiece.colour = Colour.WHITE then stop.row + 1 else stop.row - 1
    let (_, bd) := placePiece s.board ⟨capturedPieceRow, stop.col⟩ none
    { s with board := bd }
  else s

/-- The final phase of GameController::makeMove: the pawn-promotion early
return, or else en-passant removal, board-wide cache regeneration, the turn
switch, the status update and the metadata append. -/
def makeMoveFinish (tm : Bool) (s : GameState) (start stop : Position)
    (movingPiece : Piece) (capturedPiece? : Option Piece) :
    Except RtError (Bool × GameState) :=
  if !tm && movingPiece.pieceType = PieceType.PAWN
      && ((movingPiece.colour = Colour.WHITE && stop.row = 0)
          || (movingPiece.colour = Colour.BLACK && stop.row = 7)) then do
    let s ← updateGameStatusC s
    return (true, s)
  else do
    let s := enPassantStage s start stop movingPiece capturedPiece?
    let s := { s with board := regenAll s.board }
    let s := switchTurns s
    let s ← updateGameStatusC s
    let s := updateBoardStatesMetadataC s
    return (true, s)

/-- The tail of GameController::makeMove after the up-front validation has
accepted the move: record the move, relocate the piece, handle castling,
then finish the ply. -/
def makeMoveCommit (tm : Bool) (s : GameState) (start stop : Position)
    (movingPiece : Piece) (capturedPiece? : Option Piece) :
    Except RtError (Bool × GameState) := do
  let capturedType := match capturedPiece? with
    | some cp => cp.pieceType
    | none => PieceType.NONE
  let currentMove := mkMove start stop movingPiece.pieceType movingPiece.colour capturedType
  let s := addToGameHistory (setLastMove s currentMove) currentMove
  let (_moved, bd) ← movePiece s.board start stop tm
  let s := { s with board := bd }
  (if !tm && movingPiece.pieceType = PieceType.KING
      && (start.col - stop.col).natAbs = 2 then
    castleStage s stop
  else pure s) >>= fun s =>
  makeMoveFinish tm s start stop movingPiece capturedPiece?

/-- GameController::makeMove. -/
def makeMove (tm : Bool) (s : GameState) (start stop : Position) :
    Except RtError (Bool × GameState) := do
  let v ← if tm then pure true else validateMoveC s start stop
  if v then do
    let (possibleMoves, s) ← getPossibleMovesC tm s start
    if !tm && !(decide (stop ∈ possibleMoves)) then return (false, s)
    else do
      let movingPiece? ← getPieceAtPositionE s.board start
      let capturedPiece? ← getPieceAtPositionE s.board stop
      let capturedIsKing : Bool :=
        match capturedPiece? with
        | some cp => cp.pieceType = PieceType.KING
        | none => false
      if capturedIsKing then
        return (false, s)
      else
        match movingPiece? with
        | none => Except.error RtError.nullDeref
        | some movingPiece => makeMoveCommit tm s start stop movingPiece capturedPiece?
  else
    return (false, s)

/-- GameController::promotePawn. -/
def promotePawn (s : GameState) (position : Position) (type : PieceType) :
    Except RtError (Bool × GameState) := do
  let piece? ← getPieceAtPositionE s.board position
  match piece? with
  | none => return (false, s)
  | some piece =>
    if piece.pieceType ≠ PieceType.PAWN || piece.colour ≠ s.currentPlayer.colour then
      return (false, s)
    else
      let promotionRow : Int := if piece.colour = Colour.WHITE then 0 else 7
      if position.row ≠ promotionRow then return (false, s)
      else do
        let bd ← setCellE s.board position (createPiece piece.colour position type)
        let s := { s with board := bd }
        let s := updateBoardStatesMetadataC s
        let s := switchTurns s
        let s := { s with board := regenAll s.board }
        let s ← updateGameStatusC s
        return (true, s)

/-- The default-constructed Move record. -/
def initialMove : Move :=
  { start := ⟨0, 0⟩, endPos := ⟨0, 0⟩, pieceMoved := .NONE, pieceCaptured := .NONE,
    playerColour := .WHITE, promotionPiece := .NONE }

/-- The game state right after GameController::startGame in normal mode:
a freshly initialized standard board, white to move, cleared histories. -/
def initialGameState : GameState :=
  { board := initializeBoard false, lastMove := initialMove, currentTurnNumber := 1,
    noCaptureOrPawnMoveCounter := 0,
    currentPlayer := { colour := .WHITE, isResigning := false, isInCheck := false },
    opponentPlayer := { colour := .BLACK, isResigning := false, isInCheck := false },
    gameStatus := .ONGOING, chronologicalData := [], boardStateIndices := [],
    gameHistory := [] }

/-! ### Basic facts about the grid -/

/-- The grid really is 8x8 (guaranteed by `clearBoard`/`initializeBoard`). -/
def Shaped (b : ChessBoard) : Prop :=
  b.board.length = 8 ∧ ∀ r ∈ b.board, r.length = 8

instance : DecidablePred Shaped := fun b => by
  unfold Shaped
  infer_instance

instance {ε α : Type} [DecidableEq ε] [DecidableEq α] : DecidableEq (Except ε α) := fun a b =>
  match a, b with
  | .ok x, .ok y => decidable_of_iff (x = y) (by simp)
  | .error x, .error y => decidable_of_iff (x = y) (by simp)
  | .ok _, .error _ => isFalse (by simp)
  | .error _, .ok _ => isFalse (by simp)

theorem exceptBindErr {ε α β : Type} (e : ε) (f : α → Except ε β) :
    (Except.error e : Except ε α) >>= f = Except.error e := rfl

theorem exceptBindOk {ε α β : Type} (a : α) (f : α → Except ε β) :
    (Except.ok a : Except ε α) >>= f = f a := rfl

theorem vecIdx_err {α : Type} (xs : List α) (i : Int)
    (h : ¬(0 ≤ i ∧ i.toNat < xs.length)) : vecIdx xs i = .error .outOfBounds := by
  simp [vecIdx, h]

theorem vecIdx_ok {α : Type} (xs : List α) (i : Int)
    (h : 0 ≤ i ∧ i.toNat < xs.length) :
    vecIdx xs i = .ok (xs.get ⟨i.toNat, h.2⟩) := by
  simp [vecIdx, h]

theorem getPieceAtPositionE_oob (b : ChessBoard) (p : Position)
    (hs : Shaped b) (hp : isPositionOnBoard p = false) :
    getPieceAtPositionE b p = .error .outOfBounds := by
  have hrange : ¬(0 ≤ p.row ∧ p.row < 8) ∨ ¬(0 ≤ p.col ∧ p.col < 8) := by
    by_contra hcon
    push_neg at hcon
    simp [isPositionOnBoard, hcon.1.1, hcon.1.2, hcon.2.1, hcon.2.2] at hp
  rcases hrange with hr | hc
  · have : ¬(0 ≤ p.row ∧ p.row.toNat < b.board.length) := by
      rw [hs.1]
      intro hcon
      exact hr ⟨hcon.1, by omega⟩
    simp [getPieceAtPositionE, vecIdx_err _ _ this, exceptBindErr]
  · by_cases hr : 0 ≤ p.row ∧ p.row.toNat < b.board.length
    · have hrow : b.board.get ⟨p.row.toNat, hr.2⟩ ∈ b.board := List.get_mem _ _ _
      have hlen : (b.board.get ⟨p.row.toNat, hr.2⟩).length = 8 := hs.2 _ hrow
      have : ¬(0 ≤ p.col ∧ p.col.toNat < (b.board.get ⟨p.row.toNat, hr.2⟩).length) := by
        rw [hlen]
        intro hcon
        exact hc ⟨hcon.1, by omega⟩
      rw [getPieceAtPositionE, vecIdx_ok _ _ hr, exceptBindOk]
      exact vecIdx_err _ _ this
    · simp [getPieceAtPositionE, vecIdx_err _ _ hr, exceptBindErr]

/-! ### C8: out-of-range board queries -/

/-- Claim C8, as stated, instantiated at the empty board and position
(8, 0): the claim asserts the four queries fail closed with `empty`/`false`
instead of raising, but each of them raises the out-of-range event
(unchecked `std::vector` indexing, undefined behaviour in the C++). -/
theorem C8_counterexample :
    isPositionOnBoard ⟨8, 0⟩ = false
      ∧ getPieceAtPositionE emptyBoard ⟨8, 0⟩ = .error .outOfBounds
      ∧ isSpaceEmptyE emptyBoard ⟨8, 0⟩ = .error .outOfBounds
      ∧ isSpaceFriendlyE emptyBoard ⟨8, 0⟩ .WHITE = .error .outOfBounds
      ∧ isSpaceEnemyE emptyBoard ⟨8, 0⟩ .WHITE = .error .outOfBounds := by
  refine ⟨by decide, by decide, by decide, by decide, by decide⟩

/-- C8 (amended): for every position outside the 8x8 range, the four board
queries do not fail closed; they perform an unchecked vector access, which
is undefined behaviour, modelled as the `outOfBounds` runtime error.  Only
`isPositionOnBoard` (and its callers) check bounds. -/
theorem C8_oob_queries_are_ub (b : ChessBoard) (p : Position) (colour : Colour)
    (hs : Shaped b) (hp : isPositionOnBoard p = false) :
    getPieceAtPositionE b p = .error .outOfBounds
      ∧ isSpaceEmptyE b p = .error .outOfBounds
      ∧ isSpaceFriendlyE b p colour = .error .outOfBounds
      ∧ isSpaceEnemyE b p colour = .error .outOfBounds := by
  have h := getPieceAtPositionE_oob b p hs hp
  refine ⟨h, ?_, ?_, ?_⟩ <;>
    simp [isSpaceEmptyE, isSpaceFriendlyE, isSpaceEnemyE, h, Except.bind]

/-- Witness for C8_oob_queries_are_ub at the empty board, (-1, 3), white. -/
theorem C8_oob_queries_are_ub_witness :
    getPieceAtPositionE emptyBoard ⟨-1, 3⟩ = .error .outOfBounds
      ∧ isSpaceEmptyE emptyBoard ⟨-1, 3⟩ = .error .outOfBounds
      ∧ isSpaceFriendlyE emptyBoard ⟨-1, 3⟩ .WHITE = .error .outOfBounds
      ∧ isSpaceEnemyE emptyBoard ⟨-1, 3⟩ .WHITE = .error .outOfBounds :=
  C8_oob_queries_are_ub emptyBoard ⟨-1, 3⟩ .WHITE (by decide) (by decide)

/-! ### C9: tryMove never touches the authoritative board -/

/-- Claim C9 (confirmed): for every pair of positions, `tryMove` leaves the
authoritative game state — in particular every square of the authoritative
board — exactly as it was: all its mutations target the clone rebuilt from
the serialized placement. -/
theorem C9_tryMove_frame (s : GameState) (start stop : Position) :
    (tryMoveFrame s start stop).2 = s
      ∧ ∀ p : Position, cellGet (tryMoveFrame s start stop).2.board p = cellGet s.board p := by
  constructor
  · rfl
  · intro p
    rfl

/-! ### C5: en passant -/

/-- The board before white's double pawn advance: kings on their home
squares, a white pawn on (6, 1), a black pawn already advanced to (4, 2). -/
def epStartBoard : ChessBoard :=
  match initializeBoardFromString
      "....k-...\n........\n........\n........\n..p-.....\n........\n.P-......\n....K-...\n" with
  | .ok b => b
  | .error _ => emptyBoard

/-- The board right after white plays the double advance (6,1) → (4,1):
the white pawn records `moveCounter = 1` and becomes en-passant eligible. -/
def epBoard : ChessBoard :=
  match movePiece epStartBoard ⟨6, 1⟩ ⟨4, 1⟩ false with
  | .ok (_, b) => b
  | .error _ => emptyBoard

/-- The en-passant clause of Pawn::updateValidMoves is dead code: the row
required of the capturer equals the row required of the eligible victim, so
the adjacent-square eligibility test always fails. -/
theorem pawnEnPassantMoves_nil (b : ChessBoard) (pc : Piece) :
    pawnEnPassantMoves b pc = [] := by
  unfold pawnEnPassantMoves
  rcases hc : pc.colour with _ | _
  · simp only [Piece.colourModifier, hc]
    by_cases hr : pc.position.row = 4
    · simp only [hr]
      have : ∀ ac : Int,
          isPawnEligibleForEnPassant b ⟨4, ac⟩ (oppositeColour Colour.WHITE) = false := by
        intro ac
        simp [isPawnEligibleForEnPassant, oppositeColour]
      simp [this]
    · simp [hr]
  · simp only [Piece.colourModifier, hc]
    by_cases hr : pc.position.row = 3
    · simp only [hr]
      have : ∀ ac : Int,
          isPawnEligibleForEnPassant b ⟨3, ac⟩ (oppositeColour Colour.BLACK) = false := by
        intro ac
        simp [isPawnEligibleForEnPassant, oppositeColour]
      simp [this]
    · simp [hr]

set_option maxRecDepth 400000 in
/-- Claim C5 is a code bug (Pawn.cpp line 105): the en-passant clause of
`Pawn::updateValidMoves` requires the capturing white pawn to stand on row
4 and the capturing black pawn on row 3 — exactly swapped with respect to
its own comment ("row 4 (index 3) for white pawns, and row 5 (index 4) for
black pawns") and with the eligibility rows of
`ChessBoard::isPawnEligibleForEnPassant` (white eligible on row 4, black on
row 3).  Consequently the clause never produces a move: first conjunct.
The remaining conjuncts evaluate the failing input: immediately after
white's double advance the white pawn on (4,1) is en-passant eligible, the
adjacent black pawn on (4,2) is freshly regenerated, yet its generated move
set does not contain the en-passant diagonal (5,1). -/
theorem C5_enpassant_clause_dead :
    (∀ (b : ChessBoard) (pc : Piece), pawnEnPassantMoves b pc = [])
      ∧ isPawnEligibleForEnPassant epBoard ⟨4, 1⟩ .WHITE = true
      ∧ ((cellGet epBoard ⟨4, 2⟩).map (fun pc =>
          decide (pc.pieceType = PieceType.PAWN) && decide (pc.colour = Colour.BLACK)
            && !(decide ((⟨5, 1⟩ : Position) ∈ pc.validMoves)))).getD false = true := by
  exact ⟨pawnEnPassantMoves_nil, by decide, by decide⟩

/-! ### C7: serialize / deserialize round trip -/

/-- What one square of a well-formed placement string denotes. -/
abbrev PlacementCell := Option (PieceType × Colour)

/-- A denoted square is a real piece letter (serialization never emits the
`?` of `NONE` because no `NONE` piece can exist on a board). -/
def cellOK (cell : PlacementCell) : Bool :=
  match cell with
  | none => true
  | some (t, _) => t ≠ PieceType.NONE

/-- The serialized token of one placement square. -/
def pTokenChars (cell : PlacementCell) : List Char :=
  match cell with
  | none => ['.']
  | some (t, c) => [pieceChar t c, '-']

/-- One serialized placement row: eight tokens and a newline. -/
def placementRowString (row : List PlacementCell) : List Char :=
  (row.map pTokenChars).flatten ++ ['\n']

/-- A well-formed 8x8 placement string: eight rows of eight tokens, each
token a piece letter plus `-` separator or the `.` filler. -/
def placementString (pl : List (List PlacementCell)) : String :=
  ⟨(pl.map placementRowString).flatten⟩

/-- Well-formedness of the denoted placement. -/
def WFPlacement (pl : List (List PlacementCell)) : Prop :=
  pl.length = 8 ∧ ∀ row ∈ pl, row.length = 8 ∧ ∀ cell ∈ row, cellOK cell = true

instance : DecidablePred WFPlacement := fun pl => by
  unfold WFPlacement
  infer_instance

/-- The piece `initializeBoardFromString` builds for one square. -/
def matCell (r c : Int) (cell : PlacementCell) : Option Piece :=
  match cell with
  | none => none
  | some (t, co) => createPiece co ⟨r, c⟩ t

/-- The materialized row of a placement, starting at column `c`. -/
def matRowFrom (r : Int) : Int → List PlacementCell → List (Option Piece)
  | _, [] => []
  | c, cell :: cs => matCell r c cell :: matRowFrom r (c + 1) cs

/-- The materialized rows of a placement, starting at row `r`. -/
def matRowsFrom : Int → List (List PlacementCell) → List (List (Option Piece))
  | _, [] => []
  | r, row :: rows => matRowFrom r 0 row :: matRowsFrom (r + 1) rows

/-- The board a placement denotes (before cache regeneration). -/
def matBoard (pl : List (List PlacementCell)) : ChessBoard :=
  ⟨matRowsFrom 0 pl⟩

theorem charPiece_pieceChar (t : PieceType) (co : Colour) (h : t ≠ PieceType.NONE) :
    charPiece (pieceChar t co) = some (t, co) := by
  cases t <;> cases co <;> simp_all <;> rfl

theorem pieceChar_not_special (t : PieceType) (co : Colour) (h : t ≠ PieceType.NONE) :
    pieceChar t co ≠ '-' ∧ pieceChar t co ≠ '.' ∧ pieceChar t co ≠ '\n' := by
  cases t <;> cases co <;> simp_all <;> decide

theorem createPiece_ne_none (co : Colour) (p : Position) (t : PieceType)
    (h : t ≠ PieceType.NONE) :
    createPiece co p t = some ⟨co, p, t, false, [], 0, false⟩ := by
  cases t <;> simp_all [createPiece]

/-- One deserialization step on the `.` filler. -/
theorem deserialize_step_dot (r c : Int) (rest : List Char) (b : ChessBoard)
    (h8r : ¬ r > 8) (h8c : ¬ c + 1 > 8) :
    deserializeChars ('.' :: rest) r c b = deserializeChars rest r (c + 1) b := by
  simp [deserializeChars, exceptBindOk]
  omega

/-- One deserialization step on the `-` separator. -/
theorem deserialize_step_sep (r c : Int) (rest : List Char) (b : ChessBoard)
    (h8r : ¬ r > 8) (h8c : ¬ c + 1 > 8) :
    deserializeChars ('-' :: rest) r c b = deserializeChars rest r (c + 1) b := by
  simp [deserializeChars, exceptBindOk]
  omega

/-- One deserialization step on a newline. -/
theorem deserialize_step_nl (r c : Int) (rest : List Char) (b : ChessBoard)
    (h8r : ¬ r + 1 > 8) :
    deserializeChars ('\n' :: rest) r c b = deserializeChars rest (r + 1) 0 b := by
  simp [deserializeChars, exceptBindOk]
  omega

/-- One deserialization step on a piece letter: the factory piece is written
at the current cell and the counters do not move. -/
theorem deserialize_step_letter (t : PieceType) (co : Colour) (r c : Int)
    (rest : List Char) (b : ChessBoard) (ht : t ≠ PieceType.NONE)
    (h8r : ¬ r > 8) (h8c : ¬ c > 8)
    (honb : isPositionOnBoard ⟨r, c⟩ = true) :
    deserializeChars (pieceChar t co :: rest) r c b
      = deserializeChars rest r c (setCell b ⟨r, c⟩ (createPiece co ⟨r, c⟩ t)) := by
  have hset : setCellE b ⟨r, c⟩ (createPiece co ⟨r, c⟩ t)
      = .ok (setCell b ⟨r, c⟩ (createPiece co ⟨r, c⟩ t)) := by
    simp [setCellE, honb]
  cases t <;> cases co <;>
    first
    | exact absurd rfl ht
    | · simp [pieceChar, deserializeChars, exceptBindOk, charPiece, hset]
        omega

/-- Writing one square of an append-structured intermediate board. -/
theorem setCell_append (done tail : List (List (Option Piece)))
    (rowAcc rest : List (Option Piece)) (x v : Option Piece) :
    setCell ⟨done ++ (rowAcc ++ x :: rest) :: tail⟩
        ⟨(done.length : Int), (rowAcc.length : Int)⟩ v
      = ⟨done ++ (rowAcc ++ v :: rest) :: tail⟩ := by
  unfold setCell
  congr 1
  simp only [Int.toNat_natCast]
  rw [List.getD_append_right _ _ _ _ (le_refl _), Nat.sub_self]
  simp only [List.getD_cons_zero]
  rw [List.set_append, if_neg (lt_irrefl _), List.set_append, if_neg (lt_irrefl _)]
  simp

/-- Processing the tokens of (part of) one row of a well-formed placement
string: each token writes its materialized square and advances the column. -/
theorem deserialize_row (cells : List PlacementCell) :
    ∀ (rowAcc : List (Option Piece)) (done tail : List (List (Option Piece)))
      (rest : List Char),
      done.length ≤ 7 → rowAcc.length + cells.length = 8 →
      (∀ cell ∈ cells, cellOK cell = true) →
      deserializeChars ((cells.map pTokenChars).flatten ++ rest)
          (done.length : Int) (rowAcc.length : Int)
          ⟨done ++ (rowAcc ++ List.replicate cells.length none) :: tail⟩
        = deserializeChars rest (done.length : Int) ((rowAcc.length : Int) + (cells.length : Int))
          ⟨done ++ (rowAcc ++ matRowFrom (done.length : Int) (rowAcc.length : Int) cells) :: tail⟩ := by
  induction cells with
  | nil =>
    intro rowAcc done tail rest _ _ _
    simp [matRowFrom]
  | cons cell cs ih =>
    intro rowAcc done tail rest hdone hcol hok
    have hcellOK : cellOK cell = true := hok cell (by simp)
    have hcsOK : ∀ c ∈ cs, cellOK c = true := fun c hc => hok c (by simp [hc])
    simp only [List.length_cons] at hcol
    have hcolLe : rowAcc.length ≤ 7 := by omega
    have h8r : ¬ (done.length : Int) > 8 := by
      have : (done.length : Int) ≤ 7 := by exact_mod_cast hdone
      omega
    have h8c1 : ¬ (rowAcc.length : Int) + 1 > 8 := by
      have : (rowAcc.length : Int) ≤ 7 := by exact_mod_cast hcolLe
      omega
    have hcast1 : (rowAcc.length : Int) + 1 = (((rowAcc.length + 1 : Nat)) : Int) := by
      push_cast; ring
    cases cell with
    | none =>
      simp only [pTokenChars, List.map_cons, List.flatten_cons, List.cons_append,
        List.nil_append, List.singleton_append, List.length_cons]
      rw [deserialize_step_dot _ _ _ _ h8r h8c1]
      have hboard : rowAcc ++ List.replicate (cs.length + 1) none
          = (rowAcc ++ [(none : Option Piece)]) ++ List.replicate cs.length none := by
        simp [List.replicate_succ, List.append_assoc]
      rw [List.replicate_succ] at hboard ⊢
      rw [show rowAcc ++ (none : Option Piece) :: List.replicate cs.length none
            = (rowAcc ++ [(none : Option Piece)]) ++ List.replicate cs.length none by
          simp [List.append_assoc]]
      rw [hcast1]
      have ih' := ih (rowAcc ++ [none]) done tail rest hdone (by simp; omega) hcsOK
      simp only [List.length_append, List.length_cons, List.length_nil, Nat.add_zero,
        Nat.zero_add] at ih'
      rw [ih']
      congr 1 <;>
        first
        | (rw [matRowFrom]
           simp [matCell, List.append_assoc, Nat.cast_add, Nat.cast_one])
        | (push_cast; ring)
    | some tc =>
      obtain ⟨t, co⟩ := tc
      have ht : t ≠ PieceType.NONE := by simpa [cellOK] using hcellOK
      have h8c0 : ¬ (rowAcc.length : Int) > 8 := by
        have : (rowAcc.length : Int) ≤ 7 := by exact_mod_cast hcolLe
        omega
      have honb : isPositionOnBoard ⟨(done.length : Int), (rowAcc.length : Int)⟩ = true := by
        simp only [isPositionOnBoard, Bool.and_eq_true, decide_eq_true_eq]
        refine ⟨⟨⟨by positivity, ?_⟩, by positivity⟩, ?_⟩
        · have : (done.length : Int) ≤ 7 := by exact_mod_cast hdone
          omega
        · have : (rowAcc.length : Int) ≤ 7 := by exact_mod_cast hcolLe
          omega
      simp only [pTokenChars, List.map_cons, List.flatten_cons, List.cons_append,
        List.nil_append, List.length_cons]
      rw [deserialize_step_letter t co _ _ _ _ ht h8r h8c0 honb]
      rw [List.replicate_succ, setCell_append]
      rw [deserialize_step_sep _ _ _ _ h8r h8c1]
      rw [show rowAcc ++ createPiece co ⟨(done.length : Int), (rowAcc.length : Int)⟩ t
            :: List.replicate cs.length none
          = (rowAcc ++ [createPiece co ⟨(done.length : Int), (rowAcc.length : Int)⟩ t])
            ++ List.replicate cs.length none by simp [List.append_assoc]]
      rw [hcast1]
      have ih' := ih (rowAcc ++ [createPiece co ⟨(done.length : Int), (rowAcc.length : Int)⟩ t])
        done tail rest hdone (by simp; omega) hcsOK
      simp only [List.length_append, List.length_cons, List.length_nil, Nat.add_zero,
        Nat.zero_add] at ih'
      rw [ih']
      congr 1 <;>
        first
        | (rw [matRowFrom]
           simp [matCell, List.append_assoc, Nat.cast_add, Nat.cast_one])
        | (push_cast; ring)

/-- Processing the rows of a well-formed placement string. -/
theorem deserialize_rows (rows : List (List PlacementCell)) :
    ∀ (done : List (List (Option Piece))),
      done.length + rows.length = 8 →
      (∀ row ∈ rows, row.length = 8 ∧ ∀ cell ∈ row, cellOK cell = true) →
      deserializeChars ((rows.map placementRowString).flatten) (done.length : Int) 0
          ⟨done ++ List.replicate rows.length (List.replicate 8 none)⟩
        = .ok ⟨done ++ matRowsFrom (done.length : Int) rows⟩ := by
  induction rows with
  | nil =>
    intro done _ _
    simp [deserializeChars, matRowsFrom]
  | cons row rows ih =>
    intro done hlen hok
    simp only [List.length_cons] at hlen
    have hdone : done.length ≤ 7 := by omega
    obtain ⟨hrowlen, hrowok⟩ := hok row (by simp)
    have hoks : ∀ r ∈ rows, r.length = 8 ∧ ∀ cell ∈ r, cellOK cell = true :=
      fun r hr => hok r (by simp [hr])
    have hout : List.replicate (row :: rows).length (List.replicate 8 (none : Option Piece))
        = List.replicate 8 none :: List.replicate rows.length (List.replicate 8 none) := by
      simp [List.replicate_succ]
    rw [hout]
    simp only [List.map_cons, List.flatten_cons, placementRowString, List.length_cons,
      List.append_assoc, List.singleton_append, List.cons_append, List.nil_append]
    have hrow := deserialize_row row ([] : List (Option Piece)) done
      (List.replicate rows.length (List.replicate 8 none))
      ('\n' :: (rows.map placementRowString).flatten) hdone (by simpa using hrowlen) hrowok
    simp only [List.length_nil, Nat.cast_zero, List.nil_append] at hrow
    rw [hrowlen] at hrow
    rw [hrow]
    have h8r : ¬ (done.length : Int) + 1 > 8 := by
      have : (done.length : Int) ≤ 7 := by exact_mod_cast hdone
      omega
    rw [deserialize_step_nl _ _ _ _ h8r]
    have hcast : (done.length : Int) + 1 = (((done.length + 1 : Nat)) : Int) := by
      push_cast; ring
    rw [show done ++ matRowFrom (done.length : Int) 0 row
          :: List.replicate rows.length (List.replicate 8 none)
        = (done ++ [matRowFrom (done.length : Int) 0 row])
          ++ List.replicate rows.length (List.replicate 8 none) by simp [List.append_assoc]]
    rw [hcast]
    have ih' := ih (done ++ [matRowFrom (done.length : Int) 0 row]) (by simp; omega) hoks
    simp only [List.length_append, List.length_cons, List.length_nil, Nat.add_zero,
      Nat.zero_add] at ih'
    rw [ih']
    congr 1
    rw [matRowsFrom]
    simp [List.append_assoc, Nat.cast_add, Nat.cast_one]

/-- Deserializing a well-formed placement string succeeds and produces the
materialized board with every cache regenerated. -/
theorem initializeBoardFromString_wf (pl : List (List PlacementCell))
    (hwf : WFPlacement pl) :
    initializeBoardFromString (placementString pl) = .ok (regenAll (matBoard pl)) := by
  have h := deserialize_rows pl [] (by simpa using hwf.1) hwf.2
  simp only [List.length_nil, Nat.cast_zero, List.nil_append] at h
  unfold initializeBoardFromString
  have hdata : (placementString pl).data = (pl.map placementRowString).flatten := rfl
  rw [hdata]
  have hempty : emptyBoard = ⟨List.replicate pl.length (List.replicate 8 none)⟩ := by
    rw [hwf.1]; rfl
  rw [hempty, h, exceptBindOk]
  rfl

/-- Replacing a list element by its current value is the identity. -/
theorem list_set_of_getElem {α : Type} :
    ∀ (l : List α) (i : Nat) (a : α), l[i]? = some a → l.set i a = l := by
  intro l
  induction l with
  | nil => intro i a h; simp at h
  | cons x xs ih =>
    intro i a h
    cases i with
    | zero => simp_all
    | succ j =>
      simp only [List.getElem?_cons_succ] at h
      simp [ih j a h]

/-- Writing a piece with the same letter back into an occupied square does
not change the serialized placement. -/
theorem serialize_setCell_same_token (b : ChessBoard) (p : Position) (pc pc' : Piece)
    (hcell : cellGet b p = some pc)
    (ht : pc'.pieceType = pc.pieceType) (hc : pc'.colour = pc.colour) :
    getBoardStateAsString (setCell b p (some pc')) = getBoardStateAsString b := by
  have honb : isPositionOnBoard p = true := by
    by_contra hno
    simp [cellGet, hno] at hcell
  have hgd : (b.board.getD p.row.toNat []).getD p.col.toNat none = some pc := by
    simpa [cellGet, honb] using hcell
  have hi : p.row.toNat < b.board.length := by
    by_contra hno
    have hle : b.board.length ≤ p.row.toNat := Nat.le_of_not_lt hno
    rw [List.getD_eq_getElem?_getD b.board, List.getElem?_eq_none hle] at hgd
    simp at hgd
  have hj : p.col.toNat < (b.board.getD p.row.toNat []).length := by
    by_contra hno
    have hle : (b.board.getD p.row.toNat []).length ≤ p.col.toNat := Nat.le_of_not_lt hno
    rw [List.getD_eq_getElem?_getD (b.board.getD p.row.toNat []),
      List.getElem?_eq_none hle] at hgd
    simp at hgd
  have hrowEqGet : b.board[p.row.toNat] = b.board.getD p.row.toNat [] := by
    rw [List.getD_eq_getElem?_getD, List.getElem?_eq_getElem hi]
    rfl
  have hrowElem : b.board[p.row.toNat]? = some (b.board.getD p.row.toNat []) := by
    rw [List.getElem?_eq_getElem hi, hrowEqGet]
  have hcellEqGet : (b.board.getD p.row.toNat [])[p.col.toNat] = some pc := by
    have hgd2 := hgd
    rw [List.getD_eq_getElem?_getD, List.getElem?_eq_getElem hj] at hgd2
    simpa using hgd2
  have hcellElem : (b.board.getD p.row.toNat [])[p.col.toNat]? = some (some pc) := by
    rw [List.getElem?_eq_getElem hj, hcellEqGet]
  have htok : tokenChars (some pc') = tokenChars (some pc) := by
    simp [tokenChars, ht, hc]
  have hrowTok : rowChars ((b.board.getD p.row.toNat []).set p.col.toNat (some pc'))
      = rowChars (b.board.getD p.row.toNat []) := by
    unfold rowChars
    have hmap : ((b.board.getD p.row.toNat []).set p.col.toNat (some pc')).map tokenChars
        = (b.board.getD p.row.toNat []).map tokenChars := by
      rw [List.map_set, htok]
      apply list_set_of_getElem
      rw [List.getElem?_map, hcellElem]
      rfl
    rw [hmap]
  unfold getBoardStateAsString setCell
  congr 1
  rw [List.map_set, hrowTok]
  congr 1
  apply list_set_of_getElem
  rw [List.getElem?_map, hrowElem]
  rfl

/-- One cache-regeneration step does not change the serialized placement. -/
theorem serialize_regenStep (b : ChessBoard) (r c : Nat) :
    getBoardStateAsString (regenStep b r c) = getBoardStateAsString b := by
  unfold regenStep
  cases hcell : cellGet b ⟨(r : Int), (c : Int)⟩ with
  | none => rfl
  | some pc => exact serialize_setCell_same_token b _ pc _ hcell rfl rfl

/-- Folds of serialization-preserving steps preserve serialization. -/
theorem serialize_foldl {β : Type} (f : ChessBoard → β → ChessBoard)
    (hf : ∀ b x, getBoardStateAsString (f b x) = getBoardStateAsString b) :
    ∀ (l : List β) (b : ChessBoard),
      getBoardStateAsString (l.foldl f b) = getBoardStateAsString b := by
  intro l
  induction l with
  | nil => intro b; rfl
  | cons x xs ih =>
    intro b
    rw [List.foldl_cons, ih, hf]

/-- Board-wide cache regeneration does not change the serialized placement. -/
theorem serialize_regenAll (b : ChessBoard) :
    getBoardStateAsString (regenAll b) = getBoardStateAsString b := by
  unfold regenAll
  exact serialize_foldl _
    (fun b r => serialize_foldl _ (fun b c => serialize_regenStep b r c) _ b) _ b

/-- Serializing a materialized row reproduces its tokens. -/
theorem map_tokenChars_matRow :
    ∀ (row : List PlacementCell) (r c : Int), (∀ cell ∈ row, cellOK cell = true) →
      (matRowFrom r c row).map tokenChars = row.map pTokenChars := by
  intro row
  induction row with
  | nil => intro r c _; rfl
  | cons cell cs ih =>
    intro r c hok
    have hcellOK := hok cell (by simp)
    have hcs : ∀ x ∈ cs, cellOK x = true := fun x hx => hok x (by simp [hx])
    cases cell with
    | none =>
      simp only [matRowFrom, matCell, List.map_cons, ih r (c + 1) hcs]
      rfl
    | some tc =>
      obtain ⟨t, co⟩ := tc
      have ht : t ≠ PieceType.NONE := by simpa [cellOK] using hcellOK
      simp only [matRowFrom, matCell, List.map_cons, ih r (c + 1) hcs,
        createPiece_ne_none co _ t ht]
      rfl

/-- Serializing the materialized board reproduces the placement string. -/
theorem serialize_matBoard (pl : List (List PlacementCell))
    (hok : ∀ row ∈ pl, row.length = 8 ∧ ∀ cell ∈ row, cellOK cell = true) :
    getBoardStateAsString (matBoard pl) = placementString pl := by
  unfold getBoardStateAsString matBoard placementString
  congr 1
  have : ∀ (rows : List (List PlacementCell)) (r : Int),
      (∀ row ∈ rows, ∀ cell ∈ row, cellOK cell = true) →
      (matRowsFrom r rows).map rowChars = rows.map placementRowString := by
    intro rows
    induction rows with
    | nil => intro r _; rfl
    | cons row rs ih =>
      intro r hok2
      simp only [matRowsFrom, List.map_cons]
      rw [ih (r + 1) (fun x hx => hok2 x (by simp [hx]))]
      unfold rowChars placementRowString
      rw [map_tokenChars_matRow row r 0 (hok2 row (by simp))]
  rw [this pl 0 (fun row hr => (hok row hr).2)]

/-- Claim C7 (confirmed): for every well-formed 8x8 placement string —
eight rows of eight tokens, a piece letter plus separator per occupied
square and the `.` filler per empty square — deserializing and then
serializing returns the string exactly. -/
theorem C7_serialize_deserialize_roundtrip (pl : List (List PlacementCell))
    (hwf : WFPlacement pl) :
    ∃ b, initializeBoardFromString (placementString pl) = .ok b
      ∧ getBoardStateAsString b = placementString pl := by
  refine ⟨regenAll (matBoard pl), initializeBoardFromString_wf pl hwf, ?_⟩
  rw [serialize_regenAll, serialize_matBoard pl hwf.2]

/-- The standard starting placement, as a well-formed placement. -/
def stdPlacement : List (List PlacementCell) :=
  [[some (.ROOK, .BLACK), some (.KNIGHT, .BLACK), some (.BISHOP, .BLACK), some (.QUEEN, .BLACK),
    some (.KING, .BLACK), some (.BISHOP, .BLACK), some (.KNIGHT, .BLACK), some (.ROOK, .BLACK)],
   List.replicate 8 (some (.PAWN, .BLACK)),
   List.replicate 8 none, List.replicate 8 none, List.replicate 8 none, List.replicate 8 none,
   List.replicate 8 (some (.PAWN, .WHITE)),
   [some (.ROOK, .WHITE), some (.KNIGHT, .WHITE), some (.BISHOP, .WHITE), some (.QUEEN, .WHITE),
    some (.KING, .WHITE), some (.BISHOP, .WHITE), some (.KNIGHT, .WHITE), some (.ROOK, .WHITE)]]

/-- Witness for C7 at the standard starting placement. -/
theorem C7_serialize_deserialize_roundtrip_witness :
    WFPlacement stdPlacement
      ∧ ∃ b, initializeBoardFromString (placementString stdPlacement) = .ok b
        ∧ getBoardStateAsString b = placementString stdPlacement :=
  ⟨by decide, C7_serialize_deserialize_roundtrip stdPlacement (by decide)⟩

/-! ### Placement cores: everything about a piece except its move cache -/

/-- The state of a piece minus its cached move list. -/
def Piece.core (pc : Piece) : Colour × Position × PieceType × Bool × Int × Bool :=
  (pc.colour, pc.position, pc.pieceType, pc.hasMoved, pc.moveCounter, pc.enPassant)

/-- The core of one square. -/
def cellCore (b : ChessBoard) (p : Position) : Option (Colour × Position × PieceType × Bool × Int × Bool) :=
  (cellGet b p).map Piece.core

theorem onBoard_iff (p : Position) :
    isPositionOnBoard p = true ↔ 0 ≤ p.row ∧ p.row < 8 ∧ 0 ≤ p.col ∧ p.col < 8 := by
  simp [isPositionOnBoard, and_assoc]

theorem cellGet_not_onBoard (b : ChessBoard) (q : Position)
    (h : isPositionOnBoard q = false) : cellGet b q = none := by
  simp [cellGet, h]

theorem cellGet_some_onBoard {b : ChessBoard} {p : Position} {pc : Piece}
    (h : cellGet b p = some pc) : isPositionOnBoard p = true := by
  by_contra hno
  simp [cellGet, Bool.not_eq_true] at hno
  simp [cellGet, hno] at h

theorem Shaped_setCell {b : ChessBoard} (p : Position) (v : Option Piece)
    (hs : Shaped b) : Shaped (setCell b p v) := by
  constructor
  · simp [setCell, hs.1]
  · intro r hr
    simp only [setCell] at hr
    by_cases hi : p.row.toNat < b.board.length
    · rcases List.mem_or_eq_of_mem_set hr with hmem | heq
      · exact hs.2 r hmem
      · subst heq
        rw [List.length_set]
        apply hs.2
        rw [List.getD_eq_getElem?_getD, List.getElem?_eq_getElem hi]
        exact List.getElem_mem _
    · rw [List.set_eq_of_length_le (by omega)] at hr
      exact hs.2 r hr

theorem getD_set_self {α : Type} (l : List α) (i : Nat) (x d : α)
    (h : i < l.length) : (l.set i x).getD i d = x := by
  rw [List.getD_eq_getElem?_getD, List.getElem?_set_self h]
  rfl

theorem getD_set_ne {α : Type} (l : List α) (i j : Nat) (x d : α)
    (h : i ≠ j) : (l.set i x).getD j d = l.getD j d := by
  rw [List.getD_eq_getElem?_getD, List.getElem?_set_ne h, ← List.getD_eq_getElem?_getD]

theorem cellGet_setCell (b : ChessBoard) (p : Position) (v : Option Piece) (q : Position)
    (hs : Shaped b) (hp : isPositionOnBoard p = true) :
    cellGet (setCell b p v) q = if q = p then v else cellGet b q := by
  obtain ⟨hr0, hr8, hc0, hc8⟩ := (onBoard_iff p).1 hp
  have hlen := hs.1
  have hi : p.row.toNat < b.board.length := by omega
  have hrow_mem : b.board.getD p.row.toNat [] ∈ b.board := by
    rw [List.getD_eq_getElem?_getD, List.getElem?_eq_getElem hi]
    exact List.getElem_mem _
  have hrowlen : (b.board.getD p.row.toNat []).length = 8 := hs.2 _ hrow_mem
  have hj : p.col.toNat < (b.board.getD p.row.toNat []).length := by omega
  have hbrd : (setCell b p v).board
      = b.board.set p.row.toNat ((b.board.getD p.row.toNat []).set p.col.toNat v) := rfl
  by_cases hq : q = p
  · subst hq
    rw [if_pos rfl]
    simp only [cellGet, hp, if_pos, hbrd]
    rw [getD_set_self _ _ _ _ hi, getD_set_self _ _ _ _ hj]
  · rw [if_neg hq]
    by_cases honq : isPositionOnBoard q = true
    · obtain ⟨hqr0, hqr8, hqc0, hqc8⟩ := (onBoard_iff q).1 honq
      simp only [cellGet, honq, if_pos, hbrd]
      by_cases hrr : q.row.toNat = p.row.toNat
      · have hcc : q.col.toNat ≠ p.col.toNat := by
          intro hcon
          apply hq
          have h1 : q.row = p.row := by omega
          have h2 : q.col = p.col := by omega
          cases q; cases p
          simp_all
        rw [hrr, getD_set_self _ _ _ _ hi, getD_set_ne _ _ _ _ _ (Ne.symm hcc)]
      · rw [getD_set_ne _ _ _ _ _ (Ne.symm hrr)]
    · rw [cellGet_not_onBoard _ q (by simpa using honq),
        cellGet_not_onBoard b q (by simpa using honq)]

theorem updatePiece_core (b : ChessBoard) (pc : Piece) :
    (updatePiece b pc).core = pc.core := rfl

/-- A fold of shape- and core-preserving steps preserves shape and cores. -/
theorem foldl_core_invar {β : Type} (f : ChessBoard → β → ChessBoard)
    (hf : ∀ b x, Shaped b → Shaped (f b x) ∧ ∀ q, cellCore (f b x) q = cellCore b q) :
    ∀ (l : List β) (b : ChessBoard), Shaped b →
      Shaped (l.foldl f b) ∧ ∀ q, cellCore (l.foldl f b) q = cellCore b q := by
  intro l
  induction l with
  | nil => intro b hb; exact ⟨hb, fun _ => rfl⟩
  | cons x xs ih =>
    intro b hb
    obtain ⟨hsh, hcore⟩ := hf b x hb
    obtain ⟨hsh2, hcore2⟩ := ih (f b x) hsh
    exact ⟨hsh2, fun q => (hcore2 q).trans (hcore q)⟩

theorem regenStep_invar (b : ChessBoard) (r c : Nat) (hs : Shaped b) :
    Shaped (regenStep b r c) ∧ ∀ q, cellCore (regenStep b r c) q = cellCore b q := by
  unfold regenStep
  cases hcell : cellGet b ⟨(r : Int), (c : Int)⟩ with
  | none => exact ⟨hs, fun _ => rfl⟩
  | some pc =>
    have hp := cellGet_some_onBoard hcell
    refine ⟨Shaped_setCell _ _ hs, fun q => ?_⟩
    unfold cellCore
    rw [cellGet_setCell b _ _ q hs hp]
    by_cases hq : q = (⟨(r : Int), (c : Int)⟩ : Position)
    · subst hq
      rw [if_pos rfl, hcell]
      rfl
    · rw [if_neg hq]

/-- Board-wide regeneration touches only the caches: shape and cores are
preserved. -/
theorem regenAll_invar (b : ChessBoard) (hs : Shaped b) :
    Shaped (regenAll b) ∧ ∀ q, cellCore (regenAll b) q = cellCore b q := by
  unfold regenAll
  apply foldl_core_invar
  · intro b r hb
    exact foldl_core_invar _ (fun b c hb2 => regenStep_invar b r c hb2) _ b hb
  · exact hs

/-- A raw read that succeeds is the guarded read, and the position is on
the board. -/
theorem getPieceAtPositionE_ok {b : ChessBoard} {p : Position} {x : Option Piece}
    (hs : Shaped b) (h : getPieceAtPositionE b p = .ok x) :
    isPositionOnBoard p = true ∧ cellGet b p = x := by
  unfold getPieceAtPositionE at h
  by_cases hr : 0 ≤ p.row ∧ p.row.toNat < b.board.length
  · rw [vecIdx_ok _ _ hr, exceptBindOk] at h
    have hrowlen : (b.board.get ⟨p.row.toNat, hr.2⟩).length = 8 :=
      hs.2 _ (List.get_mem _ _ _)
    by_cases hc : 0 ≤ p.col ∧ p.col.toNat < (b.board.get ⟨p.row.toNat, hr.2⟩).length
    · rw [vecIdx_ok _ _ hc] at h
      have honb : isPositionOnBoard p = true := by
        rw [onBoard_iff]
        have h1 := hr.2
        rw [hs.1] at h1
        have h2 := hc.2
        rw [hrowlen] at h2
        refine ⟨hr.1, by omega, hc.1, by omega⟩
      refine ⟨honb, ?_⟩
      simp only [cellGet, honb, if_pos]
      have hget : b.board.getD p.row.toNat [] = b.board.get ⟨p.row.toNat, hr.2⟩ := by
        rw [List.getD_eq_getElem?_getD, List.getElem?_eq_getElem hr.2]
        rfl
      rw [hget, List.getD_eq_getElem?_getD, List.getElem?_eq_getElem hc.2]
      simpa using h
    · rw [vecIdx_err _ _ hc] at h
      exact absurd h (by simp)
  · rw [vecIdx_err _ _ hr, exceptBindErr] at h
    exact absurd h (by simp)

/-! ### Inversion of the makeMove rejection paths (C2) -/

theorem exceptBindOkInv {ε α β : Type} {x : Except ε α} {f : α → Except ε β} {r : β}
    (h : x >>= f = .ok r) : ∃ a, x = .ok a ∧ f a = .ok r := by
  cases x with
  | ok a => exact ⟨a, rfl, h⟩
  | error e => rw [exceptBindErr] at h; exact absurd h (by simp)

/-- A successful getPossibleMoves leaves the state unchanged except for the
refreshed cache of the scanned piece. -/
theorem getPossibleMovesC_inv {tm : Bool} {s : GameState} {pos : Position}
    {res : List Position × GameState}
    (h : getPossibleMovesC tm s pos = .ok res) :
    res.2 = s ∨ ∃ pc, getPieceAtPositionE s.board pos = .ok (some pc)
      ∧ res.2 = { s with board := setCell s.board pos (some (updatePiece s.board pc)) } := by
  unfold getPossibleMovesC at h
  obtain ⟨pc?, hpc, h⟩ := exceptBindOkInv h
  cases pc? with
  | none =>
    left
    simp only [pure, Except.pure] at h
    cases h
    rfl
  | some pc =>
    right
    refine ⟨pc, hpc, ?_⟩
    simp only at h
    obtain ⟨chk, hchk, h⟩ := exceptBindOkInv h
    obtain ⟨mvs, hmvs, h⟩ := exceptBindOkInv h
    simp only [pure, Except.pure] at h
    cases h
    rfl

/-- Both exits of the final phase report `true`. -/
theorem makeMoveFinish_ok_fst {tm : Bool} {s : GameState} {a b : Position}
    {mp : Piece} {cp? : Option Piece} {r : Bool × GameState}
    (h : makeMoveFinish tm s a b mp cp? = .ok r) : r.1 = true := by
  unfold makeMoveFinish at h
  split at h
  · obtain ⟨s4, hs4, h⟩ := exceptBindOkInv h
    simp only [pure, Except.pure] at h
    cases h
    rfl
  · obtain ⟨s4, hs4, h⟩ := exceptBindOkInv h
    simp only [pure, Except.pure] at h
    cases h
    rfl

/-- The committed tail of makeMove never reports `false`: once the up-front
checks have accepted the move, both exits return `true`. -/
theorem makeMoveCommit_ok_fst {tm : Bool} {s : GameState} {a b : Position}
    {mp : Piece} {cp? : Option Piece} {r : Bool × GameState}
    (h : makeMoveCommit tm s a b mp cp? = .ok r) : r.1 = true := by
  unfold makeMoveCommit at h
  obtain ⟨p, hp, h⟩ := exceptBindOkInv h
  obtain ⟨_mv, bd⟩ := p
  obtain ⟨s3, hs3, h⟩ := exceptBindOkInv h
  exact makeMoveFinish_ok_fst h

/-- Inversion of `makeMove` in normal mode returning `false`: either nothing
at all changed (validation failed up front), or only the scanned piece's
cached move list was refreshed by getPossibleMoves. -/
theorem makeMove_false_inv {s : GameState} {a b : Position} {s' : GameState}
    (h : makeMove false s a b = .ok (false, s')) :
    s' = s ∨ ∃ pc, getPieceAtPositionE s.board a = .ok (some pc)
      ∧ s' = { s with board := setCell s.board a (some (updatePiece s.board pc)) } := by
  unfold makeMove at h
  simp only [Bool.false_eq_true, if_false] at h
  obtain ⟨v, hv, h⟩ := exceptBindOkInv h
  split at h
  · obtain ⟨pmres, hpm, h⟩ := exceptBindOkInv h
    have hinv := getPossibleMovesC_inv hpm
    obtain ⟨pms, s2⟩ := pmres
    split at h
    · simp only [pure, Except.pure] at h
      cases h
      rcases hinv with h1 | ⟨pc, hpc, h2⟩
      · left; exact h1
      · right; exact ⟨pc, hpc, h2⟩
    · obtain ⟨mp?, hmp, h⟩ := exceptBindOkInv h
      obtain ⟨cp?, hcp, h⟩ := exceptBindOkInv h
      split at h
      · simp only [pure, Except.pure] at h
        cases h
        rcases hinv with h1 | ⟨pc, hpc, h2⟩
        · left; exact h1
        · right; exact ⟨pc, hpc, h2⟩
      · split at h
        · exact absurd h (by simp)
        · exact absurd (makeMoveCommit_ok_fst h) (by simp)
  · simp only [pure, Except.pure] at h
    cases h
    left
    rfl

/-! ### C2: what a rejected makeMove leaves behind -/

/-- A white pawn whose cached move list is stale: it still claims the
far-away square ⟨5,5⟩ although the generator would never offer it. -/
def cs2Pawn : Piece :=
  ⟨.WHITE, ⟨1, 0⟩, .PAWN, false, [⟨5, 5⟩], 0, false⟩

/-- A friendly blocker directly in front of the pawn, so the refreshed
move list is empty. -/
def cs2Knight : Piece :=
  ⟨.WHITE, ⟨0, 0⟩, .KNIGHT, false, [], 0, false⟩

def cs2BlackKing : Piece :=
  ⟨.BLACK, ⟨0, 4⟩, .KING, false, [], 0, false⟩

def cs2WhiteKing : Piece :=
  ⟨.WHITE, ⟨7, 4⟩, .KING, false, [], 0, false⟩

def cs2State : GameState :=
  { board := ⟨[[some cs2Knight, none, none, none, some cs2BlackKing, none, none, none],
               [some cs2Pawn, none, none, none, none, none, none, none],
               List.replicate 8 none, List.replicate 8 none, List.replicate 8 none,
               List.replicate 8 none, List.replicate 8 none,
               [none, none, none, none, some cs2WhiteKing, none, none, none]]⟩,
    lastMove := initialMove, currentTurnNumber := 1, noCaptureOrPawnMoveCounter := 0,
    currentPlayer := { colour := .WHITE, isResigning := false, isInCheck := false },
    opponentPlayer := { colour := .BLACK, isResigning := false, isInCheck := false },
    gameStatus := .ONGOING, chronologicalData := [], boardStateIndices := [],
    gameHistory := [] }

/-- The state actually left behind by the rejected move: the pawn's cached
move vector has been rewritten on the authoritative board. -/
def cs2Result : GameState :=
  { cs2State with
    board := setCell cs2State.board ⟨1, 0⟩ (some (updatePiece cs2State.board cs2Pawn)) }

set_option maxRecDepth 100000 in
/-- C2: counterexample.  makeMove(⟨1,0⟩, ⟨5,5⟩) rejects the request — the
refreshed move list no longer offers the destination — yet the board grid
after the call differs from the grid before it: getPossibleMoves rewrote
the moving pawn's cached move vector on the authoritative board before the
rejection. -/
theorem C2_counterexample :
    makeMove false cs2State ⟨1, 0⟩ ⟨5, 5⟩ = Except.ok (false, cs2Result)
      ∧ cs2Result.board ≠ cs2State.board := by
  constructor
  · decide
  · decide

/-- C2: corrected form.  A rejected makeMove does return `false` as a boolean
failure without throwing, and the move history and last-move record are
untouched; but the board grid is only preserved up to the cache refresh that
getPossibleMoves applies to the scanned piece: either the state is exactly
the original, or it differs precisely by the piece at `start` having its
cached move vector regenerated. -/
theorem C2_reject_changes_only_cache {s : GameState} {a b : Position} {s' : GameState}
    (h : makeMove false s a b = .ok (false, s')) :
    s'.gameHistory = s.gameHistory ∧ s'.lastMove = s.lastMove
      ∧ (s' = s ∨ ∃ pc, getPieceAtPositionE s.board a = .ok (some pc)
          ∧ s' = { s with
                   board := setCell s.board a (some (updatePiece s.board pc)) }) := by
  rcases makeMove_false_inv h with h1 | ⟨pc, hpc, h2⟩
  · subst h1
    exact ⟨rfl, rfl, Or.inl rfl⟩
  · subst h2
    exact ⟨rfl, rfl, Or.inr ⟨pc, hpc, rfl⟩⟩

set_option maxRecDepth 100000 in
theorem C2_reject_changes_only_cache_witness :
    makeMove false cs2State ⟨1, 0⟩ ⟨5, 5⟩ = Except.ok (false, cs2Result)
      ∧ (cs2Result.gameHistory = cs2State.gameHistory
          ∧ cs2Result.lastMove = cs2State.lastMove
          ∧ (cs2Result = cs2State ∨ ∃ pc,
              getPieceAtPositionE cs2State.board ⟨1, 0⟩ = Except.ok (some pc)
              ∧ cs2Result = { cs2State with
                              board := setCell cs2State.board ⟨1, 0⟩
                                (some (updatePiece cs2State.board pc)) })) :=
  ⟨by decide, @C2_reject_changes_only_cache cs2State ⟨1, 0⟩ ⟨5, 5⟩ cs2Result (by decide)⟩

/-! ### Field bookkeeping for the status pipeline (C3, C4) -/

theorem setGameStatus_board (s : GameState) (st : GameStatus) :
    (setGameStatus s st).board = s.board := by
  cases st <;> rfl

theorem setGameStatus_colour (s : GameState) (st : GameStatus) :
    (setGameStatus s st).currentPlayer.colour = s.currentPlayer.colour := by
  cases st <;> rfl

theorem setGameStatus_indices (s : GameState) (st : GameStatus) :
    (setGameStatus s st).boardStateIndices = s.boardStateIndices := by
  cases st <;> rfl

theorem setGameStatus_lastMove (s : GameState) (st : GameStatus) :
    (setGameStatus s st).lastMove = s.lastMove := by
  cases st <;> rfl

theorem setGameStatus_counter (s : GameState) (st : GameStatus) :
    (setGameStatus s st).noCaptureOrPawnMoveCounter = s.noCaptureOrPawnMoveCounter := by
  cases st <;> rfl

theorem setGameStatus_status (s : GameState) (st : GameStatus) :
    (setGameStatus s st).gameStatus = st := by
  cases st <;> rfl

theorem setGameStatus_chron (s : GameState) (st : GameStatus) :
    (setGameStatus s st).chronologicalData = s.chronologicalData := by
  cases st <;> rfl

theorem switchTurns_currentPlayer (s : GameState) :
    (switchTurns s).currentPlayer = s.opponentPlayer := by
  unfold switchTurns
  split <;> rfl

theorem switchTurns_indices (s : GameState) :
    (switchTurns s).boardStateIndices = s.boardStateIndices := by
  unfold switchTurns
  split <;> rfl

theorem enPassantStage_opponent (s : GameState) (a b : Position) (mp : Piece)
    (cp? : Option Piece) :
    (enPassantStage s a b mp cp?).opponentPlayer = s.opponentPlayer := by
  unfold enPassantStage
  split <;> rfl

theorem enPassantStage_indices (s : GameState) (a b : Position) (mp : Piece)
    (cp? : Option Piece) :
    (enPassantStage s a b mp cp?).boardStateIndices = s.boardStateIndices := by
  unfold enPassantStage
  split <;> rfl

theorem castleStage_inv {s : GameState} {stop : Position} {s' : GameState}
    (h : castleStage s stop = .ok s') : ∃ bd, s' = { s with board := bd } := by
  unfold castleStage at h
  obtain ⟨bd, hbd, h⟩ := exceptBindOkInv h
  obtain ⟨rook?, hrk, h⟩ := exceptBindOkInv h
  cases rook? with
  | none => exact absurd h (by simp)
  | some rook =>
    simp only [pure, Except.pure] at h
    cases h
    exact ⟨_, rfl⟩

theorem statusDrawChecks_fields (s : GameState) :
    (statusDrawChecks s).board = s.board
      ∧ (statusDrawChecks s).boardStateIndices = s.boardStateIndices
      ∧ (statusDrawChecks s).currentPlayer.colour = s.currentPlayer.colour := by
  unfold statusDrawChecks
  by_cases h5 : 5 ≤ (indicesLookup s.boardStateIndices (getBoardStateAsString s.board)).length <;>
    by_cases h3 : 3 ≤ (indicesLookup s.boardStateIndices (getBoardStateAsString s.board)).length <;>
      by_cases hlm : s.lastMove.pieceCaptured = PieceType.NONE
          ∧ ¬s.lastMove.pieceMoved = PieceType.PAWN <;>
        by_cases h75 : (75 : Int) ≤ s.noCaptureOrPawnMoveCounter + 1 <;>
          by_cases h50 : (50 : Int) ≤ s.noCaptureOrPawnMoveCounter + 1 <;>
            by_cases hd : isDeadPosition s.board = true <;>
              simp [h5, h3, hlm, h75, h50, hd, setGameStatus_board, setGameStatus_indices,
                    setGameStatus_colour, setGameStatus_counter, setGameStatus_lastMove]

/-- The draw layers, when the final no-capture counter stays below 50 and
the position is not dead, rewrite the status exactly at the repetition
thresholds of the code: five-or-more prior occurrences of the current
placement give DRAW, three or four give PROMPTDRAW, fewer leave the status
alone. -/
theorem statusDrawChecks_gameStatus (s : GameState)
    (hctr : (statusDrawChecks s).noCaptureOrPawnMoveCounter < 50)
    (hdead : isDeadPosition s.board = false) :
    (statusDrawChecks s).gameStatus =
      (if 5 ≤ (indicesLookup s.boardStateIndices (getBoardStateAsString s.board)).length
       then GameStatus.DRAW
       else if 3 ≤ (indicesLookup s.boardStateIndices (getBoardStateAsString s.board)).length
       then GameStatus.PROMPTDRAW
       else s.gameStatus) := by
  have hd : ¬(isDeadPosition s.board = true) := by simp [hdead]
  unfold statusDrawChecks at hctr ⊢
  by_cases h5 : 5 ≤ (indicesLookup s.boardStateIndices (getBoardStateAsString s.board)).length
  · simp [h5, setGameStatus_status]
  · by_cases h3 : 3 ≤ (indicesLookup s.boardStateIndices (getBoardStateAsString s.board)).length <;>
      by_cases hlm : s.lastMove.pieceCaptured = PieceType.NONE
          ∧ ¬s.lastMove.pieceMoved = PieceType.PAWN
    · by_cases h50 : (50 : Int) ≤ s.noCaptureOrPawnMoveCounter + 1
      · exfalso
        by_cases h75 : (75 : Int) ≤ s.noCaptureOrPawnMoveCounter + 1 <;>
          simp [h5, h3, hlm, h75, h50, hd, setGameStatus_status, setGameStatus_counter,
                setGameStatus_lastMove, setGameStatus_board] at hctr <;>
            omega
      · have h75 : ¬((75 : Int) ≤ s.noCaptureOrPawnMoveCounter + 1) := by omega
        simp [h5, h3, hlm, h75, h50, hd, setGameStatus_status, setGameStatus_counter,
              setGameStatus_lastMove, setGameStatus_board]
    · simp [h5, h3, hlm, hd, setGameStatus_status, setGameStatus_counter,
            setGameStatus_lastMove, setGameStatus_board]
    · by_cases h50 : (50 : Int) ≤ s.noCaptureOrPawnMoveCounter + 1
      · exfalso
        by_cases h75 : (75 : Int) ≤ s.noCaptureOrPawnMoveCounter + 1 <;>
          simp [h5, h3, hlm, h75, h50, hd, setGameStatus_status, setGameStatus_counter,
                setGameStatus_lastMove, setGameStatus_board] at hctr <;>
            omega
      · have h75 : ¬((75 : Int) ≤ s.noCaptureOrPawnMoveCounter + 1) := by omega
        simp [h5, h3, hlm, h75, h50, hd, setGameStatus_status, setGameStatus_counter,
              setGameStatus_lastMove, setGameStatus_board]
    · simp [h5, h3, hlm, hd, setGameStatus_status, setGameStatus_counter,
            setGameStatus_lastMove, setGameStatus_board]

theorem updateBoardStatesMetadata_board (s : GameState) :
    (updateBoardStatesMetadata s).board = s.board := rfl

theorem updateBoardStatesMetadata_status (s : GameState) :
    (updateBoardStatesMetadata s).gameStatus = s.gameStatus := rfl

theorem updateBoardStatesMetadata_counter (s : GameState) :
    (updateBoardStatesMetadata s).noCaptureOrPawnMoveCounter =
      s.noCaptureOrPawnMoveCounter := rfl

theorem updateBoardStatesMetadata_colour (s : GameState) :
    (updateBoardStatesMetadata s).currentPlayer.colour = s.currentPlayer.colour := rfl

theorem updateBSMC_board (s : GameState) :
    (updateBoardStatesMetadataC s).board = s.board := by
  rw [updateBoardStatesMetadataC, updateBoardStatesMetadata_board, setGameStatus_board]

theorem updateBSMC_status (s : GameState) :
    (updateBoardStatesMetadataC s).gameStatus = s.gameStatus := by
  rw [updateBoardStatesMetadataC, updateBoardStatesMetadata_status, setGameStatus_status]

theorem updateBSMC_counter (s : GameState) :
    (updateBoardStatesMetadataC s).noCaptureOrPawnMoveCounter =
      s.noCaptureOrPawnMoveCounter := by
  rw [updateBoardStatesMetadataC, updateBoardStatesMetadata_counter, setGameStatus_counter]

theorem updateBSMC_colour (s : GameState) :
    (updateBoardStatesMetadataC s).currentPlayer.colour = s.currentPlayer.colour := by
  rw [updateBoardStatesMetadataC, updateBoardStatesMetadata_colour, setGameStatus_colour]

theorem find?_append_of_none {α : Type} {l₁ : List α} (l₂ : List α) {p : α → Bool}
    (h : l₁.find? p = none) : (l₁ ++ l₂).find? p = l₂.find? p := by
  induction l₁ with
  | nil => rfl
  | cons a rest ih =>
    rw [List.find?_cons] at h
    cases hp : p a with
    | true => rw [hp] at h; exact absurd h (by simp)
    | false =>
      rw [hp] at h
      rw [List.cons_append, List.find?_cons, hp]
      exact ih h

/-- Appending an occurrence to the repetition map extends exactly the list
under that key. -/
theorem indicesLookup_append (m : List (String × List Int)) (k : String) (v : Int) :
    indicesLookup (indicesAppend m k v) k = indicesLookup m k ++ [v] := by
  unfold indicesLookup indicesAppend
  cases hf : m.find? (fun e => e.1 = k) with
  | none =>
    rw [find?_append_of_none _ hf]
    simp [List.find?]
  | some e =>
    have he : e.1 = k := by
      have := List.find?_some hf
      simpa using this
    have hmap : (m.map (fun e => if e.1 = k then (e.1, e.2 ++ [v]) else e)).find?
        (fun e => e.1 = k) = some (k, e.2 ++ [v]) := by
      rw [List.find?_map]
      have hcomp : ((fun e : String × List Int => decide (e.1 = k)) ∘
          (fun e : String × List Int => if e.1 = k then (e.1, e.2 ++ [v]) else e))
          = fun e : String × List Int => decide (e.1 = k) := by
        funext x
        by_cases hx : x.1 = k <;> simp [hx]
      rw [hcomp, hf]
      simp [he]
    rw [hmap]

/-- The metadata append adds exactly one recorded occurrence of the
serialized current placement to the repetition map. -/
theorem updateBSMC_lookup (s : GameState) :
    (indicesLookup (updateBoardStatesMetadataC s).boardStateIndices
        (getBoardStateAsString s.board)).length
      = (indicesLookup s.boardStateIndices (getBoardStateAsString s.board)).length + 1 := by
  show (indicesLookup (indicesAppend (setGameStatus s s.gameStatus).boardStateIndices
      (getBoardStateAsString (setGameStatus s s.gameStatus).board) _)
      (getBoardStateAsString s.board)).length = _
  rw [setGameStatus_indices, setGameStatus_board, indicesLookup_append]
  simp

theorem isStalemateB_of_check {b : ChessBoard} {c : Colour}
    (h : isKingInCheckB b c = .ok true) : isStalemateB b c = .ok false := by
  unfold isStalemateB
  rw [h, exceptBindOk]
  rfl

/-- Every branch of updateGameStatus returns a state with the same board,
current colour and repetition map as its input. -/
theorem updateGameStatusC_fields {t u : GameState} (h : updateGameStatusC t = .ok u) :
    u.board = t.board ∧ u.currentPlayer.colour = t.currentPlayer.colour
      ∧ u.boardStateIndices = t.boardStateIndices := by
  unfold updateGameStatusC at h
  obtain ⟨mate, hm, h⟩ := exceptBindOkInv h
  split at h
  · simp only [pure, Except.pure] at h
    cases h
    exact ⟨setGameStatus_board .., setGameStatus_colour .., setGameStatus_indices ..⟩
  · obtain ⟨stale, hst, h⟩ := exceptBindOkInv h
    split at h
    · simp only [pure, Except.pure] at h
      cases h
      exact ⟨setGameStatus_board .., setGameStatus_colour .., setGameStatus_indices ..⟩
    · obtain ⟨chk, hc, h⟩ := exceptBindOkInv h
      split at h
      · simp only [pure, Except.pure] at h
        cases h
        obtain ⟨hb, hi, hcol⟩ := statusDrawChecks_fields (setGameStatus t .CHECK)
        exact ⟨by rw [hb, setGameStatus_board], by rw [hcol, setGameStatus_colour],
               by rw [hi, setGameStatus_indices]⟩
      · split at h
        · simp only [pure, Except.pure] at h
          cases h
          exact ⟨setGameStatus_board .., setGameStatus_colour .., setGameStatus_indices ..⟩
        · simp only [pure, Except.pure] at h
          cases h
          obtain ⟨hb, hi, hcol⟩ := statusDrawChecks_fields (setGameStatus t .ONGOING)
          exact ⟨by rw [hb, setGameStatus_board], by rw [hcol, setGameStatus_colour],
                 by rw [hi, setGameStatus_indices]⟩

/-- When the new side to move is neither checkmated, stalemated, in check
nor resigning, updateGameStatus lands in the ONGOING branch and hands the
state to the draw layers. -/
theorem updateGameStatusC_ongoing {t u : GameState} (h : updateGameStatusC t = .ok u)
    (hmate : isKingInCheckmateB t.board t.currentPlayer.colour = .ok false)
    (hstale : isStalemateB t.board t.currentPlayer.colour = .ok false)
    (hchk : isKingInCheckB t.board t.currentPlayer.colour = .ok false)
    (hres : t.currentPlayer.isResigning = false) :
    u = statusDrawChecks (setGameStatus t GameStatus.ONGOING) := by
  unfold updateGameStatusC at h
  rw [show isKingInCheckmateC t = isKingInCheckmateB t.board t.currentPlayer.colour from rfl,
      hmate, exceptBindOk] at h
  simp only [Bool.false_eq_true, if_false] at h
  rw [show isStalemateC t = isStalemateB t.board t.currentPlayer.colour from rfl,
      hstale, exceptBindOk] at h
  simp only [Bool.false_eq_true, if_false] at h
  rw [show isKingInCheckC t = isKingInCheckB t.board t.currentPlayer.colour from rfl,
      hchk, exceptBindOk] at h
  simp only [Bool.false_eq_true, if_false] at h
  rw [show isPlayerResigning t = t.currentPlayer.isResigning from rfl, hres] at h
  simp only [Bool.false_eq_true, if_false, pure, Except.pure] at h
  exact (Except.ok.inj h).symm

/-- Any committed non-promotion ply factors through the status pipeline:
the state after makeMove is the metadata append applied to the result of
updateGameStatus on the switched-turn state, whose player to move is the
original opponent and whose repetition map is untouched. -/
theorem makeMove_true_shape {s : GameState} {a b : Position} {s' : GameState}
    (h : makeMove false s a b = .ok (true, s'))
    (hrow0 : b.row ≠ 0) (hrow7 : b.row ≠ 7) :
    ∃ t u, updateGameStatusC t = .ok u ∧ s' = updateBoardStatesMetadataC u
      ∧ t.currentPlayer = s.opponentPlayer
      ∧ t.boardStateIndices = s.boardStateIndices := by
  unfold makeMove at h
  simp only [Bool.false_eq_true, if_false] at h
  obtain ⟨v, hv, h⟩ := exceptBindOkInv h
  split at h
  · obtain ⟨pmres, hpm, h⟩ := exceptBindOkInv h
    have hinv := getPossibleMovesC_inv hpm
    obtain ⟨pms, s2⟩ := pmres
    have hs2o : s2.opponentPlayer = s.opponentPlayer := by
      rcases hinv with h1 | ⟨pc, _, h2⟩
      · rw [show (pms, s2).2 = s2 from rfl] at h1
        rw [h1]
      · rw [show (pms, s2).2 = s2 from rfl] at h2
        rw [h2]
    have hs2i : s2.boardStateIndices = s.boardStateIndices := by
      rcases hinv with h1 | ⟨pc, _, h2⟩
      · rw [show (pms, s2).2 = s2 from rfl] at h1
        rw [h1]
      · rw [show (pms, s2).2 = s2 from rfl] at h2
        rw [h2]
    split at h
    · exact absurd h (by simp [pure, Except.pure])
    · obtain ⟨mp?, hmp, h⟩ := exceptBindOkInv h
      obtain ⟨cp?, hcp, h⟩ := exceptBindOkInv h
      split at h
      · exact absurd h (by simp [pure, Except.pure])
      · cases mp? with
        | none => exact absurd h (by simp)
        | some mp =>
          unfold makeMoveCommit at h
          obtain ⟨p, hp, h⟩ := exceptBindOkInv h
          obtain ⟨_mv, bd⟩ := p
          obtain ⟨s5, hs5, h⟩ := exceptBindOkInv h
          have hs5o : s5.opponentPlayer = s.opponentPlayer := by
            revert hs5
            split
            · intro hs5
              obtain ⟨bd2, hbd2⟩ := castleStage_inv hs5
              rw [hbd2]
              exact hs2o
            · intro hs5
              simp only [pure, Except.pure] at hs5
              cases hs5
              exact hs2o
          have hs5i : s5.boardStateIndices = s.boardStateIndices := by
            revert hs5
            split
            · intro hs5
              obtain ⟨bd2, hbd2⟩ := castleStage_inv hs5
              rw [hbd2]
              exact hs2i
            · intro hs5
              simp only [pure, Except.pure] at hs5
              cases hs5
              exact hs2i
          unfold makeMoveFinish at h
          split at h
          · rename_i hc
            exact absurd hc (by simp [hrow0, hrow7])
          · obtain ⟨u, hu, h⟩ := exceptBindOkInv h
            simp only [pure, Except.pure] at h
            cases h
            refine ⟨_, u, hu, rfl, ?_, ?_⟩
            · rw [switchTurns_currentPlayer]
              show (enPassantStage s5 a b mp cp?).opponentPlayer = s.opponentPlayer
              rw [enPassantStage_opponent]
              exact hs5o
            · rw [switchTurns_indices]
              show (enPassantStage s5 a b mp cp?).boardStateIndices = s.boardStateIndices
              rw [enPassantStage_indices]
              exact hs5i
  · exact absurd h (by simp [pure, Except.pure])

/-! ### C3: repetition thresholds -/

def c3Rook : Piece := ⟨.WHITE, ⟨7, 0⟩, .ROOK, false, [⟨6, 0⟩], 0, false⟩

def c3Knight : Piece := ⟨.WHITE, ⟨5, 0⟩, .KNIGHT, false, [], 0, false⟩

def c3WhiteKing : Piece := ⟨.WHITE, ⟨7, 1⟩, .KING, false, [], 0, false⟩

def c3BlackKing : Piece := ⟨.BLACK, ⟨0, 4⟩, .KING, false, [], 0, false⟩

/-- Rook a1, king b1, knight a3 (white), king e8 (black); white's only
refreshed rook move is a1-a2. -/
def c3Board : ChessBoard :=
  ⟨[[none, none, none, none, some c3BlackKing, none, none, none],
    List.replicate 8 none, List.replicate 8 none, List.replicate 8 none, List.replicate 8 none,
    [some c3Knight, none, none, none, none, none, none, none],
    List.replicate 8 none,
    [some c3Rook, some c3WhiteKing, none, none, none, none, none, none]]⟩

/-- The placement reached after the rook move (7,0) → (6,0); only types and
colours matter for the serialization key. -/
def c3TargetBoard : ChessBoard :=
  ⟨[[none, none, none, none, some c3BlackKing, none, none, none],
    List.replicate 8 none, List.replicate 8 none, List.replicate 8 none, List.replicate 8 none,
    [some c3Knight, none, none, none, none, none, none, none],
    [some c3Rook, none, none, none, none, none, none, none],
    [none, some c3WhiteKing, none, none, none, none, none, none]]⟩

/-- The serialization of the post-move placement. -/
def c3Key : String := getBoardStateAsString c3TargetBoard

/-- A state whose repetition map already records two occurrences of the
placement the next ply will reach. -/
def c3State : GameState :=
  { board := c3Board, lastMove := initialMove, currentTurnNumber := 1,
    noCaptureOrPawnMoveCounter := 0,
    currentPlayer := { colour := .WHITE, isResigning := false, isInCheck := false },
    opponentPlayer := { colour := .BLACK, isResigning := false, isInCheck := false },
    gameStatus := .ONGOING, chronologicalData := [],
    boardStateIndices := [(c3Key, [0, 1])], gameHistory := [] }

/-- The same state with four recorded occurrences of the coming placement. -/
def c3State5 : GameState :=
  { c3State with boardStateIndices := [(c3Key, [0, 1, 2, 3])] }

def c3Result : GameState :=
  match makeMove false c3State ⟨7, 0⟩ ⟨6, 0⟩ with
  | .ok (_, s') => s'
  | .error _ => c3State

set_option maxRecDepth 1000000 in
/-- C3: counterexample to the claimed thresholds.  First ply: after the
rook move the placement has occurred three times (two recorded occurrences
plus the new one), yet the status is ONGOING, not PROMPTDRAW — the status
update runs before the occurrence is recorded, so only two occurrences are
visible to it.  Second ply (from the same position seeded with four
recorded occurrences): the placement has now occurred five times, yet the
status is only PROMPTDRAW, not DRAW. -/
theorem C3_counterexample :
    ((makeMove false c3State ⟨7, 0⟩ ⟨6, 0⟩).map (fun r =>
        r.1
          && decide ((indicesLookup r.2.boardStateIndices
                (getBoardStateAsString r.2.board)).length = 3)
          && decide (r.2.gameStatus = GameStatus.ONGOING)) = Except.ok true)
      ∧ ((makeMove false c3State5 ⟨7, 0⟩ ⟨6, 0⟩).map (fun r =>
        r.1
          && decide ((indicesLookup r.2.boardStateIndices
                (getBoardStateAsString r.2.board)).length = 5)
          && decide (r.2.gameStatus = GameStatus.PROMPTDRAW)) = Except.ok true) := by
  exact ⟨by decide, by decide⟩

/-- C3: corrected thresholds.  For a committed non-promotion ply whose new
side to move is neither checkmated, stalemated, in check nor resigning,
with the no-capture counter below 50 and a live position, the status after
the ply is determined by the number of recorded occurrences of the new
placement (including the one just recorded): DRAW from the sixth
occurrence, PROMPTDRAW at the fourth and fifth, ONGOING below — not the
third and fifth occurrences the spec claims, because updateGameStatus runs
before updateBoardStatesMetadata records the new occurrence. -/
theorem C3_repetition_thresholds {s : GameState} {a b : Position} {s' : GameState}
    (h : makeMove false s a b = .ok (true, s'))
    (hrow0 : b.row ≠ 0) (hrow7 : b.row ≠ 7)
    (hmate : isKingInCheckmateB s'.board s'.currentPlayer.colour = .ok false)
    (hstale : isStalemateB s'.board s'.currentPlayer.colour = .ok false)
    (hchk : isKingInCheckB s'.board s'.currentPlayer.colour = .ok false)
    (hres : s.opponentPlayer.isResigning = false)
    (hctr : s'.noCaptureOrPawnMoveCounter < 50)
    (hdead : isDeadPosition s'.board = false) :
    s'.gameStatus =
      (if 6 ≤ (indicesLookup s'.boardStateIndices (getBoardStateAsString s'.board)).length
       then GameStatus.DRAW
       else if 4 ≤ (indicesLookup s'.boardStateIndices (getBoardStateAsString s'.board)).length
       then GameStatus.PROMPTDRAW
       else GameStatus.ONGOING) := by
  obtain ⟨t, u, hu, hs', hpl, hidx⟩ := makeMove_true_shape h hrow0 hrow7
  obtain ⟨hub, hucol, huidx⟩ := updateGameStatusC_fields hu
  have hsb : s'.board = t.board := by rw [hs', updateBSMC_board, hub]
  have hscol : s'.currentPlayer.colour = t.currentPlayer.colour := by
    rw [hs', updateBSMC_colour, hucol]
  rw [hsb, hscol] at hmate hstale hchk
  have hres' : t.currentPlayer.isResigning = false := by rw [hpl]; exact hres
  have hong := updateGameStatusC_ongoing hu hmate hstale hchk hres'
  obtain ⟨hxb, hxi, hxcol⟩ := statusDrawChecks_fields (setGameStatus t GameStatus.ONGOING)
  have hyb : (statusDrawChecks (setGameStatus t GameStatus.ONGOING)).board = t.board := by
    rw [hxb, setGameStatus_board]
  have hst : s'.gameStatus
      = (statusDrawChecks (setGameStatus t GameStatus.ONGOING)).gameStatus := by
    rw [hs', hong, updateBSMC_status]
  have hctr' : (statusDrawChecks
      (setGameStatus t GameStatus.ONGOING)).noCaptureOrPawnMoveCounter < 50 := by
    rw [hs', hong, updateBSMC_counter] at hctr
    exact hctr
  have hdead' : isDeadPosition (setGameStatus t GameStatus.ONGOING).board = false := by
    rw [setGameStatus_board]
    rw [hsb] at hdead
    exact hdead
  have hthr := statusDrawChecks_gameStatus (setGameStatus t GameStatus.ONGOING) hctr' hdead'
  rw [setGameStatus_indices, setGameStatus_board, setGameStatus_status] at hthr
  have hcnt : (indicesLookup s'.boardStateIndices (getBoardStateAsString s'.board)).length
      = (indicesLookup t.boardStateIndices (getBoardStateAsString t.board)).length + 1 := by
    rw [hs', hong, updateBSMC_board, hyb, ← hyb, updateBSMC_lookup, hyb, hxi,
        setGameStatus_indices]
  rw [hst, hthr, hcnt]
  have h6 : (6 ≤ (indicesLookup t.boardStateIndices (getBoardStateAsString t.board)).length + 1)
      ↔ (5 ≤ (indicesLookup t.boardStateIndices (getBoardStateAsString t.board)).length) := by
    omega
  have h4 : (4 ≤ (indicesLookup t.boardStateIndices (getBoardStateAsString t.board)).length + 1)
      ↔ (3 ≤ (indicesLookup t.boardStateIndices (getBoardStateAsString t.board)).length) := by
    omega
  simp only [h6, h4]

set_option maxRecDepth 1000000 in
theorem C3_repetition_thresholds_witness :
    c3Result.gameStatus =
      (if 6 ≤ (indicesLookup c3Result.boardStateIndices
            (getBoardStateAsString c3Result.board)).length
       then GameStatus.DRAW
       else if 4 ≤ (indicesLookup c3Result.boardStateIndices
            (getBoardStateAsString c3Result.board)).length
       then GameStatus.PROMPTDRAW
       else GameStatus.ONGOING) :=
  @C3_repetition_thresholds c3State ⟨7, 0⟩ ⟨6, 0⟩ c3Result (by decide) (by decide) (by decide)
    (by decide) (by decide) (by decide) (by decide) (by decide) (by decide)

/-- When the new side to move is in check but not checkmated and not
resigning, updateGameStatus sets CHECK and still hands the state to the
draw layers. -/
theorem updateGameStatusC_check {t u : GameState} (h : updateGameStatusC t = .ok u)
    (hmate : isKingInCheckmateB t.board t.currentPlayer.colour = .ok false)
    (hchk : isKingInCheckB t.board t.currentPlayer.colour = .ok true) :
    u = statusDrawChecks (setGameStatus t GameStatus.CHECK) := by
  unfold updateGameStatusC at h
  rw [show isKingInCheckmateC t = isKingInCheckmateB t.board t.currentPlayer.colour from rfl,
      hmate, exceptBindOk] at h
  simp only [Bool.false_eq_true, if_false] at h
  rw [show isStalemateC t = isStalemateB t.board t.currentPlayer.colour from rfl,
      isStalemateB_of_check hchk, exceptBindOk] at h
  simp only [Bool.false_eq_true, if_false] at h
  rw [show isKingInCheckC t = isKingInCheckB t.board t.currentPlayer.colour from rfl,
      hchk, exceptBindOk] at h
  simp only [if_true, pure, Except.pure] at h
  exact (Except.ok.inj h).symm

/-! ### C4: the draw layers versus Check -/

def c4Pawn : Piece := ⟨.WHITE, ⟨2, 3⟩, .PAWN, false, [⟨1, 3⟩], 0, false⟩

def c4WhiteKing : Piece := ⟨.WHITE, ⟨7, 1⟩, .KING, false, [], 0, false⟩

def c4BlackKing : Piece := ⟨.BLACK, ⟨0, 4⟩, .KING, false, [], 0, false⟩

/-- White pawn d6 about to play d7, giving check to the king on e8. -/
def c4Board : ChessBoard :=
  ⟨[[none, none, none, none, some c4BlackKing, none, none, none],
    List.replicate 8 none,
    [none, none, none, some c4Pawn, none, none, none, none],
    List.replicate 8 none, List.replicate 8 none, List.replicate 8 none, List.replicate 8 none,
    [none, some c4WhiteKing, none, none, none, none, none, none]]⟩

/-- The placement after the pawn advance (2,3) → (1,3). -/
def c4TargetBoard : ChessBoard :=
  ⟨[[none, none, none, none, some c4BlackKing, none, none, none],
    [none, none, none, some c4Pawn, none, none, none, none],
    List.replicate 8 none,
    List.replicate 8 none, List.replicate 8 none, List.replicate 8 none, List.replicate 8 none,
    [none, some c4WhiteKing, none, none, none, none, none, none]]⟩

def c4Key : String := getBoardStateAsString c4TargetBoard

/-- A state with three recorded occurrences of the placement the
check-giving ply is about to reach. -/
def c4State : GameState :=
  { board := c4Board, lastMove := initialMove, currentTurnNumber := 1,
    noCaptureOrPawnMoveCounter := 0,
    currentPlayer := { colour := .WHITE, isResigning := false, isInCheck := false },
    opponentPlayer := { colour := .BLACK, isResigning := false, isInCheck := false },
    gameStatus := .ONGOING, chronologicalData := [],
    boardStateIndices := [(c4Key, [0, 1, 2])], gameHistory := [] }

def c4Result : GameState :=
  match makeMove false c4State ⟨2, 3⟩ ⟨1, 3⟩ with
  | .ok (_, s') => s'
  | .error _ => c4State

set_option maxRecDepth 1000000 in
/-- C4: counterexample.  The committed pawn advance leaves the new side to
move in check with a legal reply (so not checkmate), yet the resulting
status is PROMPTDRAW, not CHECK: the repetition layer runs after the CHECK
branch and overwrites it. -/
theorem C4_counterexample :
    (makeMove false c4State ⟨2, 3⟩ ⟨1, 3⟩).map (fun r =>
        r.1
          && decide (isKingInCheckB r.2.board r.2.currentPlayer.colour = .ok true)
          && decide (isKingInCheckmateB r.2.board r.2.currentPlayer.colour = .ok false)
          && decide (r.2.gameStatus = GameStatus.PROMPTDRAW)) = Except.ok true := by
  decide

/-- C4: corrected form.  After a committed non-promotion ply whose new side
to move is in check but not checkmated, with the no-capture counter below
50 and a live position, the status is CHECK only while the new placement
has at most three recorded occurrences; at four or five the repetition
layer overwrites it with PROMPTDRAW and from six with DRAW — the draw
layers are not confined to the Ongoing case. -/
theorem C4_check_can_be_overwritten {s : GameState} {a b : Position} {s' : GameState}
    (h : makeMove false s a b = .ok (true, s'))
    (hrow0 : b.row ≠ 0) (hrow7 : b.row ≠ 7)
    (hmate : isKingInCheckmateB s'.board s'.currentPlayer.colour = .ok false)
    (hchk : isKingInCheckB s'.board s'.currentPlayer.colour = .ok true)
    (hctr : s'.noCaptureOrPawnMoveCounter < 50)
    (hdead : isDeadPosition s'.board = false) :
    s'.gameStatus =
      (if 6 ≤ (indicesLookup s'.boardStateIndices (getBoardStateAsString s'.board)).length
       then GameStatus.DRAW
       else if 4 ≤ (indicesLookup s'.boardStateIndices (getBoardStateAsString s'.board)).length
       then GameStatus.PROMPTDRAW
       else GameStatus.CHECK) := by
  obtain ⟨t, u, hu, hs', hpl, hidx⟩ := makeMove_true_shape h hrow0 hrow7
  obtain ⟨hub, hucol, huidx⟩ := updateGameStatusC_fields hu
  have hsb : s'.board = t.board := by rw [hs', updateBSMC_board, hub]
  have hscol : s'.currentPlayer.colour = t.currentPlayer.colour := by
    rw [hs', updateBSMC_colour, hucol]
  rw [hsb, hscol] at hmate hchk
  have hong := updateGameStatusC_check hu hmate hchk
  obtain ⟨hxb, hxi, hxcol⟩ := statusDrawChecks_fields (setGameStatus t GameStatus.CHECK)
  have hyb : (statusDrawChecks (setGameStatus t GameStatus.CHECK)).board = t.board := by
    rw [hxb, setGameStatus_board]
  have hst : s'.gameStatus
      = (statusDrawChecks (setGameStatus t GameStatus.CHECK)).gameStatus := by
    rw [hs', hong, updateBSMC_status]
  have hctr' : (statusDrawChecks
      (setGameStatus t GameStatus.CHECK)).noCaptureOrPawnMoveCounter < 50 := by
    rw [hs', hong, updateBSMC_counter] at hctr
    exact hctr
  have hdead' : isDeadPosition (setGameStatus t GameStatus.CHECK).board = false := by
    rw [setGameStatus_board]
    rw [hsb] at hdead
    exact hdead
  have hthr := statusDrawChecks_gameStatus (setGameStatus t GameStatus.CHECK) hctr' hdead'
  rw [setGameStatus_indices, setGameStatus_board, setGameStatus_status] at hthr
  have hcnt : (indicesLookup s'.boardStateIndices (getBoardStateAsString s'.board)).length
      = (indicesLookup t.boardStateIndices (getBoardStateAsString t.board)).length + 1 := by
    rw [hs', hong, updateBSMC_board, hyb, ← hyb, updateBSMC_lookup, hyb, hxi,
        setGameStatus_indices]
  rw [hst, hthr, hcnt]
  have h6 : (6 ≤ (indicesLookup t.boardStateIndices (getBoardStateAsString t.board)).length + 1)
      ↔ (5 ≤ (indicesLookup t.boardStateIndices (getBoardStateAsString t.board)).length) := by
    omega
  have h4 : (4 ≤ (indicesLookup t.boardStateIndices (getBoardStateAsString t.board)).length + 1)
      ↔ (3 ≤ (indicesLookup t.boardStateIndices (getBoardStateAsString t.board)).length) := by
    omega
  simp only [h6, h4]

set_option maxRecDepth 1000000 in
theorem C4_check_can_be_overwritten_witness :
    c4Result.gameStatus =
      (if 6 ≤ (indicesLookup c4Result.boardStateIndices
            (getBoardStateAsString c4Result.board)).length
       then GameStatus.DRAW
       else if 4 ≤ (indicesLookup c4Result.boardStateIndices
            (getBoardStateAsString c4Result.board)).length
       then GameStatus.PROMPTDRAW
       else GameStatus.CHECK) :=
  @C4_check_can_be_overwritten c4State ⟨2, 3⟩ ⟨1, 3⟩ c4Result (by decide) (by decide)
    (by decide) (by decide) (by decide) (by decide) (by decide)

/-! ### C6: what gates the generated castling target -/

def c6WhiteKing : Piece := ⟨.WHITE, ⟨7, 4⟩, .KING, false, [], 0, false⟩

def c6WhiteRook : Piece := ⟨.WHITE, ⟨7, 7⟩, .ROOK, false, [], 0, false⟩

def c6BlackRook : Piece := ⟨.BLACK, ⟨0, 4⟩, .ROOK, false, [], 0, false⟩

def c6BlackKing : Piece := ⟨.BLACK, ⟨0, 0⟩, .KING, false, [], 0, false⟩

/-- White king e1 in check from the rook on e8, with f1/g1 empty and safe
and an unmoved rook on h1; caches regenerated. -/
def c6Board : ChessBoard :=
  regenAll
    ⟨[[some c6BlackKing, none, none, none, some c6BlackRook, none, none, none],
      List.replicate 8 none, List.replicate 8 none, List.replicate 8 none,
      List.replicate 8 none, List.replicate 8 none, List.replicate 8 none,
      [none, none, none, none, some c6WhiteKing, none, none, some c6WhiteRook]]⟩

set_option maxRecDepth 1000000 in
/-- C6: counterexample to the claimed "King's current square safe"
condition: on c6Board the king's own square e1 is attacked (the king is in
check), yet the freshly regenerated move cache of the king still offers
the kingside castling target g1. -/
theorem C6_counterexample :
    isSquareSafe c6Board ⟨7, 4⟩ Colour.WHITE = false
      ∧ ((cellGet c6Board ⟨7, 4⟩).map (fun k =>
          decide (k.pieceType = PieceType.KING)
            && decide ((⟨7, 6⟩ : Position) ∈ k.validMoves))).getD false = true := by
  constructor
  · decide
  · decide

/-- C6: corrected form.  For an unmoved white king on e1 the generated move
set offers the kingside castling target g1 exactly when h1 holds an unmoved
rook, f1 and g1 are empty, and f1 (transit) and g1 (destination) are safe —
the safety of the king's own current square is not part of the condition
(it is only enforced later by tryMove, outside move generation). -/
theorem C6_castling_generation (b : ChessBoard) (pc : Piece)
    (hc : pc.colour = Colour.WHITE) (hp : pc.position = ⟨7, 4⟩)
    (hm : pc.hasMoved = false) :
    ((⟨7, 6⟩ : Position) ∈ kingMoves b pc) ↔
      ((match cellGet b ⟨7, 7⟩ with
        | none => false
        | some rook => rook.pieceType = PieceType.ROOK && !rook.hasMoved) = true
       ∧ isSpaceEmptyT b ⟨7, 5⟩ = true ∧ isSpaceEmptyT b ⟨7, 6⟩ = true
       ∧ isSquareSafe b ⟨7, 5⟩ Colour.WHITE = true
       ∧ isSquareSafe b ⟨7, 6⟩ Colour.WHITE = true) := by
  have hmem : ((⟨7, 6⟩ : Position) ∈ kingMoves b pc)
      ↔ canCastleWith b pc ⟨7, 7⟩ = true := by
    unfold kingMoves
    rw [List.mem_append]
    have hadj : ¬((⟨7, 6⟩ : Position) ∈
        (([(1, 0), (-1, 0), (0, 1), (0, -1), (1, 1), (1, -1), (-1, 1), (-1, -1)] :
            List (Int × Int)).filterMap (fun d =>
          let p : Position := ⟨pc.position.row + d.1, pc.position.col + d.2⟩
          if !isPositionOnBoard p then none
          else if isSpaceFriendlyT b p pc.colour then none
          else if !isSquareSafe b p pc.colour then none
          else some p))) := by
      rw [List.mem_filterMap]
      rintro ⟨d, hd, hf⟩
      fin_cases hd <;>
        · rw [hp] at hf
          dsimp only at hf
          split at hf <;> simp_all
    have hcastle : ((⟨7, 6⟩ : Position) ∈ castlingMoves b pc)
        ↔ canCastleWith b pc ⟨7, 7⟩ = true := by
      unfold castlingMoves
      rw [hm, hc, hp]
      cases hL : canCastleWith b pc ⟨7, 0⟩ <;>
        cases hR : canCastleWith b pc ⟨7, 7⟩ <;>
          simp [hL, hR, getCastlingPosition]
    constructor
    · rintro (hin | hin)
      · exact absurd hin hadj
      · exact hcastle.mp hin
    · intro hr
      exact Or.inr (hcastle.mpr hr)
  rw [hmem]
  unfold canCastleWith
  rw [hp, hc]
  cases h5 : isSpaceEmptyT b ⟨7, 5⟩ <;> cases h6 : isSpaceEmptyT b ⟨7, 6⟩ <;>
    simp [walkEmpty, h5, h6]
  tauto

/-- Witness for C6_castling_generation on c6Board: both sides of the
characterization hold there. -/
theorem C6_castling_generation_witness :
    ((⟨7, 6⟩ : Position) ∈ kingMoves c6Board c6WhiteKing) ↔
      ((match cellGet c6Board ⟨7, 7⟩ with
        | none => false
        | some rook => rook.pieceType = PieceType.ROOK && !rook.hasMoved) = true
       ∧ isSpaceEmptyT c6Board ⟨7, 5⟩ = true ∧ isSpaceEmptyT c6Board ⟨7, 6⟩ = true
       ∧ isSquareSafe c6Board ⟨7, 5⟩ Colour.WHITE = true
       ∧ isSquareSafe c6Board ⟨7, 6⟩ Colour.WHITE = true) :=
  C6_castling_generation c6Board c6WhiteKing (by decide) (by decide) (by decide)

/-! ### Counting kings on the grid (C10, C1) -/

/-- The 64 on-board positions in row-major order. -/
def allPositions : List Position :=
  (List.range 8).flatMap (fun r => (List.range 8).map (fun c => ⟨Int.ofNat r, Int.ofNat c⟩))

/-- Whether the square holds a king of the given colour. -/
def isKingCell (b : ChessBoard) (c : Colour) (p : Position) : Bool :=
  match cellGet b p with
  | some pc => decide (pc.colour = c) && decide (pc.pieceType = PieceType.KING)
  | none => false

/-- The number of kings of a colour on the board. -/
def kingCount (b : ChessBoard) (c : Colour) : Nat :=
  (allPositions.filter (isKingCell b c)).length

theorem mem_allPositions (p : Position) :
    p ∈ allPositions ↔ isPositionOnBoard p = true := by
  constructor
  · intro h
    simp only [allPositions, List.mem_flatMap, List.mem_map, List.mem_range] at h
    obtain ⟨r, hr, c, hc, hp⟩ := h
    rw [← hp, onBoard_iff]
    refine ⟨?_, ?_, ?_, ?_⟩
    · show (0 : Int) ≤ (r : Int)
      omega
    · show (r : Int) < 8
      omega
    · show (0 : Int) ≤ (c : Int)
      omega
    · show (c : Int) < 8
      omega
  · intro h
    obtain ⟨hr0, hr8, hc0, hc8⟩ := (onBoard_iff p).1 h
    simp only [allPositions, List.mem_flatMap, List.mem_map, List.mem_range]
    refine ⟨p.row.toNat, ?_, p.col.toNat, ?_, ?_⟩
    · omega
    · omega
    · have h1 : (p.row.toNat : Int) = p.row := Int.toNat_of_nonneg hr0
      have h2 : (p.col.toNat : Int) = p.col := Int.toNat_of_nonneg hc0
      have h3 : Int.ofNat p.row.toNat = p.row := h1
      have h4 : Int.ofNat p.col.toNat = p.col := h2
      cases p
      simp_all

theorem allPositions_nodup : allPositions.Nodup := by decide

theorem count_allPositions {p : Position} (h : isPositionOnBoard p = true) :
    allPositions.count p = 1 :=
  List.count_eq_one_of_mem allPositions_nodup ((mem_allPositions p).2 h)

/-- Filter-length bookkeeping: flipping the predicate from false to true at
one element occurring exactly once adds one to the count. -/
theorem filter_length_update {α : Type} [DecidableEq α] (x : α) :
    ∀ (l : List α) (p p' : α → Bool),
      l.count x = 1 → p x = false → p' x = true →
      (∀ q, q ≠ x → p' q = p q) →
      (l.filter p').length = (l.filter p).length + 1 := by
  intro l
  induction l with
  | nil =>
    intro p p' hc
    simp at hc
  | cons a rest ih =>
    intro p p' hc hpx hp'x hsame
    by_cases hax : a = x
    · subst hax
      have hrest : rest.count a = 0 := by
        rw [List.count_cons_self] at hc
        omega
      have hnot : a ∉ rest := List.count_eq_zero.mp hrest
      have hfe : rest.filter p' = rest.filter p :=
        List.filter_congr (fun q hq => hsame q (fun he => hnot (he ▸ hq)))
      rw [List.filter_cons, List.filter_cons, hpx, hp'x]
      simp [hfe]
    · have hc' : rest.count x = 1 := by
        rw [List.count_cons] at hc
        simp [hax] at hc
        exact hc
      have hpa : p' a = p a := hsame a hax
      rw [List.filter_cons, List.filter_cons, hpa]
      cases hp : p a <;>
        simp [hp, ih p p' hc' hpx hp'x hsame]

/-- The king-cell test only looks at the square's core. -/
theorem isKingCell_core {b b' : ChessBoard} {p : Position}
    (h : cellCore b' p = cellCore b p) (c : Colour) :
    isKingCell b' c p = isKingCell b c p := by
  unfold cellCore at h
  unfold isKingCell
  cases hx : cellGet b' p with
  | none =>
    cases hy : cellGet b p with
    | none => rfl
    | some y =>
      rw [hx, hy] at h
      exact absurd h (by simp)
  | some x =>
    cases hy : cellGet b p with
    | none =>
      rw [hx, hy] at h
      exact absurd h (by simp)
    | some y =>
      rw [hx, hy] at h
      have hcore : x.core = y.core := by simpa using h
      have hcol := congrArg
        (fun t : Colour × Position × PieceType × Bool × Int × Bool => t.1) hcore
      have htyp := congrArg
        (fun t : Colour × Position × PieceType × Bool × Int × Bool => t.2.2.1) hcore
      simp only [Piece.core] at hcol htyp
      show (decide (x.colour = c) && decide (x.pieceType = PieceType.KING))
        = (decide (y.colour = c) && decide (y.pieceType = PieceType.KING))
      rw [hcol, htyp]

theorem kingCount_congr {b b' : ChessBoard}
    (h : ∀ q, cellCore b' q = cellCore b q) (c : Colour) :
    kingCount b' c = kingCount b c := by
  unfold kingCount
  congr 1
  exact List.filter_congr (fun p _ => isKingCell_core (h p) c)

/-- Replacing a non-king piece by a king of colour `c` adds one to that
colour's king count. -/
theorem kingCount_setCell_add {b : ChessBoard} {pos : Position} {pc k : Piece} {c : Colour}
    (hs : Shaped b) (hcell : cellGet b pos = some pc)
    (hpc : ¬(pc.colour = c ∧ pc.pieceType = PieceType.KING))
    (hk : k.colour = c) (hkt : k.pieceType = PieceType.KING) :
    kingCount (setCell b pos (some k)) c = kingCount b c + 1 := by
  have hon := cellGet_some_onBoard hcell
  unfold kingCount
  apply filter_length_update pos allPositions _ _ (count_allPositions hon)
  · unfold isKingCell
    rw [hcell]
    show (decide (pc.colour = c) && decide (pc.pieceType = PieceType.KING)) = false
    simp only [Bool.and_eq_false_iff, decide_eq_false_iff_not]
    by_cases h1 : pc.colour = c
    · right
      exact fun h2 => hpc ⟨h1, h2⟩
    · left
      exact h1
  · unfold isKingCell
    rw [cellGet_setCell b pos (some k) pos hs hon, if_pos rfl]
    show (decide (k.colour = c) && decide (k.pieceType = PieceType.KING)) = true
    simp [hk, hkt]
  · intro q hq
    unfold isKingCell
    rw [cellGet_setCell b pos (some k) q hs hon, if_neg hq]

theorem switchTurns_board (s : GameState) :
    (switchTurns s).board = s.board := by
  unfold switchTurns
  split <;> rfl

theorem setGameStatus_oppColour (s : GameState) (st : GameStatus) :
    (setGameStatus s st).opponentPlayer.colour = s.opponentPlayer.colour := by
  cases st <;> rfl

theorem updateBSMC_oppColour (s : GameState) :
    (updateBoardStatesMetadataC s).opponentPlayer.colour = s.opponentPlayer.colour := by
  show (setGameStatus s s.gameStatus).opponentPlayer.colour = _
  rw [setGameStatus_oppColour]

/-! ### C10: promotePawn -/

set_option maxRecDepth 4000 in
/-- C10 (confirmed): promotePawn checks only that the square holds a pawn
of the current player standing on its promotion row; the requested type is
never validated.  On success it reports `true`, stores exactly the factory
piece of the requested type on that square (`NONE` yields a null, erasing
the pawn), touches no other square's core, completes the ply by handing the
turn to the opponent, and a `KING` request adds a second king of that
colour to the board. -/
theorem C10_promotion_unvalidated {s : GameState} {pos : Position} {ty : PieceType}
    {r : Bool} {s' : GameState} {pc : Piece}
    (hs : Shaped s.board)
    (h : promotePawn s pos ty = .ok (r, s'))
    (hcell : cellGet s.board pos = some pc)
    (hpawn : pc.pieceType = PieceType.PAWN)
    (hcol : pc.colour = s.currentPlayer.colour)
    (hrow : pos.row = (if pc.colour = Colour.WHITE then (0 : Int) else 7)) :
    r = true
      ∧ cellCore s'.board pos = (createPiece pc.colour pos ty).map Piece.core
      ∧ (∀ q, q ≠ pos → cellCore s'.board q = cellCore s.board q)
      ∧ s'.currentPlayer.colour = s.opponentPlayer.colour
      ∧ (ty = PieceType.KING →
          kingCount s'.board pc.colour = kingCount s.board pc.colour + 1) := by
  unfold promotePawn at h
  obtain ⟨x, hx, h⟩ := exceptBindOkInv h
  obtain ⟨hon, hxc⟩ := getPieceAtPositionE_ok hs hx
  split at h
  · rw [hxc] at hcell
    exact absurd hcell (by simp)
  · rename_i pc2
    have hpc2 : pc = pc2 := Option.some.inj (hcell.symm.trans hxc)
    subst hpc2
    split at h
    · rename_i hcond
      rw [hpawn, hcol] at hcond
      simp at hcond
    · dsimp only at h
      rw [← hrow] at h
      split at h
      · rename_i hcond2
        exact absurd rfl hcond2
      · obtain ⟨bd, hbd, h⟩ := exceptBindOkInv h
        have hbd' : bd = setCell s.board pos (createPiece pc.colour pos ty) := by
          unfold setCellE at hbd
          rw [if_pos hon] at hbd
          exact (Except.ok.inj hbd).symm
        obtain ⟨u, hu, h⟩ := exceptBindOkInv h
        simp only [pure, Except.pure] at h
        cases h
        obtain ⟨hub, hucol, _⟩ := updateGameStatusC_fields hu
        have hsbd : Shaped bd := by
          rw [hbd']
          exact Shaped_setCell _ _ hs
        obtain ⟨_, hregen⟩ := regenAll_invar bd hsbd
        have hboard : s'.board = regenAll bd := by
          rw [hub]
          dsimp only
          rw [switchTurns_board, updateBSMC_board]
        have hcores : ∀ q, cellCore s'.board q = cellCore bd q := by
          intro q
          rw [hboard]
          exact hregen q
        refine ⟨rfl, ?_, ?_, ?_, ?_⟩
        · rw [hcores pos, hbd']
          unfold cellCore
          rw [cellGet_setCell _ _ _ _ hs hon, if_pos rfl]
        · intro q hq
          rw [hcores q, hbd']
          unfold cellCore
          rw [cellGet_setCell _ _ _ _ hs hon, if_neg hq]
        · dsimp only at hucol
          rw [switchTurns_currentPlayer, updateBSMC_oppColour] at hucol
          dsimp only at hucol
          exact hucol
        · intro hking
          subst hking
          rw [kingCount_congr hcores pc.colour, hbd']
          exact kingCount_setCell_add hs hcell
            (fun hcon => by rw [hpawn] at hcon; exact absurd hcon.2 (by simp))
            rfl rfl

def c10Pawn : Piece := ⟨.WHITE, ⟨0, 3⟩, .PAWN, false, [], 0, false⟩

def c10WhiteKing : Piece := ⟨.WHITE, ⟨7, 4⟩, .KING, false, [], 0, false⟩

def c10BlackKing : Piece := ⟨.BLACK, ⟨7, 0⟩, .KING, false, [], 0, false⟩

/-- A white pawn already standing on the promotion row, white to move. -/
def c10Board : ChessBoard :=
  ⟨[[none, none, none, some c10Pawn, none, none, none, none],
    List.replicate 8 none, List.replicate 8 none, List.replicate 8 none,
    List.replicate 8 none, List.replicate 8 none, List.replicate 8 none,
    [some c10BlackKing, none, none, none, some c10WhiteKing, none, none, none]]⟩

def c10State : GameState :=
  { board := c10Board, lastMove := initialMove, currentTurnNumber := 1,
    noCaptureOrPawnMoveCounter := 0,
    currentPlayer := { colour := .WHITE, isResigning := false, isInCheck := false },
    opponentPlayer := { colour := .BLACK, isResigning := false, isInCheck := false },
    gameStatus := .ONGOING, chronologicalData := [], boardStateIndices := [],
    gameHistory := [] }

def c10Result : GameState :=
  match promotePawn c10State ⟨0, 3⟩ PieceType.KING with
  | .ok (_, s') => s'
  | .error _ => c10State

set_option maxRecDepth 1000000 in
/-- Witness for C10 with the KING request: the promotion is accepted and
the board ends up with two white kings. -/
theorem C10_promotion_unvalidated_witness :
    (true = true
      ∧ cellCore c10Result.board ⟨0, 3⟩
          = (createPiece c10Pawn.colour ⟨0, 3⟩ PieceType.KING).map Piece.core
      ∧ (∀ q, q ≠ (⟨0, 3⟩ : Position) →
          cellCore c10Result.board q = cellCore c10State.board q)
      ∧ c10Result.currentPlayer.colour = c10State.opponentPlayer.colour
      ∧ (PieceType.KING = PieceType.KING →
          kingCount c10Result.board c10Pawn.colour
            = kingCount c10State.board c10Pawn.colour + 1))
      ∧ kingCount c10Result.board Colour.WHITE = 2 :=
  ⟨@C10_promotion_unvalidated c10State ⟨0, 3⟩ PieceType.KING true c10Result c10Pawn
      (by decide) (by decide) (by decide) (by decide) (by decide) (by decide),
   by decide⟩

/-! ### C1: the one-king-per-colour invariant -/

/-- Whether an optional cell content is a king of the given colour. -/
def isKingOpt (v : Option Piece) (c : Colour) : Bool :=
  match v with
  | some k => decide (k.colour = c) && decide (k.pieceType = PieceType.KING)
  | none => false

theorem isKingCell_eq_isKingOpt (b : ChessBoard) (c : Colour) (p : Position) :
    isKingCell b c p = isKingOpt (cellGet b p) c := by
  unfold isKingCell isKingOpt
  cases cellGet b p <;> rfl

/-- Filter-length bookkeeping: changing the predicate at one element
occurring exactly once shifts the count by the difference at that element
(stated additively on both sides). -/
theorem filter_length_swap {α : Type} [DecidableEq α] (x : α) :
    ∀ (l : List α) (p p' : α → Bool),
      l.count x = 1 → (∀ q, q ≠ x → p' q = p q) →
      (l.filter p').length + (if p x = true then 1 else 0)
        = (l.filter p).length + (if p' x = true then 1 else 0) := by
  intro l
  induction l with
  | nil =>
    intro p p' hc _
    simp at hc
  | cons a rest ih =>
    intro p p' hc hsame
    by_cases hax : a = x
    · subst hax
      have hrest : rest.count a = 0 := by
        rw [List.count_cons_self] at hc
        omega
      have hnot : a ∉ rest := List.count_eq_zero.mp hrest
      have hfe : rest.filter p' = rest.filter p :=
        List.filter_congr (fun q hq => hsame q (fun he => hnot (he ▸ hq)))
      rw [List.filter_cons, List.filter_cons, hfe]
      cases hp : p a <;> cases hp' : p' a <;> simp [hp, hp']
    · have hc' : rest.count x = 1 := by
        rw [List.count_cons] at hc
        simp [hax] at hc
        exact hc
      have hpa : p' a = p a := hsame a hax
      have hih := ih p p' hc' hsame
      rw [List.filter_cons, List.filter_cons, hpa]
      cases hp : p a <;> simp [hp] <;> omega

/-- The king count after one cell write, stated additively. -/
theorem kingCount_setCell_swap (b : ChessBoard) (p : Position) (v : Option Piece) (c : Colour)
    (hs : Shaped b) (hp : isPositionOnBoard p = true) :
    kingCount (setCell b p v) c + (if isKingCell b c p = true then 1 else 0)
      = kingCount b c + (if isKingOpt v c = true then 1 else 0) := by
  unfold kingCount
  have h1 : isKingCell (setCell b p v) c p = isKingOpt v c := by
    rw [isKingCell_eq_isKingOpt, cellGet_setCell _ _ _ _ hs hp, if_pos rfl]
  have hsame : ∀ q, q ≠ p → isKingCell (setCell b p v) c q = isKingCell b c q := by
    intro q hq
    rw [isKingCell_eq_isKingOpt, cellGet_setCell _ _ _ _ hs hp, if_neg hq,
        ← isKingCell_eq_isKingOpt]
  have hsw := filter_length_swap p allPositions (isKingCell b c) (isKingCell (setCell b p v) c)
    (count_allPositions hp) hsame
  rw [hsw, h1]

/-- Per-square position consistency: the stored piece records the square it
occupies. -/
def posOK (b : ChessBoard) (p : Position) : Bool :=
  match cellGet b p with
  | some pc => decide (pc.position = p)
  | none => true

def PosConsistent (b : ChessBoard) : Prop :=
  ∀ p ∈ allPositions, posOK b p = true

/-- Per-square home-king condition: an unmoved king sits on file 4. -/
def homeOK (b : ChessBoard) (p : Position) : Bool :=
  match cellGet b p with
  | some pc =>
    if pc.pieceType = PieceType.KING && !pc.hasMoved then decide (p.col = 4) else true
  | none => true

def UnmovedKingsHome (b : ChessBoard) : Prop :=
  ∀ p ∈ allPositions, homeOK b p = true

/-- The board invariant carried through every accepted move: an 8x8 grid,
exactly one king per colour, square-consistent piece records, and unmoved
kings on their home file. -/
def KingsInv (b : ChessBoard) : Prop :=
  Shaped b ∧ kingCount b Colour.WHITE = 1 ∧ kingCount b Colour.BLACK = 1
    ∧ PosConsistent b ∧ UnmovedKingsHome b

theorem PosConsistent_read {b : ChessBoard} (h : PosConsistent b) {p : Position} {pc : Piece}
    (hc : cellGet b p = some pc) : pc.position = p := by
  have hon := cellGet_some_onBoard hc
  have h2 := h p ((mem_allPositions p).2 hon)
  unfold posOK at h2
  rw [hc] at h2
  simpa using h2

theorem UnmovedKingsHome_read {b : ChessBoard} (h : UnmovedKingsHome b) {p : Position}
    {pc : Piece} (hc : cellGet b p = some pc) (hk : pc.pieceType = PieceType.KING)
    (hm : pc.hasMoved = false) : p.col = 4 := by
  have hon := cellGet_some_onBoard hc
  have h2 := h p ((mem_allPositions p).2 hon)
  unfold homeOK at h2
  rw [hc] at h2
  simpa [hk, hm] using h2

theorem posOK_core {b b' : ChessBoard} {p : Position}
    (h : cellCore b' p = cellCore b p) : posOK b' p = posOK b p := by
  unfold cellCore at h
  unfold posOK
  cases hx : cellGet b' p with
  | none =>
    cases hy : cellGet b p with
    | none => rfl
    | some y =>
      rw [hx, hy] at h
      exact absurd h (by simp)
  | some x =>
    cases hy : cellGet b p with
    | none =>
      rw [hx, hy] at h
      exact absurd h (by simp)
    | some y =>
      rw [hx, hy] at h
      have hcore : x.core = y.core := by simpa using h
      have hposi := congrArg
        (fun t : Colour × Position × PieceType × Bool × Int × Bool => t.2.1) hcore
      simp only [Piece.core] at hposi
      show decide (x.position = p) = decide (y.position = p)
      rw [hposi]

theorem homeOK_core {b b' : ChessBoard} {p : Position}
    (h : cellCore b' p = cellCore b p) : homeOK b' p = homeOK b p := by
  unfold cellCore at h
  unfold homeOK
  cases hx : cellGet b' p with
  | none =>
    cases hy : cellGet b p with
    | none => rfl
    | some y =>
      rw [hx, hy] at h
      exact absurd h (by simp)
  | some x =>
    cases hy : cellGet b p with
    | none =>
      rw [hx, hy] at h
      exact absurd h (by simp)
    | some y =>
      rw [hx, hy] at h
      have hcore : x.core = y.core := by simpa using h
      have htyp := congrArg
        (fun t : Colour × Position × PieceType × Bool × Int × Bool => t.2.2.1) hcore
      have hmv := congrArg
        (fun t : Colour × Position × PieceType × Bool × Int × Bool => t.2.2.2.1) hcore
      simp only [Piece.core] at htyp hmv
      show (if (decide (x.pieceType = PieceType.KING) && !x.hasMoved) = true
          then decide (p.col = 4) else true)
        = (if (decide (y.pieceType = PieceType.KING) && !y.hasMoved) = true
          then decide (p.col = 4) else true)
      rw [htyp, hmv]

/-- The invariant travels across any core-preserving board transformation. -/
theorem KingsInv_congr {b b' : ChessBoard} (hsh : Shaped b')
    (h : ∀ q, cellCore b' q = cellCore b q) (inv : KingsInv b) : KingsInv b' := by
  obtain ⟨_, hw, hb, hpos, hhome⟩ := inv
  refine ⟨hsh, ?_, ?_, ?_, ?_⟩
  · rw [kingCount_congr h, hw]
  · rw [kingCount_congr h, hb]
  · intro p hp
    rw [posOK_core (h p)]
    exact hpos p hp
  · intro p hp
    rw [homeOK_core (h p)]
    exact hhome p hp

/-- The standard starting board satisfies the invariant. -/
theorem KingsInv_initial : KingsInv (initializeBoard false) := by
  have hraw : KingsInv ⟨[backRank .BLACK 0, pawnRank .BLACK 1, emptyRank, emptyRank,
      emptyRank, emptyRank, pawnRank .WHITE 6, backRank .WHITE 7]⟩ := by
    refine ⟨by decide, by decide, by decide, ?_, ?_⟩
    · intro p hp
      fin_cases hp <;> decide
    · intro p hp
      fin_cases hp <;> decide
  obtain ⟨hsh, hcores⟩ := regenAll_invar _ hraw.1
  have : initializeBoard false = regenAll ⟨[backRank .BLACK 0, pawnRank .BLACK 1, emptyRank,
      emptyRank, emptyRank, emptyRank, pawnRank .WHITE 6, backRank .WHITE 7]⟩ := rfl
  rw [this]
  exact KingsInv_congr hsh hcores hraw

/-- The tryMove filter only removes candidates. -/
theorem filterLegalB_mem {tm : Bool} {b : ChessBoard} {colour : Colour} {pos : Position} :
    ∀ {l mvs : List Position}, filterLegalB tm b colour pos l = .ok mvs →
      ∀ q ∈ mvs, q ∈ l := by
  intro l
  induction l with
  | nil =>
    intro mvs h q hq
    unfold filterLegalB at h
    have : mvs = [] := (Except.ok.inj h).symm
    subst this
    simp at hq
  | cons m rest ih =>
    intro mvs h q hq
    unfold filterLegalB at h
    dsimp only at h
    split at h <;>
      · obtain ⟨keep, hk, h⟩ := exceptBindOkInv h
        obtain ⟨others, ho, h⟩ := exceptBindOkInv h
        simp only [pure, Except.pure] at h
        have hmv : mvs = if keep = true then m :: others else others := (Except.ok.inj h).symm
        subst hmv
        split at hq
        · rcases List.mem_cons.mp hq with hq1 | hq2
          · exact hq1 ▸ List.mem_cons_self m rest
          · exact List.mem_cons_of_mem m (ih ho q hq2)
        · exact List.mem_cons_of_mem m (ih ho q hq)

theorem isSpaceEnemyT_isSome {b : ChessBoard} {p : Position} {c : Colour}
    (h : isSpaceEnemyT b p c = true) : (cellGet b p).isSome = true := by
  unfold isSpaceEnemyT at h
  cases hc : cellGet b p
  · rw [hc] at h
    exact absurd h (by simp)
  · rfl

/-- A generated pawn move either stays on the pawn's file or lands on an
occupied square: the diagonal moves require an enemy and the en-passant
clause is dead. -/
theorem pawnMoves_capture {b : ChessBoard} {pc : Piece} {q : Position}
    (h : q ∈ pawnMoves b pc) :
    q.col = pc.position.col ∨ (cellGet b q).isSome = true := by
  unfold pawnMoves at h
  rw [pawnEnPassantMoves_nil, List.append_nil, List.mem_append] at h
  rcases h with h | h
  · left
    try dsimp only at h
    split at h
    · rcases List.mem_cons.mp h with h1 | h2
      · rw [h1]
      · split at h2
        · rw [List.mem_singleton.mp h2]
        · simp at h2
    · simp at h
  · right
    rw [List.mem_filterMap] at h
    obtain ⟨dc, _, hf⟩ := h
    try dsimp only at hf
    split at hf
    · rename_i hcond
      have hq := Option.some.inj hf
      rw [← hq]
      exact isSpaceEnemyT_isSome (Bool.and_elim_right hcond)
    · exact absurd hf (by simp)

/-- A generated king move two files away is a castling target: the king is
unmoved, and one of the two corner probes succeeded. -/
theorem kingMoves_far {b : ChessBoard} {pc : Piece} {q : Position}
    (h : q ∈ kingMoves b pc) (hfar : (pc.position.col - q.col).natAbs = 2) :
    pc.hasMoved = false
      ∧ ∃ rookPos : Position,
          (rookPos = ⟨pc.position.row, 0⟩ ∨ rookPos = ⟨pc.position.row, 7⟩)
          ∧ canCastleWith b pc rookPos = true
          ∧ q = getCastlingPosition pc.position rookPos := by
  unfold kingMoves at h
  rw [List.mem_append] at h
  rcases h with h | h
  · exfalso
    rw [List.mem_filterMap] at h
    obtain ⟨d, hd, hf⟩ := h
    fin_cases hd <;>
      · try dsimp only at hf
        repeat' split at hf
        all_goals
          first
            | exact Option.noConfusion hf
            | (have hq := Option.some.inj hf
               rw [← hq] at hfar
               dsimp only at hfar
               omega)
  · unfold castlingMoves at h
    split at h
    · simp at h
    · rename_i hmv
      have hmv' : pc.hasMoved = false := by
        simpa using hmv
      refine ⟨hmv', ?_⟩
      dsimp only at h
      rw [List.mem_append] at h
      rcases h with h | h <;> split at h <;> split at h <;>
        first
          | exact absurd h (List.not_mem_nil q)
          | (rename_i hcan
             refine ⟨_, ?_, hcan, List.mem_singleton.mp h⟩
             simp)

theorem walkEmpty_step {b : ChessBoard} {row target d c : Int} {fuel : Nat}
    (h : walkEmpty b row target d c (fuel + 1) = true) (hne : c ≠ target) :
    isSpaceEmptyT b ⟨row, c⟩ = true ∧ walkEmpty b row target d (c + d) fuel = true := by
  unfold walkEmpty at h
  rw [if_neg hne] at h
  cases he : isSpaceEmptyT b ⟨row, c⟩ with
  | false =>
    rw [if_pos (by rw [he]; rfl)] at h
    exact absurd h (by simp)
  | true =>
    refine ⟨rfl, ?_⟩
    rw [if_neg (by rw [he]; simp)] at h
    exact h

theorem isSpaceEmptyT_none {b : ChessBoard} {p : Position}
    (h : isSpaceEmptyT b p = true) : cellGet b p = none := by
  unfold isSpaceEmptyT at h
  exact Option.isNone_iff_eq_none.mp h

theorem rookMatch_spec {b : ChessBoard} {p : Position}
    (h : (match cellGet b p with
          | none => false
          | some rook => decide (rook.pieceType = PieceType.ROOK) && !rook.hasMoved) = true) :
    ∃ rook, cellGet b p = some rook ∧ rook.pieceType = PieceType.ROOK := by
  cases hc : cellGet b p with
  | none =>
    rw [hc] at h
    exact absurd h (by simp)
  | some rook =>
    rw [hc] at h
    refine ⟨rook, rfl, ?_⟩
    have h1 := Bool.and_elim_left h
    simpa using h1

/-- A successful castling probe of a king on file 4 pins down the corner
cell (an unmoved rook) and guarantees that the rook's landing square —
file 3 on the queenside probe, file 5 on the kingside probe — is empty. -/
theorem canCastleWith_spec {b : ChessBoard} {pc : Piece} {rookPos : Position}
    (h : canCastleWith b pc rookPos = true) (hc4 : pc.position.col = 4)
    (hrp : rookPos = (⟨pc.position.row, 0⟩ : Position)
        ∨ rookPos = (⟨pc.position.row, 7⟩ : Position)) :
    (∃ rook, cellGet b rookPos = some rook ∧ rook.pieceType = PieceType.ROOK)
      ∧ cellGet b ⟨pc.position.row, if rookPos.col = 0 then (3 : Int) else 5⟩ = none := by
  unfold canCastleWith at h
  rcases hrp with hrp | hrp <;> subst hrp
  · dsimp only at h
    rw [hc4] at h
    have hd : (if (0 : Int) > 4 then (1 : Int) else -1) = -1 := by norm_num
    rw [hd] at h
    have hsum : (4 : Int) + -1 = 3 := by norm_num
    rw [hsum] at h
    simp only [Bool.and_eq_true] at h
    obtain ⟨⟨⟨h1, h2⟩, _⟩, _⟩ := h
    refine ⟨rookMatch_spec h1, ?_⟩
    show cellGet b ⟨pc.position.row, (3 : Int)⟩ = none
    obtain ⟨he3, _⟩ := walkEmpty_step h2 (by norm_num)
    exact isSpaceEmptyT_none he3
  · dsimp only at h
    rw [hc4] at h
    have hd : (if (7 : Int) > 4 then (1 : Int) else -1) = 1 := by norm_num
    rw [hd] at h
    have hsum : (4 : Int) + 1 = 5 := by norm_num
    rw [hsum] at h
    simp only [Bool.and_eq_true] at h
    obtain ⟨⟨⟨h1, h2⟩, _⟩, _⟩ := h
    refine ⟨rookMatch_spec h1, ?_⟩
    show cellGet b ⟨pc.position.row, (5 : Int)⟩ = none
    obtain ⟨he5, _⟩ := walkEmpty_step h2 (by norm_num)
    exact isSpaceEmptyT_none he5

theorem isKingOpt_core {v w : Option Piece} (h : v.map Piece.core = w.map Piece.core)
    (c : Colour) : isKingOpt v c = isKingOpt w c := by
  unfold isKingOpt
  cases hx : v with
  | none =>
    cases hy : w with
    | none => rfl
    | some y =>
      rw [hx, hy] at h
      exact absurd h (by simp)
  | some x =>
    cases hy : w with
    | none =>
      rw [hx, hy] at h
      exact absurd h (by simp)
    | some y =>
      rw [hx, hy] at h
      have hcore : x.core = y.core := by simpa using h
      have hcol := congrArg
        (fun t : Colour × Position × PieceType × Bool × Int × Bool => t.1) hcore
      have htyp := congrArg
        (fun t : Colour × Position × PieceType × Bool × Int × Bool => t.2.2.1) hcore
      simp only [Piece.core] at hcol htyp
      show (decide (x.colour = c) && decide (x.pieceType = PieceType.KING))
        = (decide (y.colour = c) && decide (y.pieceType = PieceType.KING))
      rw [hcol, htyp]

theorem movedPiece_props (pc : Piece) (stop : Position) :
    (movedPiece pc stop).colour = pc.colour
      ∧ (movedPiece pc stop).pieceType = pc.pieceType
      ∧ (movedPiece pc stop).position = stop
      ∧ (movedPiece pc stop).hasMoved = true := by
  unfold movedPiece
  dsimp only
  split <;> exact ⟨rfl, rfl, rfl, rfl⟩

theorem movedPiece_king (pc : Piece) (stop : Position) (c : Colour) :
    isKingOpt (some (movedPiece pc stop)) c = isKingOpt (some pc) c := by
  obtain ⟨hcol, htyp, _, _⟩ := movedPiece_props pc stop
  show (decide ((movedPiece pc stop).colour = c)
      && decide ((movedPiece pc stop).pieceType = PieceType.KING))
    = (decide (pc.colour = c) && decide (pc.pieceType = PieceType.KING))
  rw [hcol, htyp]

/-- What ChessBoard::movePiece does on success: the mover (same colour and
type, new square, `hasMoved` set) lands on `stop`, `start` is vacated,
no other square's core changes, and — provided `stop` held no king — the
king counts are untouched. -/
theorem movePiece_spec {bX : ChessBoard} {a b : Position} {res : Bool} {b2 : ChessBoard}
    (hs : Shaped bX)
    (h : movePiece bX a b false = .ok (res, b2)) :
    (res = false ∧ b2 = bX)
    ∨ (res = true
        ∧ ∃ pc : Piece, cellGet bX a = some pc
          ∧ isPositionOnBoard a = true ∧ isPositionOnBoard b = true
          ∧ Shaped b2
          ∧ (∀ q, q ≠ a → q ≠ b → cellCore b2 q = cellCore bX q)
          ∧ (∃ pc' : Piece, pc'.colour = pc.colour ∧ pc'.pieceType = pc.pieceType
               ∧ pc'.position = b ∧ pc'.hasMoved = true
               ∧ cellCore b2 b = some pc'.core)
          ∧ (a ≠ b → cellCore b2 a = none)
          ∧ (∀ c, isKingOpt (cellGet bX b) c = false → kingCount b2 c = kingCount bX c)) := by
  unfold movePiece at h
  obtain ⟨x, hx, h⟩ := exceptBindOkInv h
  obtain ⟨hona, hxc⟩ := getPieceAtPositionE_ok hs hx
  split at h
  · simp only [pure, Except.pure] at h
    cases h
    exact Or.inl ⟨rfl, rfl⟩
  · rename_i pc
    split at h
    · obtain ⟨bm, hbm, h⟩ := exceptBindOkInv h
      unfold moveCellE at hbm
      split at hbm
      · exact absurd hbm (by simp)
      · rename_i hbc
        have honb : isPositionOnBoard b = true := by
          have hbc2 : (!isPositionOnBoard a || !isPositionOnBoard b) = false := by
            simpa using hbc
          rcases Bool.or_eq_false_iff.mp hbc2 with ⟨_, h2⟩
          simpa using h2
        simp only [pure, Except.pure] at h
        right
        obtain ⟨hcolP, htypP, hposP, hmvP⟩ := movedPiece_props pc b
        split at hbm
        · -- a = b : the slot is left alone by moveCellE
          rename_i hab
          have hbm' : bX = bm := Except.ok.inj hbm
          cases h
          subst hbm'
          subst hab
          obtain ⟨hsh4, hcor⟩ := regenAll_invar _ (Shaped_setCell
            a (some (movedPiece pc a)) hs)
          refine ⟨rfl, pc, hxc, hona, honb, hsh4, ?_, ?_, ?_, ?_⟩
          · intro q hq _
            rw [hcor q]
            unfold cellCore
            rw [cellGet_setCell _ _ _ _ hs hona, if_neg hq]
          · refine ⟨movedPiece pc a, hcolP, htypP, hposP, hmvP, ?_⟩
            rw [hcor a]
            unfold cellCore
            rw [cellGet_setCell _ _ _ _ hs hona, if_pos rfl]
            rfl
          · intro hab
            exact absurd rfl hab
          · intro c hkb
            rw [kingCount_congr hcor c]
            have hsw := kingCount_setCell_swap bX a (some (movedPiece pc a)) c hs hona
            rw [isKingCell_eq_isKingOpt, hkb, if_neg (by simp)] at hsw
            rw [movedPiece_king] at hsw
            rw [hxc] at hkb
            rw [hkb, if_neg (by simp)] at hsw
            omega
        · -- a ≠ b : genuine relocation
          rename_i hab
          have hbm' : bm = setCell (setCell bX b (cellGet bX a)) a none :=
            (Except.ok.inj hbm).symm
          cases h
          rw [hxc] at hbm'
          subst hbm'
          have hs1 : Shaped (setCell bX b (some pc)) := Shaped_setCell _ _ hs
          have hs2 : Shaped (setCell (setCell bX b (some pc)) a none) :=
            Shaped_setCell _ _ hs1
          obtain ⟨hsh4, hcor⟩ := regenAll_invar _ (Shaped_setCell
            b (some (movedPiece pc b)) hs2)
          refine ⟨rfl, pc, hxc, hona, honb, hsh4, ?_, ?_, ?_, ?_⟩
          · intro q hqa hqb
            rw [hcor q]
            unfold cellCore
            rw [cellGet_setCell _ _ _ _ hs2 honb, if_neg hqb,
                cellGet_setCell _ _ _ _ hs1 hona, if_neg hqa,
                cellGet_setCell _ _ _ _ hs honb, if_neg hqb]
          · refine ⟨movedPiece pc b, hcolP, htypP, hposP, hmvP, ?_⟩
            rw [hcor b]
            unfold cellCore
            rw [cellGet_setCell _ _ _ _ hs2 honb, if_pos rfl]
            rfl
          · intro _
            rw [hcor a]
            unfold cellCore
            rw [cellGet_setCell _ _ _ _ hs2 honb, if_neg hab,
                cellGet_setCell _ _ _ _ hs1 hona, if_pos rfl]
            rfl
          · intro c hkb
            rw [kingCount_congr hcor c]
            have hsw1 := kingCount_setCell_swap bX b (some pc) c hs honb
            rw [isKingCell_eq_isKingOpt, hkb, if_neg (by simp)] at hsw1
            have hsw2 := kingCount_setCell_swap (setCell bX b (some pc)) a none c hs1 hona
            rw [isKingCell_eq_isKingOpt, cellGet_setCell _ _ _ _ hs honb, if_neg hab,
                hxc] at hsw2
            have hsw3 := kingCount_setCell_swap (setCell (setCell bX b (some pc)) a none) b
              (some (movedPiece pc b)) c hs2 honb
            rw [isKingCell_eq_isKingOpt, cellGet_setCell _ _ _ _ hs1 hona,
                if_neg (Ne.symm hab),
                cellGet_setCell _ _ _ _ hs honb, if_pos rfl, movedPiece_king] at hsw3
            have hnone : (if isKingOpt none c = true then 1 else 0) = 0 := rfl
            rw [hnone] at hsw2
            simp only [isKingOpt] at hsw1 hsw2 hsw3
            omega
    · simp only [pure, Except.pure] at h
      cases h
      exact Or.inl ⟨rfl, rfl⟩

/-! ### C1 stage C: invariant preservation through a committed move -/

theorem isKingOpt_nonking {pc : Piece} (h : ¬pc.pieceType = PieceType.KING) (c : Colour) :
    isKingOpt (some pc) c = false := by
  unfold isKingOpt
  simp [h]

theorem cellCore_none_inv {b : ChessBoard} {p : Position}
    (h : cellCore b p = none) : cellGet b p = none := by
  unfold cellCore at h
  cases hg : cellGet b p with
  | none => rfl
  | some pc =>
    rw [hg] at h
    exact absurd h (by simp)

theorem cellCore_some_inv {b : ChessBoard} {p : Position} {pc' : Piece}
    (h : cellCore b p = some pc'.core) :
    ∃ pcc, cellGet b p = some pcc ∧ pcc.colour = pc'.colour ∧ pcc.position = pc'.position
      ∧ pcc.pieceType = pc'.pieceType ∧ pcc.hasMoved = pc'.hasMoved := by
  unfold cellCore at h
  cases hg : cellGet b p with
  | none =>
    rw [hg] at h
    exact absurd h (by simp)
  | some pcc =>
    rw [hg] at h
    have hc : pcc.core = pc'.core := by simpa using h
    unfold Piece.core at hc
    simp only [Prod.mk.injEq] at hc
    exact ⟨pcc, rfl, hc.1, hc.2.1, hc.2.2.1, hc.2.2.2.1⟩

theorem cellCore_isSome (b : ChessBoard) (p : Position) :
    (cellCore b p).isSome = (cellGet b p).isSome := by
  unfold cellCore
  cases cellGet b p <;> rfl

/-- A write that neither removes nor adds a king of colour `c` keeps that
colour's king count. -/
theorem kingCount_setCell_keep {b : ChessBoard} {p : Position} {v : Option Piece} {c : Colour}
    (hs : Shaped b) (hp : isPositionOnBoard p = true)
    (hold : isKingOpt (cellGet b p) c = false) (hnew : isKingOpt v c = false) :
    kingCount (setCell b p v) c = kingCount b c := by
  have hsw := kingCount_setCell_swap b p v c hs hp
  rw [isKingCell_eq_isKingOpt, hold, hnew] at hsw
  simpa using hsw

/-- Relocation principle: a transformation that lands a hasMoved-stamped
piece whose recorded position is `b` on square `b`, empties `a`, keeps every
other core and keeps the king counts preserves the whole invariant. -/
theorem KingsInv_relocate {bX b2 : ChessBoard} {a b : Position}
    (hinv : KingsInv bX) (hsh : Shaped b2)
    (hframe : ∀ q, q ≠ a → q ≠ b → cellCore b2 q = cellCore bX q)
    (hdst : ∃ pc' : Piece, pc'.position = b ∧ pc'.hasMoved = true
        ∧ cellCore b2 b = some pc'.core)
    (hsrc : a ≠ b → cellCore b2 a = none)
    (hcnt : ∀ c, kingCount b2 c = kingCount bX c) :
    KingsInv b2 := by
  obtain ⟨_, hw, hbk, hposc, hhome⟩ := hinv
  obtain ⟨pc', hpos', hmv', hcore'⟩ := hdst
  obtain ⟨pcc, hg, _, hposc', _, hmvc'⟩ := cellCore_some_inv hcore'
  refine ⟨hsh, by rw [hcnt, hw], by rw [hcnt, hbk], ?_, ?_⟩
  · intro p hp
    by_cases hpb : p = b
    · subst hpb
      simp only [posOK, hg]
      rw [hposc', hpos']
      simp
    · by_cases hpa : p = a
      · subst hpa
        have h0 := cellCore_none_inv (hsrc hpb)
        simp only [posOK, h0]
      · rw [posOK_core (hframe p hpa hpb)]
        exact hposc p hp
  · intro p hp
    by_cases hpb : p = b
    · subst hpb
      simp only [homeOK, hg]
      rw [hmvc', hmv']
      simp
    · by_cases hpa : p = a
      · subst hpa
        have h0 := cellCore_none_inv (hsrc hpb)
        simp only [homeOK, h0]
      · rw [homeOK_core (hframe p hpa hpb)]
        exact hhome p hp

/-- When the mover's cached move set approves the target,
ChessBoard::movePiece reports success. -/
theorem movePiece_valid_fst {bX : ChessBoard} {a b : Position} {res : Bool} {b2 : ChessBoard}
    {pc : Piece} (hs : Shaped bX) (hpc : cellGet bX a = some pc)
    (hv : pc.isValidMoveP a b = true)
    (h : movePiece bX a b false = .ok (res, b2)) : res = true := by
  unfold movePiece at h
  obtain ⟨x, hx, h⟩ := exceptBindOkInv h
  obtain ⟨hona, hxc⟩ := getPieceAtPositionE_ok hs hx
  have hx2 : x = some pc := by rw [← hxc, hpc]
  subst hx2
  simp only at h
  split at h
  · obtain ⟨bm, hbm, h⟩ := exceptBindOkInv h
    simp only [pure, Except.pure] at h
    have h2 := Except.ok.inj h
    have h3 := congrArg Prod.fst h2
    exact h3.symm
  · rename_i hcond
    rw [hv] at hcond
    simp at hcond

/-- The cache refresh of getPossibleMoves keeps the shape and every core. -/
theorem refresh_cores {bX : ChessBoard} {pos : Position} {pc : Piece}
    (hs : Shaped bX) (hpc : cellGet bX pos = some pc) :
    Shaped (setCell bX pos (some (updatePiece bX pc)))
      ∧ ∀ q, cellCore (setCell bX pos (some (updatePiece bX pc))) q = cellCore bX q := by
  have hon := cellGet_some_onBoard hpc
  refine ⟨Shaped_setCell _ _ hs, fun q => ?_⟩
  unfold cellCore
  rw [cellGet_setCell _ _ _ _ hs hon]
  by_cases hq : q = pos
  · subst hq
    rw [if_pos rfl, hpc]
    rfl
  · rw [if_neg hq]

theorem KingsInv_refresh {bX : ChessBoard} {pos : Position} {pc : Piece}
    (hinv : KingsInv bX) (hpc : cellGet bX pos = some pc) :
    KingsInv (setCell bX pos (some (updatePiece bX pc))) := by
  obtain ⟨hsh, hcor⟩ := refresh_cores hinv.1 hpc
  exact KingsInv_congr hsh hcor hinv

/-- Membership inversion for getPossibleMoves in normal mode: an offered
target was generated for the scanned piece against the pre-call board, and
the returned state is the cache-refresh state. -/
theorem getPossibleMovesC_mem {s : GameState} {pos : Position}
    {mvs : List Position} {s2 : GameState} {q : Position}
    (hs : Shaped s.board)
    (h : getPossibleMovesC false s pos = .ok (mvs, s2)) (hq : q ∈ mvs) :
    ∃ pc, cellGet s.board pos = some pc ∧ q ∈ genMoves s.board pc
      ∧ s2 = { s with board := setCell s.board pos (some (updatePiece s.board pc)) } := by
  unfold getPossibleMovesC at h
  obtain ⟨pc?, hpc, h⟩ := exceptBindOkInv h
  obtain ⟨hon, hxc⟩ := getPieceAtPositionE_ok hs hpc
  cases pc? with
  | none =>
    simp only [pure, Except.pure] at h
    cases h
    simp at hq
  | some pc =>
    simp only at h
    obtain ⟨chk, hchk, h⟩ := exceptBindOkInv h
    obtain ⟨mvs0, hflt, h⟩ := exceptBindOkInv h
    simp only [pure, Except.pure] at h
    cases h
    exact ⟨pc, hxc, filterLegalB_mem hflt q hq, rfl⟩

/-- The castling rook relocation preserves the kings invariant, provided
the corner cell read by it holds a rook-typed piece and the rook's landing
square is empty. -/
theorem castleStage_kings {s2 : GameState} {stop : Position} {s3 : GameState} {rc ec : Int}
    (hinv : KingsInv s2.board)
    (hrc : (if stop.col = 2 then (0 : Int) else 7) = rc)
    (hec : (if stop.col = 2 then (3 : Int) else 5) = ec)
    (hrook : ∃ rook, cellGet s2.board ⟨stop.row, rc⟩ = some rook
        ∧ rook.pieceType = PieceType.ROOK)
    (hempty : cellGet s2.board ⟨stop.row, ec⟩ = none)
    (h : castleStage s2 stop = .ok s3) : KingsInv s3.board := by
  obtain ⟨rook0, hr0, hr0t⟩ := hrook
  have hnk0 : ¬rook0.pieceType = PieceType.KING := by
    rw [hr0t]
    simp
  have hcne : rc ≠ ec := by
    rw [← hrc, ← hec]
    by_cases h2 : stop.col = 2 <;> simp [h2]
  have hne : (⟨stop.row, rc⟩ : Position) ≠ ⟨stop.row, ec⟩ := by
    intro he
    exact hcne (congrArg Position.col he)
  unfold castleStage at h
  dsimp only at h
  rw [hrc, hec] at h
  obtain ⟨bdM, hbm, h⟩ := exceptBindOkInv h
  unfold moveCellE at hbm
  split at hbm
  · exact absurd hbm (by simp)
  · rename_i hoob
    have hoob2 : (!isPositionOnBoard (⟨stop.row, rc⟩ : Position)
        || !isPositionOnBoard (⟨stop.row, ec⟩ : Position)) = false := by
      simpa using hoob
    obtain ⟨h1, h2⟩ := Bool.or_eq_false_iff.mp hoob2
    have honr : isPositionOnBoard (⟨stop.row, rc⟩ : Position) = true := by simpa using h1
    have hone : isPositionOnBoard (⟨stop.row, ec⟩ : Position) = true := by simpa using h2
    have hbdM : bdM
        = setCell (setCell s2.board ⟨stop.row, ec⟩ (some rook0)) ⟨stop.row, rc⟩ none := by
      have h3 := Except.ok.inj hbm
      rw [hr0] at h3
      exact h3.symm
    obtain ⟨rook?, hrk, h⟩ := exceptBindOkInv h
    subst hbdM
    have hs0 := hinv.1
    have hs1 : Shaped (setCell s2.board ⟨stop.row, ec⟩ (some rook0)) := Shaped_setCell _ _ hs0
    have hs2b : Shaped (setCell (setCell s2.board ⟨stop.row, ec⟩ (some rook0))
        ⟨stop.row, rc⟩ none) := Shaped_setCell _ _ hs1
    obtain ⟨_, hrkc⟩ := getPieceAtPositionE_ok hs2b hrk
    have hread : cellGet (setCell (setCell s2.board ⟨stop.row, ec⟩ (some rook0))
        ⟨stop.row, rc⟩ none) ⟨stop.row, ec⟩ = some rook0 := by
      rw [cellGet_setCell _ _ _ _ hs1 honr, if_neg (Ne.symm hne),
          cellGet_setCell _ _ _ _ hs0 hone, if_pos rfl]
    have hrq : rook? = some rook0 := by rw [← hrkc, hread]
    subst hrq
    simp only [pure, Except.pure] at h
    cases h
    dsimp only
    have hs3b : Shaped (setCell (setCell (setCell s2.board ⟨stop.row, ec⟩ (some rook0))
        ⟨stop.row, rc⟩ none) ⟨stop.row, ec⟩
        (some { rook0 with position := ⟨stop.row, ec⟩, hasMoved := true })) :=
      Shaped_setCell _ _ hs2b
    refine @KingsInv_relocate s2.board _ ⟨stop.row, rc⟩ ⟨stop.row, ec⟩ hinv
      (Shaped_setCell _ _ hs3b) ?_ ?_ ?_ ?_
    · intro q hqr hqe
      unfold cellCore
      rw [cellGet_setCell _ _ _ _ hs3b hone, if_neg hqe,
          cellGet_setCell _ _ _ _ hs2b hone, if_neg hqe,
          cellGet_setCell _ _ _ _ hs1 honr, if_neg hqr,
          cellGet_setCell _ _ _ _ hs0 hone, if_neg hqe]
    · refine ⟨updatePiece (setCell (setCell (setCell s2.board ⟨stop.row, ec⟩ (some rook0))
          ⟨stop.row, rc⟩ none) ⟨stop.row, ec⟩
          (some { rook0 with position := ⟨stop.row, ec⟩, hasMoved := true }))
          { rook0 with position := ⟨stop.row, ec⟩, hasMoved := true }, rfl, rfl, ?_⟩
      unfold cellCore
      rw [cellGet_setCell _ _ _ _ hs3b hone, if_pos rfl]
      rfl
    · intro _
      have hcc : cellGet (setCell (setCell (setCell (setCell s2.board ⟨stop.row, ec⟩
          (some rook0)) ⟨stop.row, rc⟩ none) ⟨stop.row, ec⟩
          (some { rook0 with position := ⟨stop.row, ec⟩, hasMoved := true })) ⟨stop.row, ec⟩
          (some (updatePiece (setCell (setCell (setCell s2.board ⟨stop.row, ec⟩ (some rook0))
          ⟨stop.row, rc⟩ none) ⟨stop.row, ec⟩
          (some { rook0 with position := ⟨stop.row, ec⟩, hasMoved := true }))
          { rook0 with position := ⟨stop.row, ec⟩, hasMoved := true })))
          ⟨stop.row, rc⟩ = none := by
        rw [cellGet_setCell _ _ _ _ hs3b hone, if_neg hne,
            cellGet_setCell _ _ _ _ hs2b hone, if_neg hne,
            cellGet_setCell _ _ _ _ hs1 honr, if_pos rfl]
      unfold cellCore
      rw [hcc]
      rfl
    · intro c
      have hold4 : isKingOpt (cellGet (setCell (setCell (setCell s2.board ⟨stop.row, ec⟩ (some rook0)) ⟨stop.row, rc⟩ none) ⟨stop.row, ec⟩ (some { rook0 with position := ⟨stop.row, ec⟩, hasMoved := true })) ⟨stop.row, ec⟩) c = false := by
        rw [cellGet_setCell _ _ _ _ hs2b hone, if_pos rfl]
        exact isKingOpt_nonking hnk0 c
      have hold3 : isKingOpt (cellGet (setCell (setCell s2.board ⟨stop.row, ec⟩ (some rook0)) ⟨stop.row, rc⟩ none) ⟨stop.row, ec⟩) c = false := by
        rw [hread]
        exact isKingOpt_nonking hnk0 c
      have hold2 : isKingOpt (cellGet (setCell s2.board ⟨stop.row, ec⟩ (some rook0)) ⟨stop.row, rc⟩) c = false := by
        rw [cellGet_setCell _ _ _ _ hs0 hone, if_neg hne, hr0]
        exact isKingOpt_nonking hnk0 c
      have hold1 : isKingOpt (cellGet s2.board ⟨stop.row, ec⟩) c = false := by
        rw [hempty]
        rfl
      have hnew4 : isKingOpt (some (updatePiece (setCell (setCell (setCell s2.board ⟨stop.row, ec⟩ (some rook0)) ⟨stop.row, rc⟩ none) ⟨stop.row, ec⟩ (some { rook0 with position := ⟨stop.row, ec⟩, hasMoved := true })) { rook0 with position := ⟨stop.row, ec⟩, hasMoved := true })) c = false :=
        isKingOpt_nonking hnk0 c
      have hnew3 : isKingOpt (some ({ rook0 with position := ⟨stop.row, ec⟩, hasMoved := true } : Piece)) c = false :=
        isKingOpt_nonking hnk0 c
      have hnone : isKingOpt none c = false := rfl
      rw [kingCount_setCell_keep hs3b hone hold4 hnew4,
          kingCount_setCell_keep hs2b hone hold3 hnew3,
          kingCount_setCell_keep hs1 honr hold2 hnone,
          kingCount_setCell_keep hs0 hone hold1 (isKingOpt_nonking hnk0 c)]

set_option maxRecDepth 16000 in
/-- Any makeMove call in normal mode that returns through `.ok` preserves
the kings invariant, whatever its boolean verdict. -/
theorem makeMove_kings {s : GameState} {a b : Position} {r : Bool} {s' : GameState}
    (hinv : KingsInv s.board) (h : makeMove false s a b = .ok (r, s')) :
    KingsInv s'.board := by
  unfold makeMove at h
  simp only [Bool.false_eq_true, if_false] at h
  obtain ⟨v, hv, h⟩ := exceptBindOkInv h
  split at h
  · obtain ⟨pmres, hpm, h⟩ := exceptBindOkInv h
    obtain ⟨pms, s2⟩ := pmres
    split at h
    · simp only [pure, Except.pure] at h
      have hs2s : s2 = s' := congrArg Prod.snd (Except.ok.inj h)
      rw [← hs2s]
      rcases getPossibleMovesC_inv hpm with hA | ⟨pc0, hpc0, hB⟩
      · rw [show s2 = s from hA]
        exact hinv
      · obtain ⟨_, hxc0⟩ := getPieceAtPositionE_ok hinv.1 hpc0
        rw [show s2 = { s with board := setCell s.board a (some (updatePiece s.board pc0)) }
          from hB]
        exact KingsInv_refresh hinv hxc0
    · rename_i hmemc
      have hq : b ∈ pms := by
        by_contra hq
        exact hmemc (by simp [hq])
      obtain ⟨pc, hxc, hgen, hs2e⟩ := getPossibleMovesC_mem hinv.1 hpm hq
      have hinv2 : KingsInv s2.board := by
        rw [hs2e]
        exact KingsInv_refresh hinv hxc
      have hcores : ∀ q, cellCore s2.board q = cellCore s.board q := by
        intro q
        rw [hs2e]
        exact (refresh_cores hinv.1 hxc).2 q
      have hposa : pc.position = a := PosConsistent_read hinv.2.2.2.1 hxc
      obtain ⟨mp?, hmp, h⟩ := exceptBindOkInv h
      obtain ⟨cp?, hcp, h⟩ := exceptBindOkInv h
      obtain ⟨hona2, hmpc⟩ := getPieceAtPositionE_ok hinv2.1 hmp
      obtain ⟨honb2, hcpc⟩ := getPieceAtPositionE_ok hinv2.1 hcp
      split at h
      · simp only [pure, Except.pure] at h
        cases h
        exact hinv2
      · rename_i hnk
        cases mp? with
        | none => exact absurd h (by simp)
        | some mp =>
          have hmp2 : mp = updatePiece s.board pc := by
            have hup : cellGet s2.board a = some (updatePiece s.board pc) := by
              rw [hs2e]
              show cellGet (setCell s.board a (some (updatePiece s.board pc))) a
                = some (updatePiece s.board pc)
              rw [cellGet_setCell _ _ _ _ hinv.1 (cellGet_some_onBoard hxc), if_pos rfl]
            exact Option.some.inj (hmpc.symm.trans hup)
          subst hmp2
          have hnk2 : ∀ cp, cp? = some cp → ¬cp.pieceType = PieceType.KING := fun cp hcq hk =>
            hnk (by simp [hcq, hk])
          have hnking : ∀ c, isKingOpt (cellGet s2.board b) c = false := by
            intro c
            rw [hcpc]
            cases hcq : cp? with
            | none => rfl
            | some cp => exact isKingOpt_nonking (hnk2 cp hcq) c
          unfold makeMoveCommit at h
          obtain ⟨pmv, hp, h⟩ := exceptBindOkInv h
          obtain ⟨_mv, bd⟩ := pmv
          have hp' : movePiece s2.board a b false = .ok (_mv, bd) := hp
          have hval : (updatePiece s.board pc).isValidMoveP a b = true := by
            show decide (b ∈ (updatePiece s.board pc).validMoves) = true
            exact decide_eq_true hgen
          have hmv1 : _mv = true := movePiece_valid_fst hinv2.1 hmpc hval hp'
          subst hmv1
          rcases movePiece_spec hinv2.1 hp' with ⟨hff, _⟩ |
            ⟨_, pcx, hpcx, hona3, honb3, hsh3, hframe3, hdst3, hsrc3, hcnt3⟩
          · exact absurd hff (by simp)
          · have hinv3 : KingsInv bd := by
              obtain ⟨pc', _, _, hc3, hc4, hc5⟩ := hdst3
              exact KingsInv_relocate hinv2 hsh3 hframe3 ⟨pc', hc3, hc4, hc5⟩ hsrc3
                (fun c => hcnt3 c (hnking c))
            obtain ⟨s5, hs5, h⟩ := exceptBindOkInv h
            have hinv5 : KingsInv s5.board := by
              split at hs5
              · rename_i hcast
                simp only [Bool.not_false, Bool.true_and, Bool.and_eq_true,
                  decide_eq_true_eq] at hcast
                obtain ⟨hK, hfar⟩ := hcast
                have hKpc : pc.pieceType = PieceType.KING := hK
                have hgenK : b ∈ kingMoves s.board pc := by
                  have hg2 := hgen
                  unfold genMoves at hg2
                  rw [hKpc] at hg2
                  exact hg2
                have hfar2 : (pc.position.col - b.col).natAbs = 2 := by
                  rw [hposa]
                  exact hfar
                obtain ⟨hunm, rookPos, hrp, hcan, hbeq⟩ := kingMoves_far hgenK hfar2
                have hcol4 : a.col = 4 :=
                  UnmovedKingsHome_read hinv.2.2.2.2 hxc hKpc hunm
                have hc4 : pc.position.col = 4 := by
                  rw [hposa]
                  exact hcol4
                obtain ⟨⟨rook0, hr0, hr0t⟩, hemp⟩ := canCastleWith_spec hcan hc4 hrp
                rcases hrp with hrp | hrp
                · subst hrp
                  rw [hposa] at hbeq hr0 hemp
                  have hb2 : b = ⟨a.row, (2 : Int)⟩ := by
                    rw [hbeq]
                    unfold getCastlingPosition
                    dsimp only
                    rw [hcol4]
                    norm_num [Position.mk.injEq]
                  have hbcol : b.col = 2 := by rw [hb2]
                  have hbrow : b.row = a.row := by rw [hb2]
                  have hemp3 : cellGet s.board ⟨a.row, (3 : Int)⟩ = none := by
                    simpa using hemp
                  have hrs_ne_a : (⟨b.row, (0 : Int)⟩ : Position) ≠ a := by
                    intro he
                    have hco := congrArg Position.col he
                    rw [hcol4] at hco
                    norm_num at hco
                  have hrs_ne_b : (⟨b.row, (0 : Int)⟩ : Position) ≠ b := by
                    intro he
                    have hco := congrArg Position.col he
                    rw [hbcol] at hco
                    norm_num at hco
                  have hre_ne_a : (⟨b.row, (3 : Int)⟩ : Position) ≠ a := by
                    intro he
                    have hco := congrArg Position.col he
                    rw [hcol4] at hco
                    norm_num at hco
                  have hre_ne_b : (⟨b.row, (3 : Int)⟩ : Position) ≠ b := by
                    intro he
                    have hco := congrArg Position.col he
                    rw [hbcol] at hco
                    norm_num at hco
                  have hcoreR : cellCore bd ⟨b.row, (0 : Int)⟩ = some rook0.core := by
                    rw [hframe3 _ hrs_ne_a hrs_ne_b, hcores _]
                    unfold cellCore
                    rw [hbrow, hr0]
                    rfl
                  obtain ⟨rookX, hrX, _, _, hrXt, _⟩ := cellCore_some_inv hcoreR
                  have hempX : cellGet bd ⟨b.row, (3 : Int)⟩ = none := by
                    apply cellCore_none_inv
                    rw [hframe3 _ hre_ne_a hre_ne_b, hcores _]
                    unfold cellCore
                    rw [hbrow, hemp3]
                    rfl
                  exact @castleStage_kings _ b s5 0 3 hinv3
                    (by rw [hbcol]; norm_num) (by rw [hbcol]; norm_num)
                    ⟨rookX, hrX, by rw [hrXt, hr0t]⟩ hempX hs5
                · subst hrp
                  rw [hposa] at hbeq hr0 hemp
                  have hb2 : b = ⟨a.row, (6 : Int)⟩ := by
                    rw [hbeq]
                    unfold getCastlingPosition
                    dsimp only
                    rw [hcol4]
                    norm_num [Position.mk.injEq]
                  have hbcol : b.col = 6 := by rw [hb2]
                  have hbrow : b.row = a.row := by rw [hb2]
                  have hemp5 : cellGet s.board ⟨a.row, (5 : Int)⟩ = none := by
                    simpa using hemp
                  have hrs_ne_a : (⟨b.row, (7 : Int)⟩ : Position) ≠ a := by
                    intro he
                    have hco := congrArg Position.col he
                    rw [hcol4] at hco
                    norm_num at hco
                  have hrs_ne_b : (⟨b.row, (7 : Int)⟩ : Position) ≠ b := by
                    intro he
                    have hco := congrArg Position.col he
                    rw [hbcol] at hco
                    norm_num at hco
                  have hre_ne_a : (⟨b.row, (5 : Int)⟩ : Position) ≠ a := by
                    intro he
                    have hco := congrArg Position.col he
                    rw [hcol4] at hco
                    norm_num at hco
                  have hre_ne_b : (⟨b.row, (5 : Int)⟩ : Position) ≠ b := by
                    intro he
                    have hco := congrArg Position.col he
                    rw [hbcol] at hco
                    norm_num at hco
                  have hcoreR : cellCore bd ⟨b.row, (7 : Int)⟩ = some rook0.core := by
                    rw [hframe3 _ hrs_ne_a hrs_ne_b, hcores _]
                    unfold cellCore
                    rw [hbrow, hr0]
                    rfl
                  obtain ⟨rookX, hrX, _, _, hrXt, _⟩ := cellCore_some_inv hcoreR
                  have hempX : cellGet bd ⟨b.row, (5 : Int)⟩ = none := by
                    apply cellCore_none_inv
                    rw [hframe3 _ hre_ne_a hre_ne_b, hcores _]
                    unfold cellCore
                    rw [hbrow, hemp5]
                    rfl
                  exact @castleStage_kings _ b s5 7 5 hinv3
                    (by rw [hbcol]; norm_num) (by rw [hbcol]; norm_num)
                    ⟨rookX, hrX, by rw [hrXt, hr0t]⟩ hempX hs5
              · simp only [pure, Except.pure] at hs5
                rw [← Except.ok.inj hs5]
                exact hinv3
            unfold makeMoveFinish at h
            split at h
            · obtain ⟨u, hu, h⟩ := exceptBindOkInv h
              simp only [pure, Except.pure] at h
              cases h
              rw [(updateGameStatusC_fields hu).1]
              exact hinv5
            · have hep : enPassantStage s5 a b (updatePiece s.board pc) cp? = s5 := by
                unfold enPassantStage
                split
                · rename_i hcond
                  exfalso
                  simp only [Bool.and_eq_true, decide_eq_true_eq] at hcond
                  obtain ⟨⟨hpawn, hnonecp⟩, hcoldiff⟩ := hcond
                  have hpawn2 : pc.pieceType = PieceType.PAWN := hpawn
                  have hgenP : b ∈ pawnMoves s.board pc := by
                    have hg2 := hgen
                    unfold genMoves at hg2
                    rw [hpawn2] at hg2
                    exact hg2
                  rcases pawnMoves_capture hgenP with hcol | hsome
                  · rw [hposa] at hcol
                    exact hcoldiff hcol.symm
                  · have h1 : (cellGet s2.board b).isSome = true := by
                      rw [← cellCore_isSome, hcores b, cellCore_isSome]
                      exact hsome
                    rw [hcpc] at h1
                    rw [Option.isNone_iff_eq_none.mp hnonecp] at h1
                    simp at h1
                · rfl
              rw [hep] at h
              obtain ⟨u, hu, h⟩ := exceptBindOkInv h
              simp only [pure, Except.pure] at h
              cases h
              rw [updateBSMC_board, (updateGameStatusC_fields hu).1, switchTurns_board]
              dsimp only
              obtain ⟨hshR, hcorR⟩ := regenAll_invar s5.board hinv5.1
              exact KingsInv_congr hshR hcorR hinv5
  · simp only [pure, Except.pure] at h
    cases h
    exact hinv

/-- makeMove in normal mode rejects any move whose destination square holds
a king: the captured-king guard fires before the commit. -/
theorem makeMove_king_dest {s : GameState} {a b : Position} {r : Bool} {s' : GameState}
    (hs : Shaped s.board) (h : makeMove false s a b = .ok (r, s'))
    {kp : Piece} (hk : cellGet s.board b = some kp)
    (hkt : kp.pieceType = PieceType.KING) : r = false := by
  unfold makeMove at h
  simp only [Bool.false_eq_true, if_false] at h
  obtain ⟨v, hv, h⟩ := exceptBindOkInv h
  split at h
  · obtain ⟨pmres, hpm, h⟩ := exceptBindOkInv h
    obtain ⟨pms, s2⟩ := pmres
    have hk2 : ∃ kp2, cellGet s2.board b = some kp2 ∧ kp2.pieceType = PieceType.KING := by
      rcases getPossibleMovesC_inv hpm with hA | ⟨pc0, hpc0, hB⟩
      · rw [show s2 = s from hA]
        exact ⟨kp, hk, hkt⟩
      · obtain ⟨_, hxc0⟩ := getPieceAtPositionE_ok hs hpc0
        rw [show s2 = { s with board := setCell s.board a (some (updatePiece s.board pc0)) }
          from hB]
        show ∃ kp2, cellGet (setCell s.board a (some (updatePiece s.board pc0))) b
          = some kp2 ∧ kp2.pieceType = PieceType.KING
        rw [cellGet_setCell _ _ _ _ hs (cellGet_some_onBoard hxc0)]
        by_cases hba : b = a
        · rw [if_pos hba]
          refine ⟨updatePiece s.board pc0, rfl, ?_⟩
          subst hba
          have hkp : kp = pc0 := Option.some.inj (hk.symm.trans hxc0)
          show pc0.pieceType = PieceType.KING
          rw [← hkp]
          exact hkt
        · rw [if_neg hba]
          exact ⟨kp, hk, hkt⟩
    obtain ⟨kp2, hk2g, hk2t⟩ := hk2
    have hsh2 : Shaped s2.board := by
      rcases getPossibleMovesC_inv hpm with hA | ⟨pc0, hpc0, hB⟩
      · rw [show s2 = s from hA]
        exact hs
      · rw [show s2 = { s with board := setCell s.board a (some (updatePiece s.board pc0)) }
          from hB]
        exact Shaped_setCell _ _ hs
    split at h
    · simp only [pure, Except.pure] at h
      exact (congrArg Prod.fst (Except.ok.inj h)).symm
    · obtain ⟨mp?, hmp, h⟩ := exceptBindOkInv h
      obtain ⟨cp?, hcp, h⟩ := exceptBindOkInv h
      obtain ⟨_, hcpc⟩ := getPieceAtPositionE_ok hsh2 hcp
      have hcq : cp? = some kp2 := by rw [← hcpc, hk2g]
      subst hcq
      split at h
      · simp only [pure, Except.pure] at h
        exact (congrArg Prod.fst (Except.ok.inj h)).symm
      · rename_i hnk
        exact absurd (by simp [hk2t]) hnk
  · simp only [pure, Except.pure] at h
    exact (congrArg Prod.fst (Except.ok.inj h)).symm

/-- The states reachable from a freshly started standard game through
GameController::makeMove calls in normal mode (both accepted and rejected
calls, as long as they return rather than throw). -/
inductive ReachableM : GameState → Prop where
  | init : ReachableM initialGameState
  | step {s : GameState} {a b : Position} {r : Bool} {s' : GameState} :
      ReachableM s → makeMove false s a b = .ok (r, s') → ReachableM s'

set_option maxRecDepth 16000 in
/-- Every reachable state satisfies the kings invariant. -/
theorem ReachableM_KingsInv {s : GameState} (hr : ReachableM s) : KingsInv s.board := by
  induction hr with
  | init => exact KingsInv_initial
  | step hprev hmk ih => exact makeMove_kings ih hmk

set_option maxRecDepth 16000 in
/-- **C1.** For every sequence of makeMove calls starting from the standard
initial game, the board holds exactly one king of each colour, and — the
mechanism enforcing it — makeMove in normal mode returns `false` whenever
the destination square holds a king. -/
theorem C1_one_king_per_colour {s : GameState} (hr : ReachableM s) :
    (kingCount s.board Colour.WHITE = 1 ∧ kingCount s.board Colour.BLACK = 1)
    ∧ ∀ (a b : Position) (r : Bool) (s' : GameState),
        makeMove false s a b = .ok (r, s') →
        ∀ kp : Piece, cellGet s.board b = some kp →
          kp.pieceType = PieceType.KING → r = false := by
  have hinv := ReachableM_KingsInv hr
  refine ⟨⟨hinv.2.1, hinv.2.2.1⟩, ?_⟩
  intro a b r s' hmk kp hk hkt
  exact makeMove_king_dest hinv.1 hmk hk hkt

set_option maxRecDepth 16000 in
/-- The kings theorem applied at the freshly started game. -/
theorem C1_one_king_per_colour_witness :
    (kingCount initialGameState.board Colour.WHITE = 1
      ∧ kingCount initialGameState.board Colour.BLACK = 1)
    ∧ ∀ (a b : Position) (r : Bool) (s' : GameState),
        makeMove false initialGameState a b = .ok (r, s') →
        ∀ kp : Piece, cellGet initialGameState.board b = some kp →
          kp.pieceType = PieceType.KING → r = false :=
  C1_one_king_per_colour ReachableM.init

end Chess
